import Mathlib

/-!
# hass-cli: the entity resolution engine (`internal/entity/resolver.go`)

A shallow embedding of the resolver of `hass-cli` and of the pieces of
`internal/config/config.go` and `internal/client/client.go` it reads.

Modelling conventions.

* Go strings are sequences of Unicode scalar values (valid UTF-8), i.e. Lean
  `String`s.  `len` and byte indexing go through the UTF-8 encoding
  (`gostr.utf8Bytes`); `strings.Contains` on valid UTF-8 is the same as
  containment of the character sequences, because UTF-8 is self-synchronising.
* `float64` scores are exact rationals (`ℚ`): every decimal literal denotes its
  decimal value and `+`, `*`, `/`, `>` are the exact operations.  The program
  rounds after every operation, so a computed score can differ from the
  modelled one in the last bits; this matters where two scores are compared
  for exact equality or a score sits at the threshold.  Relations between
  scores are stated along the order of operations of the code.
* Go's `unicode` tables are concrete on ASCII; beyond ASCII the letter and
  digit classes and the lower-case mapping are a parameter (`UnicodeTables`).
  `unicode.IsSpace` is the full `White_Space` set.
* Ranging over a Go map visits the entries in an unspecified order, so
  `scoreDomain` takes the visiting order of `domainMappings` as an argument.
* `sort.Slice` is taken as an argument of `ResolveEntity`; its documented
  contract is `SortSliceContract`.
-/

namespace gostr

/-- The Go type `string`. -/
abbrev GoString : Type := String

/-- Non-ASCII part of Go's `unicode` tables: `unicode.IsLetter`,
`unicode.IsDigit` and `unicode.ToLower` on runes `≥ 0x80`. -/
structure UnicodeTables where
  isLetter : Char → Bool
  isDigit : Char → Bool
  toLower : Char → Char

/-- Tables in which no rune beyond ASCII is a letter or a digit. -/
def asciiTables : UnicodeTables :=
  { isLetter := fun _ => false, isDigit := fun _ => false, toLower := fun c => c }

/-- `unicode.IsSpace`: the `White_Space` property. -/
def isSpace (c : Char) : Bool :=
  let n := c.toNat
  (9 ≤ n && n ≤ 13) || n == 32 || n == 0x85 || n == 0xA0 || n == 0x1680 ||
  (0x2000 ≤ n && n ≤ 0x200A) || n == 0x2028 || n == 0x2029 || n == 0x202F ||
  n == 0x205F || n == 0x3000

/-- `unicode.IsLetter`. -/
def isLetter (U : UnicodeTables) (c : Char) : Bool :=
  let n := c.toNat
  if n < 128 then (65 ≤ n && n ≤ 90) || (97 ≤ n && n ≤ 122) else U.isLetter c

/-- `unicode.IsDigit`. -/
def isDigit (U : UnicodeTables) (c : Char) : Bool :=
  let n := c.toNat
  if n < 128 then 48 ≤ n && n ≤ 57 else U.isDigit c

/-- `unicode.ToLower`. -/
def toLowerRune (U : UnicodeTables) (c : Char) : Char :=
  let n := c.toNat
  if n < 128 then (if 65 ≤ n && n ≤ 90 then Char.ofNat (n + 32) else c) else U.toLower c

/-- `strings.ToLower`: the rune-wise lower-case mapping. -/
def toLower (U : UnicodeTables) (s : String) : String :=
  ⟨s.data.map (toLowerRune U)⟩

/-- `strings.HasPrefix` on character lists. -/
def startsWith : List Char → List Char → Bool
  | _, [] => true
  | [], _ :: _ => false
  | c :: cs, d :: ds => c == d && startsWith cs ds

/-- Substring search on character lists. -/
def containsChars : List Char → List Char → Bool
  | [], sub => sub.isEmpty
  | c :: cs, sub => startsWith (c :: cs) sub || containsChars cs sub

/-- `strings.Contains`. -/
def contains (s sub : String) : Bool :=
  containsChars s.data sub.data

/-- Loop of `strings.Fields`: `cur` holds the current word, reversed. -/
def fieldsLoop (cur : List Char) : List Char → List String
  | [] => if cur.isEmpty then [] else [⟨cur.reverse⟩]
  | c :: cs =>
    if isSpace c then
      (if cur.isEmpty then fieldsLoop [] cs else ⟨cur.reverse⟩ :: fieldsLoop [] cs)
    else fieldsLoop (c :: cur) cs

/-- `strings.Fields`: the maximal runs of non-space runes. -/
def fields (s : String) : List String :=
  fieldsLoop [] s.data

/-- `strings.TrimSpace`. -/
def trimSpace (s : String) : String :=
  ⟨((s.data.dropWhile isSpace).reverse.dropWhile isSpace).reverse⟩

/-- `strings.Split(s, sep)` for a one-rune separator, on character lists. -/
def splitChars (sep : Char) : List Char → List (List Char)
  | [] => [[]]
  | c :: cs =>
    if c == sep then [] :: splitChars sep cs
    else
      match splitChars sep cs with
      | [] => [[c]]
      | h :: t => (c :: h) :: t

/-- `strings.Split(s, sep)` for a one-rune separator. -/
def split (s : String) (sep : Char) : List String :=
  (splitChars sep s.data).map String.mk

/-- UTF-8 encoding of one rune. -/
def utf8Rune (c : Char) : List Nat :=
  let n := c.toNat
  if n < 0x80 then [n]
  else if n < 0x800 then [0xC0 + n / 64, 0x80 + n % 64]
  else if n < 0x10000 then [0xE0 + n / 4096, 0x80 + n / 64 % 64, 0x80 + n % 64]
  else [0xF0 + n / 262144, 0x80 + n / 4096 % 64, 0x80 + n / 64 % 64, 0x80 + n % 64]

/-- The bytes of a Go string. -/
def utf8Bytes (s : String) : List Nat :=
  s.data.flatMap utf8Rune

/-- Go's `len(s)`: the number of bytes. -/
def len (s : String) : Nat :=
  (utf8Bytes s).length

end gostr

namespace config

/-- `config.HomeAssistantConfig`; durations are in nanoseconds. -/
structure HomeAssistantConfig where
  URL : String
  Token : String
  Timeout : Nat
  SkipTLSVerify : Bool
  CacheTimeout : Nat

/-- `config.PreferencesConfig`. -/
structure PreferencesConfig where
  FuzzyThreshold : ℚ
  DefaultArea : String
  AutoDiscovery : Bool

/-- `config.OutputConfig`. -/
structure OutputConfig where
  Format : String
  Color : Bool
  Verbosity : Int

/-- `config.DiscoveryConfig`; durations are in nanoseconds. -/
structure DiscoveryConfig where
  Enabled : Bool
  Timeout : Nat
  CustomPorts : List Int
  IPRanges : List String
  MDNSEnabled : Bool

/-- `config.SecurityConfig`. -/
structure SecurityConfig where
  UseKeyring : Bool
  KeyringService : String
  ConfigFilePerms : Nat

/-- `config.Config`; the alias map is an association list read with
`List.lookup`. -/
structure Config where
  HomeAssistant : HomeAssistantConfig
  Aliases : List (String × String)
  Preferences : PreferencesConfig
  Output : OutputConfig
  Discovery : DiscoveryConfig
  Security : SecurityConfig

/-- `time.Second` in nanoseconds. -/
def second : Nat := 1000000000

/-- `config.DefaultConfig`. -/
def DefaultConfig : Config :=
  { HomeAssistant :=
      { URL := "", Token := "", Timeout := 10 * second, SkipTLSVerify := false,
        CacheTimeout := 5 * 60 * second }
    Aliases := []
    Preferences := { FuzzyThreshold := 0.5, DefaultArea := "", AutoDiscovery := true }
    Output := { Format := "text", Color := true, Verbosity := 1 }
    Discovery :=
      { Enabled := true, Timeout := 30 * second, CustomPorts := [8123, 8124],
        IPRanges := [], MDNSEnabled := true }
    Security := { UseKeyring := true, KeyringService := "hass-cli", ConfigFilePerms := 0o600 } }

end config

namespace client

/-- A decoded JSON value held in an `interface{}`; only strings pass the
`.(string)` type assertion. -/
inductive AttrValue where
  | str (s : String)
  | num (q : ℚ)
  | bool (b : Bool)
  | null
  | other
  deriving DecidableEq

/-- `client.EntityState` (the two time stamps are not read by the resolver). -/
structure EntityState where
  EntityID : String
  State : String
  Attributes : List (String × AttrValue)

/-- `state.Attributes[key].(string)`: the value and the `ok` flag. -/
def attrString (attrs : List (String × AttrValue)) (key : String) : Option String :=
  match attrs.lookup key with
  | some (AttrValue.str s) => some s
  | _ => none

end client

namespace entity

open gostr config client

/-- `entity.EntityMatch`. -/
structure EntityMatch where
  EntityID : String
  FriendlyName : String
  Domain : String
  Area : String
  Score : ℚ
  deriving DecidableEq

/-- The three-argument `min` of resolver.go. -/
def min (a b c : Nat) : Nat :=
  if a < b ∧ a < c then a
  else if b < c then b
  else c

/-- Inner loop of `levenshteinDistance` for one `i`: `x` is `s1[i-1]`, the
second argument the rest of `s2`, the third `matrix[i-1][j-1:]` and the last
`matrix[i][j-1]`; the result is `matrix[i][j:]`. -/
def levRow (x : Nat) : List Nat → List Nat → Nat → List Nat
  | y :: ys, diag :: up :: prev, left =>
    let cost := if x ≠ y then 1 else 0
    let cell := min (up + 1) (left + 1) (diag + cost)
    cell :: levRow x ys (up :: prev) cell
  | _, _, _ => []

/-- Outer loop of `levenshteinDistance`: from row `i-1` of the matrix to its
last row. -/
def levRows : List Nat → List Nat → List Nat → Nat → List Nat
  | [], _, prev, _ => prev
  | x :: xs, s2, prev, i => levRows xs s2 (i :: levRow x s2 prev i) (i + 1)

/-- `levenshteinDistance` on the bytes of the two strings; the matrix is kept
row by row, row `0` being `0, 1, ..., len(s2)`. -/
def levenshteinDistance (s1 s2 : String) : Nat :=
  if len s1 = 0 then len s2
  else if len s2 = 0 then len s1
  else (levRows (utf8Bytes s1) (utf8Bytes s2) (List.range (len s2 + 1)) 1).getLastD 0

/-- `levenshteinSimilarity`. -/
def levenshteinSimilarity (s1 s2 : String) : ℚ :=
  if len s1 = 0 ∨ len s2 = 0 then 0
  else
    let distance := levenshteinDistance s1 s2
    let maxLen := if len s2 > len s1 then len s2 else len s1
    1 - (distance : ℚ) / (maxLen : ℚ)

/-- Body of the rune loop of `normalizeString` at one rune: what it writes to
the builder, if anything. -/
def normalizeRune (U : UnicodeTables) (r : Char) : Option Char :=
  if isLetter U r || isDigit U r then some (toLowerRune U r)
  else if isSpace r then some ' '
  else none

/-- Rune loop of `normalizeString`. -/
def normalizeRunes (U : UnicodeTables) : List Char → List Char
  | [] => []
  | r :: rest =>
    if isLetter U r || isDigit U r then toLowerRune U r :: normalizeRunes U rest
    else if isSpace r then ' ' :: normalizeRunes U rest
    else normalizeRunes U rest

/-- `normalizeString`. -/
def normalizeString (U : UnicodeTables) (s : String) : String :=
  trimSpace ⟨normalizeRunes U s.data⟩

/-- Inner word loop of `fuzzyMatch`. -/
def wordPairInner (word1 : String) : List String → Option ℚ
  | [] => none
  | word2 :: rest =>
    if word1 = word2 then some 0.8
    else if contains word1 word2 || contains word2 word1 then some 0.7
    else wordPairInner word1 rest

/-- Outer word loop of `fuzzyMatch`. -/
def wordPairLoop : List String → List String → Option ℚ
  | [], _ => none
  | word1 :: rest, words2 =>
    match wordPairInner word1 words2 with
    | some r => some r
    | none => wordPairLoop rest words2

/-- `fuzzyMatch`. -/
def fuzzyMatch (U : UnicodeTables) (s1 s2 : String) : ℚ :=
  if s1 = s2 then 1.0
  else
    let n1 := normalizeString U s1
    let n2 := normalizeString U s2
    if n1 = n2 then 1.0
    else if contains n1 n2 then 0.9
    else if contains n2 n1 then 0.9
    else
      match wordPairLoop (fields n1) (fields n2) with
      | some r => r
      | none => levenshteinSimilarity n1 n2

/-- `scoreName`. -/
def scoreName (U : UnicodeTables) (friendlyName entityName : String) : ℚ :=
  let normalizedFriendly := toLower U friendlyName
  let normalizedEntity := toLower U entityName
  if normalizedFriendly = normalizedEntity then 1.0
  else if contains normalizedFriendly normalizedEntity then 0.9
  else fuzzyMatch U normalizedFriendly normalizedEntity

/-- Word loop of `scoreArea`. -/
def areaWordLoop (normalizedArea : String) : List String → Option ℚ
  | [] => none
  | word :: rest =>
    if word = normalizedArea then some 1.0
    else if contains word normalizedArea then some 0.95
    else if contains normalizedArea word then some 0.90
    else areaWordLoop normalizedArea rest

/-- The area phrase `scoreArea` compares with: lower-cased, then replaced by
the lower-cased alias target when it is a key of the alias table. -/
def resolveAlias (U : UnicodeTables) (cfg : Config) (area : String) : String :=
  match cfg.Aliases.lookup (toLower U area) with
  | some target => toLower U target
  | none => toLower U area

/-- The part of `scoreArea` after the `area_id` check. -/
def scoreAreaFriendly (U : UnicodeTables) (m : EntityMatch) (normalizedArea : String) : ℚ :=
  let normalizedFriendly := toLower U m.FriendlyName
  match areaWordLoop normalizedArea (fields normalizedFriendly) with
  | some r => r
  | none =>
    if contains normalizedFriendly (" " ++ normalizedArea ++ " ") then 0.98
    else if contains normalizedFriendly (normalizedArea ++ " ") ||
        contains normalizedFriendly (" " ++ normalizedArea) then 0.95
    else
      let nameScore := fuzzyMatch U normalizedFriendly normalizedArea
      if nameScore > 0.6 then nameScore else 0.0

/-- `scoreArea`. -/
def scoreArea (U : UnicodeTables) (cfg : Config) (m : EntityMatch) (area : String) : ℚ :=
  let normalizedArea := resolveAlias U cfg area
  let areaHit : Option ℚ :=
    if m.Area ≠ "" then
      let areaScore := fuzzyMatch U (toLower U m.Area) normalizedArea
      if areaScore > 0.8 then some areaScore else none
    else none
  match areaHit with
  | some r => r
  | none => scoreAreaFriendly U m normalizedArea

/-- The literal `domainMappings` of `scoreDomain`, in declaration order. -/
def domainMappings : List (String × List String) :=
  [("light", ["light", "lights", "lamp", "lamps", "bulb", "bulbs"]),
   ("switch", ["switch", "switches", "outlet", "outlets", "plug", "plugs"]),
   ("fan", ["fan", "fans", "ceiling", "exhaust"]),
   ("climate", ["climate", "thermostat", "ac", "heat", "temp", "temperature", "hvac"]),
   ("cover", ["cover", "covers", "blind", "blinds", "curtain", "curtains", "shade", "shades",
     "garage", "door", "doors"]),
   ("sensor", ["sensor", "sensors", "temperature", "humidity", "motion", "occupancy"])]

/-- An order in which `range domainMappings` may visit the map: any
arrangement of its six entries. -/
def IsMapOrder (order : List (String × List String)) : Prop :=
  order.Perm domainMappings

/-- Keyword loop of `scoreDomain` for one map entry; `none` when no keyword
of the entry is contained in the phrase. -/
def keywordLoop (normalizedType domain targetDomain : String) : List String → Option ℚ
  | [] => none
  | keyword :: rest =>
    if contains normalizedType keyword then
      (if domain = targetDomain then some 1.0 else some 0.0)
    else keywordLoop normalizedType domain targetDomain rest

/-- Entry loop of `scoreDomain` over the entries in visiting order. -/
def mappingLoop (normalizedType domain : String) : List (String × List String) → ℚ
  | [] => 0.0
  | (targetDomain, keywords) :: rest =>
    match keywordLoop normalizedType domain targetDomain keywords with
    | some r => r
    | none => mappingLoop normalizedType domain rest

/-- Whether some keyword of the map entry `e` is contained in the phrase. -/
def entryHits (normalizedType : String) (e : String × List String) : Bool :=
  e.2.any (fun keyword => contains normalizedType keyword)

/-- `scoreDomain`; `order` is the order in which the map entries are
visited on this call. -/
def scoreDomain (U : UnicodeTables) (order : List (String × List String))
    (domain entityType : String) : ℚ :=
  mappingLoop (toLower U entityType) domain order

/-- `strings.Split(s, sep)[0]`; index `0` is in range for every `s`. -/
def splitFirst (s : String) (sep : Char) : String :=
  (split s sep).head (by
    unfold split
    cases h : s.data with
    | nil => simp [splitChars]
    | cons c cs =>
      simp only [splitChars]
      split
      · simp
      · split <;> simp)

/-- The fields of the match `scoreEntity` fills in before scoring. -/
def baseMatch (state : EntityState) : EntityMatch :=
  let m : EntityMatch :=
    { EntityID := state.EntityID, FriendlyName := "", Domain := splitFirst state.EntityID '.',
      Area := "", Score := 0 }
  let m : EntityMatch :=
    match attrString state.Attributes "friendly_name" with
    | some friendlyName => { m with FriendlyName := friendlyName }
    | none => { m with FriendlyName := state.EntityID }
  match attrString state.Attributes "area_id" with
  | some areaName => { m with Area := areaName }
  | none => m

/-- The score after the entity-type step of `scoreEntity`; `none` is the
early `return match` of the domain gate. -/
def typeStep (U : UnicodeTables) (order : List (String × List String)) (m : EntityMatch)
    (entityType : String) : Option ℚ :=
  if entityType ≠ "" then
    let domainScore := scoreDomain U order m.Domain entityType
    if domainScore = 0 then none else some (0 + domainScore * 0.4)
  else some 0

/-- `scoreEntity`; `order` is the visiting order of the map in its call of
`scoreDomain`. -/
def scoreEntity (U : UnicodeTables) (cfg : Config) (order : List (String × List String))
    (state : EntityState) (area entityType entityName : String) : EntityMatch :=
  let m := baseMatch state
  match typeStep U order m entityType with
  | none => m
  | some score =>
    let score := if area ≠ "" then score + scoreArea U cfg m area * 0.3 else score
    let score :=
      if entityName ≠ "" then score + scoreName U m.FriendlyName entityName * 0.3 else score
    let score := if state.State = "unavailable" then score * 0.95 else score
    let wordCount := (fields m.FriendlyName).length
    let score :=
      if wordCount > 2 then score + 0.01 * (((wordCount : Int) - 2 : Int) : ℚ) else score
    { m with Score := score }

/-- Loop of `findMatches` from call number `i` on; `iter k` is the visiting
order of the map in the `k`-th call of `scoreEntity`. -/
def findMatchesLoop (U : UnicodeTables) (cfg : Config)
    (iter : Nat → List (String × List String)) (area entityType entityName : String) :
    Nat → List EntityMatch → List EntityState → List EntityMatch
  | _, acc, [] => acc
  | i, acc, state :: rest =>
    let m := scoreEntity U cfg (iter i) state area entityType entityName
    if m.Score > cfg.Preferences.FuzzyThreshold then
      findMatchesLoop U cfg iter area entityType entityName (i + 1) (acc ++ [m]) rest
    else findMatchesLoop U cfg iter area entityType entityName (i + 1) acc rest

/-- `findMatches`. -/
def findMatches (U : UnicodeTables) (cfg : Config) (iter : Nat → List (String × List String))
    (states : List EntityState) (area entityType entityName : String) : List EntityMatch :=
  findMatchesLoop U cfg iter area entityType entityName 0 [] states

/-- Loop of `DebugFindMatches` from call number `i` on. -/
def debugLoop (U : UnicodeTables) (cfg : Config)
    (iter : Nat → List (String × List String)) (area entityType entityName : String) :
    Nat → List EntityMatch → List EntityState → List EntityMatch
  | _, acc, [] => acc
  | i, acc, state :: rest =>
    let m := scoreEntity U cfg (iter i) state area entityType entityName
    debugLoop U cfg iter area entityType entityName (i + 1) (acc ++ [m]) rest

/-- `DebugFindMatches`. -/
def DebugFindMatches (U : UnicodeTables) (cfg : Config)
    (iter : Nat → List (String × List String))
    (states : List EntityState) (area entityType entityName : String) : List EntityMatch :=
  debugLoop U cfg iter area entityType entityName 0 [] states

/-- The comparison closure handed to `sort.Slice` in `ResolveEntity`. -/
def lessByScore (a b : EntityMatch) : Bool :=
  if a.Score ≠ b.Score then decide (a.Score > b.Score) else false

/-- The documented contract of `sort.Slice` with `lessByScore`: the slice is
rearranged, and afterwards no element is less than an earlier one.  The sort
is not required to be stable. -/
def SortSliceContract (sortSlice : List EntityMatch → List EntityMatch) : Prop :=
  ∀ l, (sortSlice l).Perm l ∧ (sortSlice l).Pairwise (fun a b => lessByScore b a = false)

/-- The failures of `ResolveEntity`: the wrapped `GetStates` error, the
"no entities found matching criteria" error, and an index out of range. -/
inductive ResolveError where
  | fetchFailed (err : String)
  | noMatch
  | indexOutOfRange
  deriving DecidableEq

/-- `ResolveEntity`; `fetched` is the result of `r.client.GetStates(ctx)`. -/
def ResolveEntity (U : UnicodeTables) (cfg : Config)
    (sortSlice : List EntityMatch → List EntityMatch)
    (iter : Nat → List (String × List String))
    (fetched : Except String (List EntityState)) (area entityType entityName : String) :
    Except ResolveError EntityMatch :=
  match fetched with
  | .error err => .error (.fetchFailed err)
  | .ok states =>
    let fm := findMatches U cfg iter states area entityType entityName
    if fm.length = 0 then .error .noMatch
    else if fm.length = 1 then
      match fm with
      | m0 :: _ => .ok m0
      | [] => .error .indexOutOfRange
    else
      match sortSlice fm with
      | m0 :: m1 :: _ => if m0.Score > m1.Score + 0.05 then .ok m0 else .ok m0
      | _ => .error .indexOutOfRange

/-- `entity.EntityType`. -/
inductive EntityType where
  | EntityTypeLight
  | EntityTypeSwitch
  | EntityTypeFan
  | EntityTypeClimate
  | EntityTypeCover
  | EntityTypeSensor
  | EntityTypeUnknown
  deriving DecidableEq

open EntityType in
/-- `EntityType.String`. -/
def EntityType.String : EntityType → String
  | EntityTypeLight => "light"
  | EntityTypeSwitch => "switch"
  | EntityTypeFan => "fan"
  | EntityTypeClimate => "climate"
  | EntityTypeCover => "cover"
  | EntityTypeSensor => "sensor"
  | EntityTypeUnknown => "unknown"

/-- `EntityType.Domain`. -/
def EntityType.Domain (et : EntityType) : GoString :=
  et.String

open EntityType in
/-- `ParseEntityType`. -/
def ParseEntityType (U : UnicodeTables) (s : String) : EntityType :=
  let l := toLower U s
  if l ∈ ["light", "lights", "lamp", "lamps", "bulb", "bulbs"] then EntityTypeLight
  else if l ∈ ["switch", "switches", "outlet", "outlets", "plug", "plugs"] then EntityTypeSwitch
  else if l ∈ ["fan", "fans"] then EntityTypeFan
  else if l ∈ ["climate", "thermostat", "ac", "heat", "hvac"] then EntityTypeClimate
  else if l ∈ ["cover", "covers", "blind", "blinds", "curtain", "curtains", "shade", "shades",
      "garage", "door", "doors"] then EntityTypeCover
  else if l ∈ ["sensor", "sensors"] then EntityTypeSensor
  else EntityTypeUnknown

/-- `ParseAction`. -/
def ParseAction (U : UnicodeTables) (s : String) : String :=
  let l := toLower U s
  if l ∈ ["on", "turn_on", "enable", "open"] then "turn_on"
  else if l ∈ ["off", "turn_off", "disable", "close"] then "turn_off"
  else if l ∈ ["toggle", "switch"] then "toggle"
  else s

/-- The order `lessByScore` sorts into: `a` may stand before `b`. -/
def scoreGE (a b : EntityMatch) : Prop :=
  b.Score ≤ a.Score

instance scoreGE_decidable : DecidableRel scoreGE :=
  fun a b => inferInstanceAs (Decidable (b.Score ≤ a.Score))

/-- A `sort.Slice` that keeps equal scores in their original order (what
insertion sort does). -/
def stableSortSlice (l : List EntityMatch) : List EntityMatch :=
  l.insertionSort scoreGE

/-- A `sort.Slice` that puts equal scores in the reverse of their original
order. -/
def reversingSortSlice (l : List EntityMatch) : List EntityMatch :=
  l.reverse.insertionSort scoreGE

/-- Proof side: every cell of a part of row `i` of the Levenshtein matrix
that starts at column `j0` is at most the larger of its two indices. -/
def RowBounded (i j0 : Nat) (row : List Nat) : Prop :=
  ∀ (k : Nat) (h : k < row.length), row.get ⟨k, h⟩ ≤ Nat.max i (j0 + k)

/-- Spec side: the word pairs in the order the two loops of `fuzzyMatch`
visit them, outer loop over the first list. -/
def wordPairs (words1 words2 : List String) : List (String × String) :=
  words1.flatMap (fun word1 => words2.map (fun word2 => (word1, word2)))

/-- Spec side: the pair is equal or one word contains the other. -/
def pairHit (p : String × String) : Bool :=
  decide (p.1 = p.2) || (contains p.1 p.2 || contains p.2 p.1)

/-- Property of Go's `unicode.ToLower`: lower-casing a lower-cased rune
changes nothing. -/
def LowerIdempotent (U : UnicodeTables) : Prop :=
  ∀ c : Char, toLowerRune U (toLowerRune U c) = toLowerRune U c

/-- Spec side: the word equals the area phrase, contains it, or is contained
in it. -/
def wordRelated (normalizedArea word : String) : Bool :=
  decide (word = normalizedArea) || (contains word normalizedArea || contains normalizedArea word)

/-- Spec side: the score the word loop of `scoreArea` gives a related word. -/
def wordScore (normalizedArea word : String) : ℚ :=
  if word = normalizedArea then 1.0
  else if contains word normalizedArea then 0.95
  else 0.90

/-- Property of Go's `unicode` tables: the lower-case form of a letter or
digit is a letter or digit. -/
def LowerKeepsLetterDigit (U : UnicodeTables) : Prop :=
  ∀ c : Char, (isLetter U c || isDigit U c) = true →
    (isLetter U (toLowerRune U c) || isDigit U (toLowerRune U c)) = true

/-- Spec side: one row of the recursive edit distance.  `x` is the last
byte of the first string, `above` the distance from the first string without
`x`, `n` the length of the first string; the argument is the second string,
last byte first. -/
def editRow (x : Nat) (above : List Nat → Nat) (n : Nat) : List Nat → Nat
  | [] => n
  | y :: rb =>
    Nat.min (above (y :: rb) + 1)
      (Nat.min (editRow x above n rb + 1) (above rb + if x = y then 0 else 1))

/-- Spec side: the classic unit-cost edit distance by recursion on the last
bytes, both strings given last byte first: `d("", b) = len b`,
`d(a, "") = len a`, `d(a·x, b·y) = min(d(a, b·y) + 1, d(a·x, b) + 1,
d(a, b) + (0 if x = y else 1))`. -/
def editSnoc : List Nat → List Nat → Nat
  | [], rb => rb.length
  | x :: ra, rb => editRow x (editSnoc ra) (ra.length + 1) rb

/-- Spec side: the classic unit-cost edit distance of two byte strings. -/
def classicDistance (a b : List Nat) : Nat :=
  editSnoc a.reverse b.reverse

/-- Proof side: the row of the Levenshtein matrix for the first string `ra`
(last byte first), from the column of `rb` (last byte first) on, `ys` being
the rest of the second string. -/
def specRow (ra : List Nat) : List Nat → List Nat → List Nat
  | rb, [] => [editSnoc ra rb]
  | rb, y :: ys => editSnoc ra rb :: specRow ra (y :: rb) ys

/-- Spec side: the friendly-name part of `scoreArea` without the two
explicit-boundary checks (0.98 and 0.95). -/
def scoreAreaFriendlyNoBoundary (U : UnicodeTables) (m : EntityMatch)
    (normalizedArea : String) : ℚ :=
  let normalizedFriendly := toLower U m.FriendlyName
  match areaWordLoop normalizedArea (fields normalizedFriendly) with
  | some r => r
  | none =>
    let nameScore := fuzzyMatch U normalizedFriendly normalizedArea
    if nameScore > 0.6 then nameScore else 0.0

/-- Spec side: `scoreArea` without the two explicit-boundary checks. -/
def scoreAreaNoBoundary (U : UnicodeTables) (cfg : Config) (m : EntityMatch)
    (area : String) : ℚ :=
  let normalizedArea := resolveAlias U cfg area
  let areaHit : Option ℚ :=
    if m.Area ≠ "" then
      let areaScore := fuzzyMatch U (toLower U m.Area) normalizedArea
      if areaScore > 0.8 then some areaScore else none
    else none
  match areaHit with
  | some r => r
  | none => scoreAreaFriendlyNoBoundary U m normalizedArea

/-! ## Quantities named by the specification of the composite score -/

/-- Spec side: the availability factor, 0.95 for state "unavailable" and 1
otherwise. -/
def availabilityFactor (state : EntityState) : ℚ :=
  if state.State = "unavailable" then 0.95 else 1

/-- Spec side: the specificity bonus of a friendly name, 0.01 for each
whitespace-separated word beyond the second. -/
def specificityBonus (friendlyName : String) : ℚ :=
  if (fields friendlyName).length > 2 then
    0.01 * (((fields friendlyName).length : ℚ) - 2)
  else 0

/-- Spec side: the weighted sum `0.4*d + 0.3*a + 0.3*n`, each term present
only when its query field is non-empty. -/
def weightedSum (U : UnicodeTables) (cfg : Config) (order : List (String × List String))
    (state : EntityState) (area entityType entityName : String) : ℚ :=
  (if entityType ≠ "" then
      0.4 * scoreDomain U order (splitFirst state.EntityID '.') entityType else 0) +
  (if area ≠ "" then 0.3 * scoreArea U cfg (baseMatch state) area else 0) +
  (if entityName ≠ "" then 0.3 * scoreName U (baseMatch state).FriendlyName entityName else 0)

/-! ## Example inputs -/

/-- The entity of `TestResolverScoreEntity`. -/
def livingRoomLamp : EntityState :=
  { EntityID := "light.living_room_lamp", State := "on",
    Attributes :=
      [("friendly_name", AttrValue.str "Living Room Lamp"),
       ("area_id", AttrValue.str "living_room")] }

/-- A light whose friendly name has four words. -/
def fourWordLight : EntityState :=
  { EntityID := "light.desk", State := "on",
    Attributes := [("friendly_name", AttrValue.str "big old desk lamp")] }

/-- A light whose friendly name has two words. -/
def twoWordLight : EntityState :=
  { EntityID := "light.floor", State := "on",
    Attributes := [("friendly_name", AttrValue.str "floor lamp")] }

/-- A switch, which the type phrase "light" disqualifies. -/
def kitchenSwitch : EntityState :=
  { EntityID := "switch.kitchen_light", State := "on",
    Attributes := [("friendly_name", AttrValue.str "Kitchen Light Switch Main")] }

/-- An unavailable light whose friendly name has three words. -/
def unavailableLight : EntityState :=
  { EntityID := "light.desk", State := "unavailable",
    Attributes := [("friendly_name", AttrValue.str "big desk lamp")] }

/-- The same light, available. -/
def availableLight : EntityState :=
  { EntityID := "light.desk", State := "on",
    Attributes := [("friendly_name", AttrValue.str "big desk lamp")] }

/-- A light without `area_id` whose friendly name has three words. -/
def kitchenMain : EntityState :=
  { EntityID := "light.kitchen_main", State := "on",
    Attributes := [("friendly_name", AttrValue.str "kitchen main light")] }

/-- A light called "desk lamp". -/
def deskLamp (id : String) : EntityState :=
  { EntityID := id, State := "on", Attributes := [("friendly_name", AttrValue.str "desk lamp")] }

/-- A light called "big desk lamp". -/
def bigDeskLamp (id : String) : EntityState :=
  { EntityID := id, State := "on",
    Attributes := [("friendly_name", AttrValue.str "big desk lamp")] }

/-- Thirteen lights; the second and the ninth are called "big desk lamp",
the others "desk lamp". -/
def thirteenLamps : List EntityState :=
  [deskLamp "light.l00",
   bigDeskLamp "light.l01",
   deskLamp "light.l02",
   deskLamp "light.l03",
   deskLamp "light.l04",
   deskLamp "light.l05",
   deskLamp "light.l06",
   deskLamp "light.l07",
   bigDeskLamp "light.l08",
   deskLamp "light.l09",
   deskLamp "light.l10",
   deskLamp "light.l11",
   deskLamp "light.l12"]

/-- The match `scoreEntity` gives a light for the query (type "light", name
"lamp") when its friendly name contains "lamp". -/
def lampMatch (id friendlyName : String) (score : ℚ) : EntityMatch :=
  { EntityID := id, FriendlyName := friendlyName, Domain := "light", Area := "", Score := score }

/-- A visiting order of the keyword map that starts at its last entry:
sensor, light, switch, fan, climate, cover. -/
def sensorFirstOrder : List (String × List String) :=
  domainMappings.rotate 5

/-- A sensor whose friendly name is "Outdoor". -/
def outdoorSensor : EntityState :=
  { EntityID := "sensor.t1", State := "on",
    Attributes := [("friendly_name", AttrValue.str "Outdoor")] }

/-- A configuration whose alias table maps "lr" to "Living Room". -/
def aliasConfig : Config :=
  { DefaultConfig with Aliases := [("lr", "Living Room")] }

/-- A match without area tag whose friendly name has the word "kitchen"
after a word that contains it. -/
def kitchenetteMatch : EntityMatch :=
  { EntityID := "light.k", FriendlyName := "Kitchenette Kitchen", Domain := "light",
    Area := "", Score := 0 }

/-- A match with the area tag "living_room". -/
def livingRoomMatch : EntityMatch :=
  { EntityID := "light.living_room_lamp", FriendlyName := "Living Room Lamp",
    Domain := "light", Area := "living_room", Score := 0 }

end entity

namespace entity
open gostr config client

/-! ## Helper lemmas on `scoreDomain` -/

theorem keywordLoop_eq (nt d t : String) (kws : List String) :
    keywordLoop nt d t kws =
      if kws.any (fun keyword => contains nt keyword) then
        (if d = t then some 1.0 else some 0.0) else none := by
  induction kws with
  | nil => simp [keywordLoop]
  | cons k ks ih =>
    simp only [keywordLoop, List.any_cons]
    by_cases hk : contains nt k = true
    · simp [hk]
    · simp only [hk, if_false, Bool.false_or, ih]
      rfl

theorem mappingLoop_unique (nt d c : String) (order : List (String × List String))
    (huniq : ∀ e ∈ order, entryHits nt e = true → e.1 = c)
    (hex : ∃ e ∈ order, entryHits nt e = true) :
    mappingLoop nt d order = if d = c then 1 else 0 := by
  induction order with
  | nil => obtain ⟨e, he, _⟩ := hex; simp at he
  | cons e rest ih =>
    obtain ⟨t, kws⟩ := e
    simp only [mappingLoop, keywordLoop_eq]
    by_cases hh : entryHits nt (t, kws) = true
    · have ht : t = c := huniq (t, kws) (List.mem_cons_self _ _) hh
      have hh' : kws.any (fun keyword => contains nt keyword) = true := hh
      subst ht
      by_cases hd : d = t <;> simp [hh', hd] <;> norm_num
    · have hh' : kws.any (fun keyword => contains nt keyword) = false := by
        simpa [entryHits] using hh
      rw [hh']
      simp only [Bool.false_eq_true, if_false]
      apply ih
      · intro e he; exact huniq e (List.mem_cons_of_mem _ he)
      · obtain ⟨e, he, hhit⟩ := hex
        rcases List.mem_cons.mp he with rfl | he'
        · exact absurd hhit hh
        · exact ⟨e, he', hhit⟩

theorem scoreDomain_unique (U : UnicodeTables) (order : List (String × List String))
    (d ty c : String) (hO : IsMapOrder order)
    (huniq : ∀ e ∈ domainMappings, entryHits (toLower U ty) e = true → e.1 = c)
    (hex : ∃ e ∈ domainMappings, entryHits (toLower U ty) e = true) :
    scoreDomain U order d ty = if d = c then 1 else 0 := by
  unfold scoreDomain
  apply mappingLoop_unique
  · intro e he; exact huniq e ((List.Perm.mem_iff hO).mp he)
  · obtain ⟨e, he, hh⟩ := hex
    exact ⟨e, (List.Perm.mem_iff hO).mpr he, hh⟩

theorem scoreDomain_light_light (U : UnicodeTables) (order : List (String × List String))
    (hO : IsMapOrder order) : scoreDomain U order "light" "light" = 1 := by
  have h := scoreDomain_unique U order "light" "light" "light" hO
    (by
      have : toLower U "light" = "light" := rfl
      rw [this]; decide)
    (by
      have : toLower U "light" = "light" := rfl
      rw [this]; decide)
  simpa using h

/-! ## `scoreEntity` -/

theorem resolveAlias_no_alias (U : UnicodeTables) (cfg : Config) (area : String)
    (hA : cfg.Aliases = []) : resolveAlias U cfg area = toLower U area := by
  unfold resolveAlias
  rw [hA]
  rfl

/-- C1: for the entity `light.living_room_lamp` (state "on", friendly name
"Living Room Lamp", area "living_room"), an empty alias table and the query
(area "living", type "light", name "lamp"), `scoreEntity` returns the id, the
friendly name, the domain "light", the area "living_room" and a score
strictly above 0.6 -- for every Unicode table and every visiting order of the
keyword map. -/
theorem C1_scoreEntity_living_room_lamp (U : UnicodeTables) (cfg : Config)
    (order : List (String × List String)) (hA : cfg.Aliases = []) (hO : IsMapOrder order) :
    (scoreEntity U cfg order livingRoomLamp "living" "light" "lamp").EntityID
        = "light.living_room_lamp" ∧
    (scoreEntity U cfg order livingRoomLamp "living" "light" "lamp").FriendlyName
        = "Living Room Lamp" ∧
    (scoreEntity U cfg order livingRoomLamp "living" "light" "lamp").Domain = "light" ∧
    (scoreEntity U cfg order livingRoomLamp "living" "light" "lamp").Area = "living_room" ∧
    (scoreEntity U cfg order livingRoomLamp "living" "light" "lamp").Score > 0.6 := by
  have hb : baseMatch livingRoomLamp =
      { EntityID := "light.living_room_lamp", FriendlyName := "Living Room Lamp",
        Domain := "light", Area := "living_room", Score := 0 } := by decide
  have hd : scoreDomain U order "light" "light" = 1 := scoreDomain_light_light U order hO
  have hty : typeStep U order (baseMatch livingRoomLamp) "light" = some (0 + 1 * 0.4) := by
    unfold typeStep
    rw [hb]
    simp only [hd]
    simp
  have hf : fuzzyMatch U (toLower U "living_room") (toLower U "living") = 0.9 := rfl
  have ha : scoreArea U cfg (baseMatch livingRoomLamp) "living" = 0.9 := by
    unfold scoreArea
    rw [resolveAlias_no_alias U cfg _ hA, hb]
    have hne : ¬ (("living_room" : String) = "") := by decide
    simp only [hf, hne, ne_eq, not_false_eq_true, if_true]
    norm_num
  have hn : scoreName U (baseMatch livingRoomLamp).FriendlyName "lamp" = 0.9 := rfl
  have hw : (fields (baseMatch livingRoomLamp).FriendlyName).length = 3 := by decide
  have hs : (scoreEntity U cfg order livingRoomLamp "living" "light" "lamp") =
      { baseMatch livingRoomLamp with Score := 0.95 } := by
    unfold scoreEntity
    simp only [hty, ha, hn, hw]
    have h1 : ("living" : String) ≠ "" := by decide
    have h2 : ("lamp" : String) ≠ "" := by decide
    have h3 : ¬ (livingRoomLamp.State = "unavailable") := by decide
    simp only [h1, h2, h3, ne_eq, not_false_eq_true, if_true, if_false]
    norm_num
  rw [hs, hb]
  refine ⟨rfl, rfl, rfl, rfl, ?_⟩
  norm_num

/-- C1 at the ASCII tables, the default configuration and the declaration
order of the map. -/
theorem C1_scoreEntity_living_room_lamp_witness :
    (scoreEntity asciiTables DefaultConfig domainMappings livingRoomLamp
        "living" "light" "lamp").EntityID = "light.living_room_lamp" ∧
    (scoreEntity asciiTables DefaultConfig domainMappings livingRoomLamp
        "living" "light" "lamp").FriendlyName = "Living Room Lamp" ∧
    (scoreEntity asciiTables DefaultConfig domainMappings livingRoomLamp
        "living" "light" "lamp").Domain = "light" ∧
    (scoreEntity asciiTables DefaultConfig domainMappings livingRoomLamp
        "living" "light" "lamp").Area = "living_room" ∧
    (scoreEntity asciiTables DefaultConfig domainMappings livingRoomLamp
        "living" "light" "lamp").Score > 0.6 :=
  C1_scoreEntity_living_room_lamp asciiTables DefaultConfig domainMappings rfl
    (List.Perm.refl _)

theorem baseMatch_EntityID (state : EntityState) :
    (baseMatch state).EntityID = state.EntityID := by
  unfold baseMatch
  split <;> split <;> rfl

theorem baseMatch_Domain (state : EntityState) :
    (baseMatch state).Domain = splitFirst state.EntityID '.' := by
  unfold baseMatch
  split <;> split <;> rfl

theorem baseMatch_Score (state : EntityState) : (baseMatch state).Score = 0 := by
  unfold baseMatch
  split <;> split <;> rfl

theorem typeStep_gate (U : UnicodeTables) (order : List (String × List String))
    (state : EntityState) (entityType : String) (hT : entityType ≠ "")
    (hD : scoreDomain U order (splitFirst state.EntityID '.') entityType = 0) :
    typeStep U order (baseMatch state) entityType = none := by
  unfold typeStep
  rw [baseMatch_Domain]
  simp [hT, hD]

theorem typeStep_pass (U : UnicodeTables) (order : List (String × List String))
    (state : EntityState) (entityType : String)
    (hgate : entityType = "" ∨
      scoreDomain U order (splitFirst state.EntityID '.') entityType ≠ 0) :
    typeStep U order (baseMatch state) entityType =
      some (if entityType ≠ "" then
        0.4 * scoreDomain U order (splitFirst state.EntityID '.') entityType else 0) := by
  unfold typeStep
  rw [baseMatch_Domain]
  by_cases hT : entityType = ""
  · simp [hT]
  · rcases hgate with h | h
    · exact absurd h hT
    · simp only [ne_eq, hT, not_false_eq_true, if_true, h, if_false]
      congr 1
      ring

theorem scoreEntity_gated (U : UnicodeTables) (cfg : Config)
    (order : List (String × List String)) (state : EntityState)
    (area entityType entityName : String) (hT : entityType ≠ "")
    (hD : scoreDomain U order (splitFirst state.EntityID '.') entityType = 0) :
    scoreEntity U cfg order state area entityType entityName = baseMatch state := by
  unfold scoreEntity
  simp only [typeStep_gate U order state entityType hT hD]

/-- C2 (hard gate): whenever the type phrase is non-empty and `scoreDomain`
gives the entity's domain 0.0, `scoreEntity` returns score 0 -- whatever the
area phrase, the name phrase, the state and the friendly name. -/
theorem C2_domain_gate_scores_zero (U : UnicodeTables) (cfg : Config)
    (order : List (String × List String)) (state : EntityState)
    (area entityType entityName : String) (hT : entityType ≠ "")
    (hD : scoreDomain U order (splitFirst state.EntityID '.') entityType = 0) :
    (scoreEntity U cfg order state area entityType entityName).Score = 0 := by
  unfold scoreEntity
  simp only [typeStep_gate U order state entityType hT hD]
  exact baseMatch_Score state

theorem kitchenSwitch_gated :
    scoreDomain asciiTables domainMappings (splitFirst kitchenSwitch.EntityID '.') "light"
      = 0 := by
  have h : scoreDomain asciiTables domainMappings (splitFirst kitchenSwitch.EntityID '.')
      "light" = 0.0 := rfl
  rw [h]
  norm_num

/-- C2 at a switch with a four-word friendly name that contains the area and
the name phrase, asked for as a "light". -/
theorem C2_domain_gate_scores_zero_witness :
    ("light" : String) ≠ "" ∧
    scoreDomain asciiTables domainMappings (splitFirst kitchenSwitch.EntityID '.') "light" = 0 ∧
    (scoreEntity asciiTables DefaultConfig domainMappings kitchenSwitch
      "kitchen" "light" "kitchen light").Score = 0 :=
  ⟨by decide, kitchenSwitch_gated,
    C2_domain_gate_scores_zero asciiTables DefaultConfig domainMappings kitchenSwitch
      "kitchen" "light" "kitchen light" (by decide) kitchenSwitch_gated⟩

theorem scoreEntity_Score_formula (U : UnicodeTables) (cfg : Config)
    (order : List (String × List String)) (state : EntityState)
    (area entityType entityName : String)
    (hgate : entityType = "" ∨
      scoreDomain U order (splitFirst state.EntityID '.') entityType ≠ 0) :
    (scoreEntity U cfg order state area entityType entityName).Score =
      availabilityFactor state * weightedSum U cfg order state area entityType entityName +
        specificityBonus (baseMatch state).FriendlyName := by
  unfold scoreEntity
  simp only [typeStep_pass U order state entityType hgate]
  unfold availabilityFactor weightedSum specificityBonus
  by_cases hA : area = "" <;> by_cases hN : entityName = "" <;>
    by_cases hS : state.State = "unavailable" <;>
    by_cases hW : (fields (baseMatch state).FriendlyName).length > 2 <;>
    simp only [hA, hN, hS, hW, ne_eq, not_true_eq_false, not_false_eq_true, if_true, if_false] <;>
    push_cast <;> ring

/-- C3: when the domain gate does not stop the scoring, the score is
`A * (0.4*d + 0.3*a + 0.3*n) + B` with each term present only for a non-empty
query field, `A` the availability factor and `B` the specificity bonus; and an
entity with a four-word friendly name scores exactly 0.02 more than one with
a two-word friendly name whose sub-scores and state are the same. -/
theorem C3_composite_score_formula (U : UnicodeTables) (cfg : Config)
    (order : List (String × List String)) (state : EntityState)
    (area entityType entityName : String)
    (hgate : entityType = "" ∨
      scoreDomain U order (splitFirst state.EntityID '.') entityType ≠ 0) :
    (scoreEntity U cfg order state area entityType entityName).Score =
      availabilityFactor state * weightedSum U cfg order state area entityType entityName +
        specificityBonus (baseMatch state).FriendlyName ∧
    ∀ (order2 : List (String × List String)) (state2 : EntityState),
      (entityType = "" ∨
        scoreDomain U order2 (splitFirst state2.EntityID '.') entityType ≠ 0) →
      (entityType ≠ "" →
        scoreDomain U order2 (splitFirst state2.EntityID '.') entityType =
          scoreDomain U order (splitFirst state.EntityID '.') entityType) →
      (area ≠ "" → scoreArea U cfg (baseMatch state2) area = scoreArea U cfg (baseMatch state) area) →
      (entityName ≠ "" →
        scoreName U (baseMatch state2).FriendlyName entityName =
          scoreName U (baseMatch state).FriendlyName entityName) →
      state2.State = state.State →
      (fields (baseMatch state).FriendlyName).length = 4 →
      (fields (baseMatch state2).FriendlyName).length = 2 →
      (scoreEntity U cfg order state area entityType entityName).Score =
        (scoreEntity U cfg order2 state2 area entityType entityName).Score + 0.02 := by
  refine ⟨scoreEntity_Score_formula U cfg order state area entityType entityName hgate, ?_⟩
  intro order2 state2 hgate2 hd ha hn hst hw4 hw2
  rw [scoreEntity_Score_formula U cfg order state area entityType entityName hgate,
    scoreEntity_Score_formula U cfg order2 state2 area entityType entityName hgate2]
  have hA : availabilityFactor state2 = availabilityFactor state := by
    unfold availabilityFactor
    rw [hst]
  have hW : weightedSum U cfg order2 state2 area entityType entityName =
      weightedSum U cfg order state area entityType entityName := by
    unfold weightedSum
    by_cases hT : entityType = "" <;> by_cases hAr : area = "" <;>
      by_cases hN : entityName = "" <;>
      simp only [hT, hAr, hN, ne_eq, not_true_eq_false, not_false_eq_true, if_true, if_false]
    all_goals
      first
        | rw [hd hT, ha hAr, hn hN]
        | rw [hd hT, ha hAr]
        | rw [hd hT, hn hN]
        | rw [ha hAr, hn hN]
        | rw [hd hT]
        | rw [ha hAr]
        | rw [hn hN]
  have hB : specificityBonus (baseMatch state).FriendlyName = 0.02 := by
    unfold specificityBonus
    rw [hw4]
    norm_num
  have hB2 : specificityBonus (baseMatch state2).FriendlyName = 0 := by
    unfold specificityBonus
    rw [hw2]
    norm_num
  rw [hA, hW, hB, hB2]
  ring

theorem fourWordLight_passes :
    ("light" : String) = "" ∨
      scoreDomain asciiTables domainMappings (splitFirst fourWordLight.EntityID '.') "light"
        ≠ 0 := by
  right
  have h : scoreDomain asciiTables domainMappings (splitFirst fourWordLight.EntityID '.')
      "light" = 1.0 := rfl
  rw [h]
  norm_num

theorem twoWordLight_passes :
    ("light" : String) = "" ∨
      scoreDomain asciiTables domainMappings (splitFirst twoWordLight.EntityID '.') "light"
        ≠ 0 := by
  right
  have h : scoreDomain asciiTables domainMappings (splitFirst twoWordLight.EntityID '.')
      "light" = 1.0 := rfl
  rw [h]
  norm_num

/-- C3 at "big old desk lamp" against "floor lamp" for the query (type
"light", name "lamp"). -/
theorem C3_composite_score_formula_witness :
    (("light" : String) = "" ∨
      scoreDomain asciiTables domainMappings (splitFirst fourWordLight.EntityID '.') "light"
        ≠ 0) ∧
    (scoreEntity asciiTables DefaultConfig domainMappings fourWordLight "" "light" "lamp").Score =
      availabilityFactor fourWordLight *
          weightedSum asciiTables DefaultConfig domainMappings fourWordLight "" "light" "lamp" +
        specificityBonus (baseMatch fourWordLight).FriendlyName ∧
    (scoreEntity asciiTables DefaultConfig domainMappings fourWordLight "" "light" "lamp").Score =
      (scoreEntity asciiTables DefaultConfig domainMappings twoWordLight "" "light" "lamp").Score
        + 0.02 :=
  ⟨fourWordLight_passes,
    (C3_composite_score_formula asciiTables DefaultConfig domainMappings fourWordLight
      "" "light" "lamp" fourWordLight_passes).1,
    (C3_composite_score_formula asciiTables DefaultConfig domainMappings fourWordLight
      "" "light" "lamp" fourWordLight_passes).2 domainMappings twoWordLight
      twoWordLight_passes (fun _ => rfl) (fun h => absurd rfl h) (fun _ => rfl) rfl
      (by decide) (by decide)⟩

theorem baseMatch_congr (state state2 : EntityState) (hid : state2.EntityID = state.EntityID)
    (hattr : state2.Attributes = state.Attributes) : baseMatch state2 = baseMatch state := by
  unfold baseMatch
  rw [hid, hattr]

theorem weightedSum_congr (U : UnicodeTables) (cfg : Config)
    (order : List (String × List String)) (state state2 : EntityState)
    (area entityType entityName : String) (hid : state2.EntityID = state.EntityID)
    (hattr : state2.Attributes = state.Attributes) :
    weightedSum U cfg order state2 area entityType entityName =
      weightedSum U cfg order state area entityType entityName := by
  unfold weightedSum
  rw [baseMatch_congr state state2 hid hattr, hid]

/-- C4, as the code has it: the 0.95 penalty is applied to the weighted sum
`W` before the specificity bonus `B` is added.  For two entities that differ
in the state only, one "unavailable" and one not, scored with the same
visiting order of the keyword map: when the domain gate stops the scoring both
score 0; otherwise the unavailable one scores `W * 0.95 + B` and the other one
`W + B`, with the same `W` and `B`.  So the unavailable score is the available
score times 0.95 when the gate stops the scoring or the friendly name has at
most two words, and it is not when the gate is passed and the friendly name has
more than two words. -/
theorem C4_unavailable_penalty_before_bonus (U : UnicodeTables) (cfg : Config)
    (order : List (String × List String)) (state state2 : EntityState)
    (area entityType entityName : String) (hid : state2.EntityID = state.EntityID)
    (hattr : state2.Attributes = state.Attributes) (hu : state.State = "unavailable")
    (hav : state2.State ≠ "unavailable") :
    ((entityType ≠ "" ∧
        scoreDomain U order (splitFirst state.EntityID '.') entityType = 0) →
      (scoreEntity U cfg order state area entityType entityName).Score = 0 ∧
      (scoreEntity U cfg order state2 area entityType entityName).Score = 0) ∧
    ((entityType = "" ∨
        scoreDomain U order (splitFirst state.EntityID '.') entityType ≠ 0) →
      (scoreEntity U cfg order state area entityType entityName).Score =
        weightedSum U cfg order state area entityType entityName * 0.95 +
          specificityBonus (baseMatch state).FriendlyName ∧
      (scoreEntity U cfg order state2 area entityType entityName).Score =
        weightedSum U cfg order state area entityType entityName +
          specificityBonus (baseMatch state).FriendlyName) ∧
    (((entityType ≠ "" ∧
        scoreDomain U order (splitFirst state.EntityID '.') entityType = 0) ∨
        (fields (baseMatch state).FriendlyName).length ≤ 2) →
      (scoreEntity U cfg order state area entityType entityName).Score =
        (scoreEntity U cfg order state2 area entityType entityName).Score * 0.95) ∧
    ((entityType = "" ∨
        scoreDomain U order (splitFirst state.EntityID '.') entityType ≠ 0) →
      (fields (baseMatch state).FriendlyName).length > 2 →
      (scoreEntity U cfg order state area entityType entityName).Score ≠
        (scoreEntity U cfg order state2 area entityType entityName).Score * 0.95) := by
  have hgated : (entityType ≠ "" ∧
        scoreDomain U order (splitFirst state.EntityID '.') entityType = 0) →
      (scoreEntity U cfg order state area entityType entityName).Score = 0 ∧
      (scoreEntity U cfg order state2 area entityType entityName).Score = 0 := by
    intro hg
    have hg2 : scoreDomain U order (splitFirst state2.EntityID '.') entityType = 0 := by
      rw [hid]; exact hg.2
    rw [scoreEntity_gated U cfg order state area entityType entityName hg.1 hg.2,
      scoreEntity_gated U cfg order state2 area entityType entityName hg.1 hg2,
      baseMatch_Score, baseMatch_Score]
    exact ⟨rfl, rfl⟩
  have hpass : (entityType = "" ∨
        scoreDomain U order (splitFirst state.EntityID '.') entityType ≠ 0) →
      (scoreEntity U cfg order state area entityType entityName).Score =
        weightedSum U cfg order state area entityType entityName * 0.95 +
          specificityBonus (baseMatch state).FriendlyName ∧
      (scoreEntity U cfg order state2 area entityType entityName).Score =
        weightedSum U cfg order state area entityType entityName +
          specificityBonus (baseMatch state).FriendlyName := by
    intro hgate
    have hgate2 : entityType = "" ∨
        scoreDomain U order (splitFirst state2.EntityID '.') entityType ≠ 0 := by
      rw [hid]; exact hgate
    rw [scoreEntity_Score_formula U cfg order state area entityType entityName hgate,
      scoreEntity_Score_formula U cfg order state2 area entityType entityName hgate2,
      weightedSum_congr U cfg order state state2 area entityType entityName hid hattr,
      baseMatch_congr state state2 hid hattr]
    have hA : availabilityFactor state = 0.95 := by
      unfold availabilityFactor
      rw [if_pos hu]
    have hA2 : availabilityFactor state2 = 1 := by
      unfold availabilityFactor
      rw [if_neg hav]
    rw [hA, hA2]
    constructor
    · ring
    · ring
  refine ⟨hgated, hpass, ?_, ?_⟩
  · intro h
    by_cases hg : entityType ≠ "" ∧
        scoreDomain U order (splitFirst state.EntityID '.') entityType = 0
    · rw [(hgated hg).1, (hgated hg).2]
      norm_num
    · have hw : (fields (baseMatch state).FriendlyName).length ≤ 2 := by
        rcases h with h | h
        · exact absurd h hg
        · exact h
      have hgate : entityType = "" ∨
          scoreDomain U order (splitFirst state.EntityID '.') entityType ≠ 0 := by
        by_cases hT : entityType = ""
        · exact Or.inl hT
        · exact Or.inr (fun h0 => hg ⟨hT, h0⟩)
      have hB : specificityBonus (baseMatch state).FriendlyName = 0 := by
        unfold specificityBonus
        rw [if_neg (by omega)]
      rw [(hpass hgate).1, (hpass hgate).2, hB]
      ring
  · intro hgate hw heq
    have hB : specificityBonus (baseMatch state).FriendlyName =
        0.01 * (((fields (baseMatch state).FriendlyName).length : ℚ) - 2) := by
      unfold specificityBonus
      rw [if_pos hw]
    have hpos : (0 : ℚ) < specificityBonus (baseMatch state).FriendlyName := by
      rw [hB]
      have h3 : (2 : ℚ) < ((fields (baseMatch state).FriendlyName).length : ℚ) := by
        exact_mod_cast hw
      have h4 : (0 : ℚ) < ((fields (baseMatch state).FriendlyName).length : ℚ) - 2 := by
        linarith
      positivity
    rw [(hpass hgate).1, (hpass hgate).2] at heq
    linarith

theorem unavailableLight_scoreDomain :
    scoreDomain asciiTables domainMappings (splitFirst unavailableLight.EntityID '.') "light"
      = 1 := by
  have h : scoreDomain asciiTables domainMappings (splitFirst unavailableLight.EntityID '.')
      "light" = 1.0 := rfl
  rw [h]
  norm_num

/-- C4 at the three-word light "big desk lamp", unavailable against on, for
the query (type "light"). -/
theorem C4_unavailable_penalty_before_bonus_witness :
    availableLight.EntityID = unavailableLight.EntityID ∧
    availableLight.Attributes = unavailableLight.Attributes ∧
    unavailableLight.State = "unavailable" ∧ availableLight.State ≠ "unavailable" ∧
    (scoreEntity asciiTables DefaultConfig domainMappings unavailableLight "" "light" "").Score =
      weightedSum asciiTables DefaultConfig domainMappings unavailableLight "" "light" "" * 0.95 +
        specificityBonus (baseMatch unavailableLight).FriendlyName ∧
    (scoreEntity asciiTables DefaultConfig domainMappings availableLight "" "light" "").Score =
      weightedSum asciiTables DefaultConfig domainMappings unavailableLight "" "light" "" +
        specificityBonus (baseMatch unavailableLight).FriendlyName :=
  ⟨rfl, rfl, rfl, by decide,
    (C4_unavailable_penalty_before_bonus asciiTables DefaultConfig domainMappings
      unavailableLight availableLight "" "light" "" rfl rfl rfl (by decide)).2.1
      (Or.inr (by rw [unavailableLight_scoreDomain]; norm_num))⟩

theorem unavailableLight_Score :
    (scoreEntity asciiTables DefaultConfig domainMappings unavailableLight "" "light" "").Score
      = 0.39 := by
  rw [scoreEntity_Score_formula _ _ _ _ _ _ _
    (Or.inr (by rw [unavailableLight_scoreDomain]; norm_num))]
  have hw : (fields (baseMatch unavailableLight).FriendlyName).length = 3 := by decide
  unfold availabilityFactor weightedSum specificityBonus
  rw [unavailableLight_scoreDomain, hw]
  have h1 : unavailableLight.State = "unavailable" := rfl
  have h2 : ("light" : String) ≠ "" := by decide
  simp only [h1, h2, ne_eq, not_true_eq_false, not_false_eq_true, if_true, if_false]
  norm_num

theorem availableLight_Score :
    (scoreEntity asciiTables DefaultConfig domainMappings availableLight "" "light" "").Score
      = 0.41 := by
  have hd : scoreDomain asciiTables domainMappings (splitFirst availableLight.EntityID '.')
      "light" = 1 := unavailableLight_scoreDomain
  rw [scoreEntity_Score_formula _ _ _ _ _ _ _ (Or.inr (by rw [hd]; norm_num))]
  have hw : (fields (baseMatch availableLight).FriendlyName).length = 3 := by decide
  unfold availabilityFactor weightedSum specificityBonus
  rw [hd, hw]
  have h1 : ¬ (availableLight.State = "unavailable") := by decide
  have h2 : ("light" : String) ≠ "" := by decide
  simp only [h1, h2, ne_eq, not_true_eq_false, not_false_eq_true, if_true, if_false]
  norm_num

/-- C4 as stated fails: the light "big desk lamp" asked for as a "light"
scores 0.39 when unavailable and 0.41 when on, and 0.39 is not 0.95 * 0.41. -/
theorem C4_counterexample :
    availableLight.EntityID = unavailableLight.EntityID ∧
    availableLight.Attributes = unavailableLight.Attributes ∧
    unavailableLight.State = "unavailable" ∧ availableLight.State ≠ "unavailable" ∧
    (scoreEntity asciiTables DefaultConfig domainMappings unavailableLight "" "light" "").Score
      = 0.39 ∧
    (scoreEntity asciiTables DefaultConfig domainMappings availableLight "" "light" "").Score
      = 0.41 ∧
    (scoreEntity asciiTables DefaultConfig domainMappings unavailableLight "" "light" "").Score ≠
      0.95 * (scoreEntity asciiTables DefaultConfig domainMappings availableLight
        "" "light" "").Score := by
  refine ⟨rfl, rfl, rfl, by decide, unavailableLight_Score, availableLight_Score, ?_⟩
  rw [unavailableLight_Score, availableLight_Score]
  norm_num

/-- C5: the composite score is not bounded by 1.  The light
`light.kitchen_main` ("kitchen main light", no area tag, state "on") scores
exactly 1.01 for the query (area "kitchen", type "light", name "kitchen main
light"), with an empty alias table, for every Unicode table and visiting
order of the keyword map. -/
theorem C5_score_above_one (U : UnicodeTables) (cfg : Config)
    (order : List (String × List String)) (hA : cfg.Aliases = []) (hO : IsMapOrder order) :
    (scoreEntity U cfg order kitchenMain "kitchen" "light" "kitchen main light").Score = 1.01 ∧
    (scoreEntity U cfg order kitchenMain "kitchen" "light" "kitchen main light").Score > 1 := by
  have hdom : splitFirst kitchenMain.EntityID '.' = "light" := by decide
  have hd : scoreDomain U order (splitFirst kitchenMain.EntityID '.') "light" = 1 := by
    rw [hdom]
    exact scoreDomain_light_light U order hO
  have hfr : scoreAreaFriendly U (baseMatch kitchenMain) (toLower U "kitchen") = 1.0 := rfl
  have ha : scoreArea U cfg (baseMatch kitchenMain) "kitchen" = 1 := by
    unfold scoreArea
    rw [resolveAlias_no_alias U cfg _ hA]
    have hne : (baseMatch kitchenMain).Area = "" := by decide
    simp only [hne, ne_eq, not_true_eq_false, if_false, hfr]
    norm_num
  have hn : scoreName U (baseMatch kitchenMain).FriendlyName "kitchen main light" = 1 := by
    have h : scoreName U (baseMatch kitchenMain).FriendlyName "kitchen main light" = 1.0 := rfl
    rw [h]
    norm_num
  have hw : (fields (baseMatch kitchenMain).FriendlyName).length = 3 := by decide
  have hs : (scoreEntity U cfg order kitchenMain "kitchen" "light" "kitchen main light").Score
      = 1.01 := by
    rw [scoreEntity_Score_formula U cfg order kitchenMain _ _ _ (Or.inr (by rw [hd]; norm_num))]
    unfold availabilityFactor weightedSum specificityBonus
    rw [hd, ha, hn, hw]
    have h1 : ("kitchen" : String) ≠ "" := by decide
    have h2 : ("light" : String) ≠ "" := by decide
    have h3 : ("kitchen main light" : String) ≠ "" := by decide
    have h4 : ¬ (kitchenMain.State = "unavailable") := by decide
    simp only [h1, h2, h3, h4, ne_eq, not_true_eq_false, not_false_eq_true, if_true, if_false]
    norm_num
  rw [hs]
  constructor
  · rfl
  · norm_num

/-- C5 at the ASCII tables, the default configuration and the declaration
order of the map. -/
theorem C5_score_above_one_witness :
    (scoreEntity asciiTables DefaultConfig domainMappings kitchenMain
      "kitchen" "light" "kitchen main light").Score = 1.01 ∧
    (scoreEntity asciiTables DefaultConfig domainMappings kitchenMain
      "kitchen" "light" "kitchen main light").Score > 1 :=
  C5_score_above_one asciiTables DefaultConfig domainMappings rfl (List.Perm.refl _)

/-! ## `findMatches`, `DebugFindMatches` -/

theorem debugLoop_eq (U : UnicodeTables) (cfg : Config)
    (iter : Nat → List (String × List String)) (area entityType entityName : String)
    (states : List EntityState) (i : Nat) (acc : List EntityMatch) :
    debugLoop U cfg iter area entityType entityName i acc states =
      acc ++ (states.enumFrom i).map
        (fun p => scoreEntity U cfg (iter p.1) p.2 area entityType entityName) := by
  induction states generalizing i acc with
  | nil => simp [debugLoop]
  | cons s rest ih =>
    simp only [debugLoop, List.enumFrom_cons, List.map_cons]
    rw [ih]
    simp

theorem findMatchesLoop_eq (U : UnicodeTables) (cfg : Config)
    (iter : Nat → List (String × List String)) (area entityType entityName : String)
    (states : List EntityState) (i : Nat) (acc : List EntityMatch) :
    findMatchesLoop U cfg iter area entityType entityName i acc states =
      acc ++ ((states.enumFrom i).map
        (fun p => scoreEntity U cfg (iter p.1) p.2 area entityType entityName)).filter
        (fun m => decide (m.Score > cfg.Preferences.FuzzyThreshold)) := by
  induction states generalizing i acc with
  | nil => simp [findMatchesLoop]
  | cons s rest ih =>
    simp only [findMatchesLoop, List.enumFrom_cons, List.map_cons]
    by_cases h : (scoreEntity U cfg (iter i) s area entityType entityName).Score >
        cfg.Preferences.FuzzyThreshold
    · rw [if_pos h, ih, List.filter_cons_of_pos (by simpa using h)]
      simp
    · rw [if_neg h, ih, List.filter_cons_of_neg (by simpa using h)]

theorem DebugFindMatches_eq (U : UnicodeTables) (cfg : Config)
    (iter : Nat → List (String × List String)) (states : List EntityState)
    (area entityType entityName : String) :
    DebugFindMatches U cfg iter states area entityType entityName =
      states.enum.map
        (fun p => scoreEntity U cfg (iter p.1) p.2 area entityType entityName) := by
  unfold DebugFindMatches
  rw [debugLoop_eq]
  simp [List.enum]

theorem findMatches_eq_filter (U : UnicodeTables) (cfg : Config)
    (iter : Nat → List (String × List String)) (states : List EntityState)
    (area entityType entityName : String) :
    findMatches U cfg iter states area entityType entityName =
      (DebugFindMatches U cfg iter states area entityType entityName).filter
        (fun m => decide (m.Score > cfg.Preferences.FuzzyThreshold)) := by
  unfold findMatches
  rw [findMatchesLoop_eq, DebugFindMatches_eq]
  simp [List.enum]

/-- Within one run, i.e. when both loops see the same visiting order of the
keyword map at every entity, `findMatches` returns exactly those matches of
`DebugFindMatches`, in the same order, whose score is strictly above the
threshold; `DebugFindMatches` returns one match per snapshot entity, in
snapshot order, whatever the threshold; and no match whose score equals the
threshold is returned by `findMatches`. -/
theorem findMatches_filters_debug_same_orders (U : UnicodeTables) (cfg : Config)
    (iter : Nat → List (String × List String)) (states : List EntityState)
    (area entityType entityName : String) :
    findMatches U cfg iter states area entityType entityName =
      (DebugFindMatches U cfg iter states area entityType entityName).filter
        (fun m => decide (m.Score > cfg.Preferences.FuzzyThreshold)) ∧
    DebugFindMatches U cfg iter states area entityType entityName =
      states.enum.map
        (fun p => scoreEntity U cfg (iter p.1) p.2 area entityType entityName) ∧
    (DebugFindMatches U cfg iter states area entityType entityName).length = states.length ∧
    (∀ m ∈ findMatches U cfg iter states area entityType entityName,
      m.Score ≠ cfg.Preferences.FuzzyThreshold) := by
  refine ⟨findMatches_eq_filter U cfg iter states area entityType entityName,
    DebugFindMatches_eq U cfg iter states area entityType entityName, ?_, ?_⟩
  · rw [DebugFindMatches_eq]
    simp
  · intro m hm
    rw [findMatches_eq_filter, List.mem_filter] at hm
    have h : m.Score > cfg.Preferences.FuzzyThreshold := by simpa using hm.2
    exact ne_of_gt h

/-! ## `ResolveEntity` -/

theorem lessByScore_eq_false_iff (a b : EntityMatch) :
    lessByScore a b = false ↔ a.Score ≤ b.Score := by
  unfold lessByScore
  by_cases h : a.Score = b.Score
  · simp [h]
  · simp only [ne_eq, h, not_false_eq_true, if_true, decide_eq_false_iff_not, not_lt, gt_iff_lt]

theorem insertionSort_scoreGE_contract (l : List EntityMatch) :
    (l.insertionSort scoreGE).Pairwise (fun a b => lessByScore b a = false) := by
  haveI : IsTotal EntityMatch scoreGE := ⟨fun a b => le_total b.Score a.Score⟩
  haveI : IsTrans EntityMatch scoreGE :=
    ⟨fun a b c hab hbc => le_trans (show c.Score ≤ b.Score from hbc) hab⟩
  have h := List.sorted_insertionSort scoreGE l
  exact List.Pairwise.imp (fun {a b} hab => (lessByScore_eq_false_iff b a).mpr hab) h

theorem stableSortSlice_contract : SortSliceContract stableSortSlice :=
  fun l => ⟨List.perm_insertionSort scoreGE l, insertionSort_scoreGE_contract l⟩

theorem reversingSortSlice_contract : SortSliceContract reversingSortSlice :=
  fun l => ⟨(List.perm_insertionSort scoreGE l.reverse).trans (List.reverse_perm l),
    insertionSort_scoreGE_contract l.reverse⟩

theorem findMatches_eq_nil_iff (U : UnicodeTables) (cfg : Config)
    (iter : Nat → List (String × List String)) (states : List EntityState)
    (area entityType entityName : String) :
    findMatches U cfg iter states area entityType entityName = [] ↔
      ∀ (i : Nat) (s : EntityState), states[i]? = some s →
        ¬ ((scoreEntity U cfg (iter i) s area entityType entityName).Score >
          cfg.Preferences.FuzzyThreshold) := by
  rw [findMatches_eq_filter, DebugFindMatches_eq, List.filter_eq_nil_iff]
  constructor
  · intro h i s his
    have hmem : (i, s) ∈ states.enum := List.mk_mem_enum_iff_getElem?.mpr his
    have := h _ (List.mem_map_of_mem
      (fun p => scoreEntity U cfg (iter p.1) p.2 area entityType entityName) hmem)
    simpa using this
  · intro h m hm
    obtain ⟨p, hp, rfl⟩ := List.mem_map.mp hm
    have := h p.1 p.2 (List.mem_enum_iff_getElem?.mp hp)
    simpa using this

/-- What `ResolveEntity` returns on a fetched snapshot, by the number of
matches. -/
theorem ResolveEntity_cases (U : UnicodeTables) (cfg : Config)
    (sortSlice : List EntityMatch → List EntityMatch) (hS : SortSliceContract sortSlice)
    (iter : Nat → List (String × List String)) (states : List EntityState)
    (area entityType entityName : String) :
    (findMatches U cfg iter states area entityType entityName = [] ∧
      ResolveEntity U cfg sortSlice iter (.ok states) area entityType entityName =
        .error .noMatch) ∨
    (∃ m, findMatches U cfg iter states area entityType entityName = [m] ∧
      ResolveEntity U cfg sortSlice iter (.ok states) area entityType entityName = .ok m) ∨
    (∃ m0 m1 rest, 2 ≤ (findMatches U cfg iter states area entityType entityName).length ∧
      sortSlice (findMatches U cfg iter states area entityType entityName) = m0 :: m1 :: rest ∧
      ResolveEntity U cfg sortSlice iter (.ok states) area entityType entityName = .ok m0) := by
  unfold ResolveEntity
  simp only
  cases hfm : findMatches U cfg iter states area entityType entityName with
  | nil => left; simp
  | cons a l =>
    cases l with
    | nil => right; left; exact ⟨a, rfl, by simp⟩
    | cons b l2 =>
      right; right
      have hperm := (hS (a :: b :: l2)).1
      have hlen : (sortSlice (a :: b :: l2)).length = l2.length + 2 := by
        rw [hperm.length_eq]; simp
      cases hsort : sortSlice (a :: b :: l2) with
      | nil => rw [hsort] at hlen; simp at hlen
      | cons m0 r =>
        cases r with
        | nil => rw [hsort] at hlen; simp at hlen
        | cons m1 rest =>
          refine ⟨m0, m1, rest, by simp, rfl, ?_⟩
          simp

/-- C7: on a fetched snapshot (and a `sort.Slice` that meets its contract)
`ResolveEntity` fails with the "no entities found" error exactly when no
snapshot entity scores strictly above the threshold; it does so for the empty
snapshot with every query; otherwise it returns a match and no error. -/
theorem C7_noMatch_iff_nothing_above_threshold (U : UnicodeTables) (cfg : Config)
    (sortSlice : List EntityMatch → List EntityMatch) (hS : SortSliceContract sortSlice)
    (iter : Nat → List (String × List String)) (states : List EntityState)
    (area entityType entityName : String) :
    (ResolveEntity U cfg sortSlice iter (.ok states) area entityType entityName =
        .error .noMatch ↔
      ∀ (i : Nat) (s : EntityState), states[i]? = some s →
        ¬ ((scoreEntity U cfg (iter i) s area entityType entityName).Score >
          cfg.Preferences.FuzzyThreshold)) ∧
    ResolveEntity U cfg sortSlice iter (.ok []) area entityType entityName = .error .noMatch ∧
    (ResolveEntity U cfg sortSlice iter (.ok states) area entityType entityName ≠
        .error .noMatch →
      ∃ m, ResolveEntity U cfg sortSlice iter (.ok states) area entityType entityName =
        .ok m) := by
  refine ⟨?_, ?_, ?_⟩
  · rw [← findMatches_eq_nil_iff]
    rcases ResolveEntity_cases U cfg sortSlice hS iter states area entityType entityName with
      ⟨hnil, hres⟩ | ⟨m, hone, hres⟩ | ⟨m0, m1, rest, hlen, _, hres⟩
    · exact ⟨fun _ => hnil, fun _ => hres⟩
    · rw [hres, hone]
      constructor
      · intro h; cases h
      · intro h; cases h
    · rw [hres]
      constructor
      · intro h; cases h
      · intro h; rw [h] at hlen; simp at hlen
  · rfl
  · intro hne
    rcases ResolveEntity_cases U cfg sortSlice hS iter states area entityType entityName with
      ⟨_, hres⟩ | ⟨m, _, hres⟩ | ⟨m0, _, _, _, _, hres⟩
    · exact absurd hres hne
    · exact ⟨m, hres⟩
    · exact ⟨m0, hres⟩

/-- C8: whenever `ResolveEntity` succeeds (with a `sort.Slice` that meets its
contract), the returned match is one of the matches of `findMatches` on the
fetched snapshot and no such match has a higher score; with two or more
matches it is the first element of the sorted slice, whether or not its score
exceeds the second one by more than 0.05. -/
theorem C8_returns_a_top_match (U : UnicodeTables) (cfg : Config)
    (sortSlice : List EntityMatch → List EntityMatch) (hS : SortSliceContract sortSlice)
    (iter : Nat → List (String × List String)) (fetched : Except String (List EntityState))
    (area entityType entityName : String) (m : EntityMatch)
    (hok : ResolveEntity U cfg sortSlice iter fetched area entityType entityName = .ok m) :
    ∃ states, fetched = .ok states ∧
      m ∈ findMatches U cfg iter states area entityType entityName ∧
      (∀ m2 ∈ findMatches U cfg iter states area entityType entityName, m2.Score ≤ m.Score) ∧
      (2 ≤ (findMatches U cfg iter states area entityType entityName).length →
        (sortSlice (findMatches U cfg iter states area entityType entityName)).head? =
          some m) := by
  cases fetched with
  | error err => simp [ResolveEntity] at hok
  | ok states =>
    refine ⟨states, rfl, ?_⟩
    rcases ResolveEntity_cases U cfg sortSlice hS iter states area entityType entityName with
      ⟨_, hres⟩ | ⟨m1, hone, hres⟩ | ⟨m0, m1, rest, hlen, hsort, hres⟩
    · rw [hres] at hok; cases hok
    · rw [hres] at hok
      cases hok
      rw [hone]
      refine ⟨List.mem_singleton_self _, ?_, ?_⟩
      · intro m2 hm2
        rw [List.mem_singleton.mp hm2]
      · intro h; simp at h
    · rw [hres] at hok
      have hm : m = m0 := (Except.ok.inj hok).symm
      subst hm
      have hperm := (hS (findMatches U cfg iter states area entityType entityName)).1
      have hpw := (hS (findMatches U cfg iter states area entityType entityName)).2
      rw [hsort] at hperm hpw
      refine ⟨hperm.mem_iff.mp (List.mem_cons_self _ _), ?_, ?_⟩
      · intro m2 hm2
        have hm2s : m2 ∈ m :: m1 :: rest := hperm.mem_iff.mpr hm2
        rcases List.mem_cons.mp hm2s with heq | hin
        · rw [heq]
        · exact (lessByScore_eq_false_iff m2 m).mp ((List.pairwise_cons.mp hpw).1 m2 hin)
      · intro _
        rw [hsort]
        rfl

/-! ## Evaluation on example snapshots -/

theorem scoreEntity_eq_of_pass (U : UnicodeTables) (cfg : Config)
    (order : List (String × List String)) (state : EntityState)
    (area entityType entityName : String)
    (hgate : entityType = "" ∨
      scoreDomain U order (splitFirst state.EntityID '.') entityType ≠ 0) :
    scoreEntity U cfg order state area entityType entityName =
      { baseMatch state with
        Score := availabilityFactor state *
            weightedSum U cfg order state area entityType entityName +
          specificityBonus (baseMatch state).FriendlyName } := by
  have h := scoreEntity_Score_formula U cfg order state area entityType entityName hgate
  unfold scoreEntity at h ⊢
  simp only [typeStep_pass U order state entityType hgate] at h ⊢
  rw [h]

theorem lamp_scoreEntity (state : EntityState) (id friendlyName : String) (bonus : ℚ)
    (hb : baseMatch state = lampMatch id friendlyName 0)
    (hid : splitFirst state.EntityID '.' = "light") (hst : state.State = "on")
    (hn : scoreName asciiTables friendlyName "lamp" = 0.9)
    (hw : specificityBonus friendlyName = bonus) :
    scoreEntity asciiTables DefaultConfig domainMappings state "" "light" "lamp" =
      lampMatch id friendlyName (0.67 + bonus) := by
  have hd : scoreDomain asciiTables domainMappings (splitFirst state.EntityID '.') "light"
      = 1 := by
    rw [hid]
    exact scoreDomain_light_light asciiTables domainMappings (List.Perm.refl _)
  rw [scoreEntity_eq_of_pass _ _ _ _ _ _ _ (Or.inr (by rw [hd]; norm_num))]
  unfold availabilityFactor weightedSum
  rw [hd, hb, hst]
  have h1 : ("light" : String) ≠ "" := by decide
  have h2 : ("lamp" : String) ≠ "" := by decide
  have h3 : ¬ (("on" : String) = "unavailable") := by decide
  simp only [lampMatch, hn, hw, h1, h2, h3, ne_eq, not_true_eq_false, not_false_eq_true,
    if_true, if_false]
  norm_num

theorem twoWordLight_scoreEntity :
    scoreEntity asciiTables DefaultConfig domainMappings twoWordLight "" "light" "lamp" =
      lampMatch "light.floor" "floor lamp" 0.67 := by
  rw [lamp_scoreEntity twoWordLight "light.floor" "floor lamp" 0 rfl (by decide) rfl rfl
    (by unfold specificityBonus; rw [if_neg (by decide)])]
  norm_num

theorem fourWordLight_scoreEntity :
    scoreEntity asciiTables DefaultConfig domainMappings fourWordLight "" "light" "lamp" =
      lampMatch "light.desk" "big old desk lamp" 0.69 := by
  have hw : (fields "big old desk lamp").length = 4 := by decide
  rw [lamp_scoreEntity fourWordLight "light.desk" "big old desk lamp" 0.02 rfl (by decide)
    rfl rfl (by unfold specificityBonus; rw [hw]; norm_num)]
  norm_num

theorem deskLamp_scoreEntity (id : String) (hid : splitFirst id '.' = "light") :
    scoreEntity asciiTables DefaultConfig domainMappings (deskLamp id) "" "light" "lamp" =
      lampMatch id "desk lamp" 0.67 := by
  have hb : baseMatch (deskLamp id) = lampMatch id "desk lamp" 0 := by
    have h : baseMatch (deskLamp id) =
        { EntityID := id, FriendlyName := "desk lamp", Domain := splitFirst id '.', Area := "",
          Score := 0 } := rfl
    rw [h, hid]
    rfl
  rw [lamp_scoreEntity (deskLamp id) id "desk lamp" 0 hb hid rfl rfl
    (by unfold specificityBonus; rw [if_neg (by decide)])]
  norm_num

theorem bigDeskLamp_scoreEntity (id : String) (hid : splitFirst id '.' = "light") :
    scoreEntity asciiTables DefaultConfig domainMappings (bigDeskLamp id) "" "light" "lamp" =
      lampMatch id "big desk lamp" 0.68 := by
  have hb : baseMatch (bigDeskLamp id) = lampMatch id "big desk lamp" 0 := by
    have h : baseMatch (bigDeskLamp id) =
        { EntityID := id, FriendlyName := "big desk lamp", Domain := splitFirst id '.', Area := "",
          Score := 0 } := rfl
    rw [h, hid]
    rfl
  have hw : (fields "big desk lamp").length = 3 := by decide
  rw [lamp_scoreEntity (bigDeskLamp id) id "big desk lamp" 0.01 hb hid rfl rfl
    (by unfold specificityBonus; rw [hw]; norm_num)]
  norm_num

theorem DefaultConfig_threshold : DefaultConfig.Preferences.FuzzyThreshold = 0.5 := rfl

theorem twoLights_findMatches :
    findMatches asciiTables DefaultConfig (fun _ => domainMappings)
        [twoWordLight, fourWordLight] "" "light" "lamp" =
      [lampMatch "light.floor" "floor lamp" 0.67,
       lampMatch "light.desk" "big old desk lamp" 0.69] := by
  unfold findMatches
  simp only [findMatchesLoop, twoWordLight_scoreEntity, fourWordLight_scoreEntity,
    DefaultConfig_threshold, lampMatch]
  norm_num

theorem twoLights_ResolveEntity :
    ResolveEntity asciiTables DefaultConfig stableSortSlice (fun _ => domainMappings)
        (.ok [twoWordLight, fourWordLight]) "" "light" "lamp" =
      .ok (lampMatch "light.desk" "big old desk lamp" 0.69) := by
  unfold ResolveEntity
  simp only [twoLights_findMatches, stableSortSlice, lampMatch]
  norm_num [List.insertionSort, List.orderedInsert, scoreGE]

/-- C7 at the snapshot of the lights "floor lamp" and "big old desk lamp",
for the query (type "light", name "lamp") and an insertion sort. -/
theorem C7_noMatch_iff_nothing_above_threshold_witness :
    SortSliceContract stableSortSlice ∧
    ((ResolveEntity asciiTables DefaultConfig stableSortSlice (fun _ => domainMappings)
          (.ok [twoWordLight, fourWordLight]) "" "light" "lamp" = .error .noMatch ↔
        ∀ (i : Nat) (s : EntityState), [twoWordLight, fourWordLight][i]? = some s →
          ¬ ((scoreEntity asciiTables DefaultConfig domainMappings s "" "light" "lamp").Score >
            DefaultConfig.Preferences.FuzzyThreshold)) ∧
      ResolveEntity asciiTables DefaultConfig stableSortSlice (fun _ => domainMappings)
          (.ok []) "" "light" "lamp" = .error .noMatch ∧
      (ResolveEntity asciiTables DefaultConfig stableSortSlice (fun _ => domainMappings)
          (.ok [twoWordLight, fourWordLight]) "" "light" "lamp" ≠ .error .noMatch →
        ∃ m, ResolveEntity asciiTables DefaultConfig stableSortSlice (fun _ => domainMappings)
          (.ok [twoWordLight, fourWordLight]) "" "light" "lamp" = .ok m)) :=
  ⟨stableSortSlice_contract,
    C7_noMatch_iff_nothing_above_threshold asciiTables DefaultConfig stableSortSlice
      stableSortSlice_contract (fun _ => domainMappings) [twoWordLight, fourWordLight]
      "" "light" "lamp"⟩

/-- C8 at the snapshot of the lights "floor lamp" (score 0.67) and "big old
desk lamp" (score 0.69), for the query (type "light", name "lamp") and an
insertion sort: the second light is returned. -/
theorem C8_returns_a_top_match_witness :
    SortSliceContract stableSortSlice ∧
    ResolveEntity asciiTables DefaultConfig stableSortSlice (fun _ => domainMappings)
        (.ok [twoWordLight, fourWordLight]) "" "light" "lamp" =
      .ok (lampMatch "light.desk" "big old desk lamp" 0.69) ∧
    ∃ states, (Except.ok [twoWordLight, fourWordLight] : Except String (List EntityState)) =
        .ok states ∧
      lampMatch "light.desk" "big old desk lamp" 0.69 ∈
        findMatches asciiTables DefaultConfig (fun _ => domainMappings) states
          "" "light" "lamp" ∧
      (∀ m2 ∈ findMatches asciiTables DefaultConfig (fun _ => domainMappings) states
          "" "light" "lamp", m2.Score ≤ (lampMatch "light.desk" "big old desk lamp" 0.69).Score) ∧
      (2 ≤ (findMatches asciiTables DefaultConfig (fun _ => domainMappings) states
          "" "light" "lamp").length →
        (stableSortSlice (findMatches asciiTables DefaultConfig (fun _ => domainMappings) states
          "" "light" "lamp")).head? = some (lampMatch "light.desk" "big old desk lamp" 0.69)) :=
  ⟨stableSortSlice_contract, twoLights_ResolveEntity,
    C8_returns_a_top_match asciiTables DefaultConfig stableSortSlice stableSortSlice_contract
      (fun _ => domainMappings) (.ok [twoWordLight, fourWordLight]) "" "light" "lamp"
      (lampMatch "light.desk" "big old desk lamp" 0.69) twoLights_ResolveEntity⟩

theorem thirteenLamps_findMatches :
    findMatches asciiTables DefaultConfig (fun _ => domainMappings) thirteenLamps
        "" "light" "lamp" =
      [lampMatch "light.l00" "desk lamp" 0.67,
       lampMatch "light.l01" "big desk lamp" 0.68,
       lampMatch "light.l02" "desk lamp" 0.67,
       lampMatch "light.l03" "desk lamp" 0.67,
       lampMatch "light.l04" "desk lamp" 0.67,
       lampMatch "light.l05" "desk lamp" 0.67,
       lampMatch "light.l06" "desk lamp" 0.67,
       lampMatch "light.l07" "desk lamp" 0.67,
       lampMatch "light.l08" "big desk lamp" 0.68,
       lampMatch "light.l09" "desk lamp" 0.67,
       lampMatch "light.l10" "desk lamp" 0.67,
       lampMatch "light.l11" "desk lamp" 0.67,
       lampMatch "light.l12" "desk lamp" 0.67] := by
  rw [findMatches_eq_filter, DebugFindMatches_eq]
  unfold thirteenLamps
  simp only [List.enum, List.enumFrom, List.map,
    deskLamp_scoreEntity "light.l00" (by decide),
    bigDeskLamp_scoreEntity "light.l01" (by decide),
    deskLamp_scoreEntity "light.l02" (by decide),
    deskLamp_scoreEntity "light.l03" (by decide),
    deskLamp_scoreEntity "light.l04" (by decide),
    deskLamp_scoreEntity "light.l05" (by decide),
    deskLamp_scoreEntity "light.l06" (by decide),
    deskLamp_scoreEntity "light.l07" (by decide),
    bigDeskLamp_scoreEntity "light.l08" (by decide),
    deskLamp_scoreEntity "light.l09" (by decide),
    deskLamp_scoreEntity "light.l10" (by decide),
    deskLamp_scoreEntity "light.l11" (by decide),
    deskLamp_scoreEntity "light.l12" (by decide),
    DefaultConfig_threshold]
  norm_num [List.filter, lampMatch]

theorem ResolveEntity_of_sorted (U : UnicodeTables) (cfg : Config)
    (sortSlice : List EntityMatch → List EntityMatch)
    (iter : Nat → List (String × List String)) (states : List EntityState)
    (area entityType entityName : String) (fm rest : List EntityMatch) (m0 m1 : EntityMatch)
    (hfm : findMatches U cfg iter states area entityType entityName = fm)
    (hlen : 2 ≤ fm.length) (hsort : sortSlice fm = m0 :: m1 :: rest) :
    ResolveEntity U cfg sortSlice iter (.ok states) area entityType entityName = .ok m0 := by
  unfold ResolveEntity
  simp only [hfm, hsort]
  rw [if_neg (by omega), if_neg (by omega)]
  simp

theorem thirteenLamps_sorted :
    reversingSortSlice
      [lampMatch "light.l00" "desk lamp" 0.67,
       lampMatch "light.l01" "big desk lamp" 0.68,
       lampMatch "light.l02" "desk lamp" 0.67,
       lampMatch "light.l03" "desk lamp" 0.67,
       lampMatch "light.l04" "desk lamp" 0.67,
       lampMatch "light.l05" "desk lamp" 0.67,
       lampMatch "light.l06" "desk lamp" 0.67,
       lampMatch "light.l07" "desk lamp" 0.67,
       lampMatch "light.l08" "big desk lamp" 0.68,
       lampMatch "light.l09" "desk lamp" 0.67,
       lampMatch "light.l10" "desk lamp" 0.67,
       lampMatch "light.l11" "desk lamp" 0.67,
       lampMatch "light.l12" "desk lamp" 0.67] =
      [lampMatch "light.l08" "big desk lamp" 0.68,
       lampMatch "light.l01" "big desk lamp" 0.68,
       lampMatch "light.l12" "desk lamp" 0.67,
       lampMatch "light.l11" "desk lamp" 0.67,
       lampMatch "light.l10" "desk lamp" 0.67,
       lampMatch "light.l09" "desk lamp" 0.67,
       lampMatch "light.l07" "desk lamp" 0.67,
       lampMatch "light.l06" "desk lamp" 0.67,
       lampMatch "light.l05" "desk lamp" 0.67,
       lampMatch "light.l04" "desk lamp" 0.67,
       lampMatch "light.l03" "desk lamp" 0.67,
       lampMatch "light.l02" "desk lamp" 0.67,
       lampMatch "light.l00" "desk lamp" 0.67] := by
  unfold reversingSortSlice
  simp only [List.reverse_cons, List.reverse_nil, List.nil_append, List.cons_append,
    List.insertionSort]
  norm_num [List.orderedInsert, scoreGE, lampMatch]

theorem thirteenLamps_stable_sorted :
    stableSortSlice
      [lampMatch "light.l00" "desk lamp" 0.67,
       lampMatch "light.l01" "big desk lamp" 0.68,
       lampMatch "light.l02" "desk lamp" 0.67,
       lampMatch "light.l03" "desk lamp" 0.67,
       lampMatch "light.l04" "desk lamp" 0.67,
       lampMatch "light.l05" "desk lamp" 0.67,
       lampMatch "light.l06" "desk lamp" 0.67,
       lampMatch "light.l07" "desk lamp" 0.67,
       lampMatch "light.l08" "big desk lamp" 0.68,
       lampMatch "light.l09" "desk lamp" 0.67,
       lampMatch "light.l10" "desk lamp" 0.67,
       lampMatch "light.l11" "desk lamp" 0.67,
       lampMatch "light.l12" "desk lamp" 0.67] =
      [lampMatch "light.l01" "big desk lamp" 0.68,
       lampMatch "light.l08" "big desk lamp" 0.68,
       lampMatch "light.l00" "desk lamp" 0.67,
       lampMatch "light.l02" "desk lamp" 0.67,
       lampMatch "light.l03" "desk lamp" 0.67,
       lampMatch "light.l04" "desk lamp" 0.67,
       lampMatch "light.l05" "desk lamp" 0.67,
       lampMatch "light.l06" "desk lamp" 0.67,
       lampMatch "light.l07" "desk lamp" 0.67,
       lampMatch "light.l09" "desk lamp" 0.67,
       lampMatch "light.l10" "desk lamp" 0.67,
       lampMatch "light.l11" "desk lamp" 0.67,
       lampMatch "light.l12" "desk lamp" 0.67] := by
  unfold stableSortSlice
  simp only [List.insertionSort]
  norm_num [List.orderedInsert, scoreGE, lampMatch]

/-- C9 on thirteen lights of which the second and the ninth share the top
score 0.68: with a `sort.Slice` that meets its contract but does not keep
equal elements in their original order, `ResolveEntity` returns the ninth
light, not the second; with a stable one it returns the second.  Which of the
two is returned is decided by how the sort treats equal elements. -/
theorem C9_unstable_sort_returns_later_entity :
    SortSliceContract reversingSortSlice ∧
    thirteenLamps[1]? = some (bigDeskLamp "light.l01") ∧
    thirteenLamps[8]? = some (bigDeskLamp "light.l08") ∧
    (scoreEntity asciiTables DefaultConfig domainMappings (bigDeskLamp "light.l01")
      "" "light" "lamp").Score = 0.68 ∧
    (scoreEntity asciiTables DefaultConfig domainMappings (bigDeskLamp "light.l08")
      "" "light" "lamp").Score = 0.68 ∧
    (∀ m ∈ findMatches asciiTables DefaultConfig (fun _ => domainMappings) thirteenLamps
      "" "light" "lamp", m.Score ≤ 0.68) ∧
    ResolveEntity asciiTables DefaultConfig reversingSortSlice (fun _ => domainMappings)
        (.ok thirteenLamps) "" "light" "lamp" =
      .ok (lampMatch "light.l08" "big desk lamp" 0.68) ∧
    SortSliceContract stableSortSlice ∧
    ResolveEntity asciiTables DefaultConfig stableSortSlice (fun _ => domainMappings)
        (.ok thirteenLamps) "" "light" "lamp" =
      .ok (lampMatch "light.l01" "big desk lamp" 0.68) := by
  refine ⟨reversingSortSlice_contract, rfl, rfl, ?_, ?_, ?_, ?_, stableSortSlice_contract, ?_⟩
  · rw [bigDeskLamp_scoreEntity "light.l01" (by decide)]
    rfl
  · rw [bigDeskLamp_scoreEntity "light.l08" (by decide)]
    rfl
  · rw [thirteenLamps_findMatches]
    intro m hm
    simp only [List.mem_cons, List.mem_singleton, List.not_mem_nil, or_false] at hm
    rcases hm with h | h | h | h | h | h | h | h | h | h | h | h | h <;>
      rw [h] <;> simp only [lampMatch] <;> norm_num
  · exact ResolveEntity_of_sorted _ _ _ _ _ _ _ _ _ _ _ _ thirteenLamps_findMatches
      (by simp) thirteenLamps_sorted
  · exact ResolveEntity_of_sorted _ _ _ _ _ _ _ _ _ _ _ _ thirteenLamps_findMatches
      (by simp) thirteenLamps_stable_sorted

/-! ## The fields `scoreEntity` copies from the entity -/

theorem splitChars_head? (sep : Char) (l : List Char) :
    (splitChars sep l).head? = some (l.takeWhile (fun c => !(c == sep))) := by
  induction l with
  | nil => rfl
  | cons c cs ih =>
    unfold splitChars
    by_cases h : (c == sep) = true
    · simp [h, List.takeWhile]
    · simp only [h, Bool.false_eq_true, if_false]
      cases hsp : splitChars sep cs with
      | nil => rw [hsp] at ih; simp at ih
      | cons x xs =>
        rw [hsp] at ih
        simp only [List.head?_cons, Option.some.injEq] at ih
        simp [List.takeWhile, h, ih]

theorem splitFirst_eq (s : String) (sep : Char) :
    splitFirst s sep = ⟨s.data.takeWhile (fun c => !(c == sep))⟩ := by
  have h : (split s sep).head? = some (splitFirst s sep) := by
    unfold splitFirst
    exact List.head?_eq_head _
  unfold split at h
  rw [List.head?_map, splitChars_head?] at h
  simp only [Option.map_some', Option.some.injEq] at h
  exact h.symm

theorem takeWhile_eq_self_of_not_mem (sep : Char) (l : List Char) (h : sep ∉ l) :
    l.takeWhile (fun c => !(c == sep)) = l := by
  induction l with
  | nil => rfl
  | cons c cs ih =>
    have hc : c ≠ sep := fun e => h (e ▸ List.mem_cons_self _ _)
    have hcs : sep ∉ cs := fun e => h (List.mem_cons_of_mem _ e)
    have hb : (c == sep) = false := by simpa using hc
    simp [List.takeWhile, hb, ih hcs]

theorem scoreEntity_fields (U : UnicodeTables) (cfg : Config)
    (order : List (String × List String)) (state : EntityState)
    (area entityType entityName : String) :
    (scoreEntity U cfg order state area entityType entityName).EntityID =
        (baseMatch state).EntityID ∧
    (scoreEntity U cfg order state area entityType entityName).FriendlyName =
        (baseMatch state).FriendlyName ∧
    (scoreEntity U cfg order state area entityType entityName).Domain =
        (baseMatch state).Domain ∧
    (scoreEntity U cfg order state area entityType entityName).Area =
        (baseMatch state).Area := by
  unfold scoreEntity
  simp only []
  split <;> exact ⟨rfl, rfl, rfl, rfl⟩

theorem baseMatch_FriendlyName (state : EntityState) :
    (baseMatch state).FriendlyName =
      (attrString state.Attributes "friendly_name").getD state.EntityID := by
  unfold baseMatch
  split <;> split <;> simp_all

theorem baseMatch_Area (state : EntityState) :
    (baseMatch state).Area = (attrString state.Attributes "area_id").getD "" := by
  unfold baseMatch
  split <;> split <;> simp_all

theorem attrString_of_str (attrs : List (String × AttrValue)) (key v : String)
    (h : attrs.lookup key = some (AttrValue.str v)) : attrString attrs key = some v := by
  unfold attrString
  rw [h]

theorem attrString_of_not_str (attrs : List (String × AttrValue)) (key : String)
    (h : ∀ v, attrs.lookup key ≠ some (AttrValue.str v)) : attrString attrs key = none := by
  unfold attrString
  split
  · next s hs => exact absurd hs (h s)
  · rfl

/-- C10: for every entity state and query, `scoreEntity` sets `EntityID` to
the entity id, `Domain` to the part of the id before its first "." (the whole
id when it has no "."; taking element 0 of the split never fails),
`FriendlyName` to the `friendly_name` attribute when it is present and a
string and to the entity id otherwise, and `Area` to the `area_id` attribute
when it is present and a string and to the empty string otherwise. -/
theorem C10_match_fields (U : UnicodeTables) (cfg : Config)
    (order : List (String × List String)) (state : EntityState)
    (area entityType entityName : String) :
    (scoreEntity U cfg order state area entityType entityName).EntityID = state.EntityID ∧
    (split state.EntityID '.').head? =
      some (scoreEntity U cfg order state area entityType entityName).Domain ∧
    (scoreEntity U cfg order state area entityType entityName).Domain =
      ⟨state.EntityID.data.takeWhile (fun c => !(c == '.'))⟩ ∧
    ('.' ∉ state.EntityID.data →
      (scoreEntity U cfg order state area entityType entityName).Domain = state.EntityID) ∧
    (∀ v, state.Attributes.lookup "friendly_name" = some (AttrValue.str v) →
      (scoreEntity U cfg order state area entityType entityName).FriendlyName = v) ∧
    ((∀ v, state.Attributes.lookup "friendly_name" ≠ some (AttrValue.str v)) →
      (scoreEntity U cfg order state area entityType entityName).FriendlyName
        = state.EntityID) ∧
    (∀ v, state.Attributes.lookup "area_id" = some (AttrValue.str v) →
      (scoreEntity U cfg order state area entityType entityName).Area = v) ∧
    ((∀ v, state.Attributes.lookup "area_id" ≠ some (AttrValue.str v)) →
      (scoreEntity U cfg order state area entityType entityName).Area = "") := by
  obtain ⟨hid, hfn, hdom, har⟩ :=
    scoreEntity_fields U cfg order state area entityType entityName
  rw [hid, hfn, hdom, har, baseMatch_EntityID, baseMatch_Domain, baseMatch_FriendlyName,
    baseMatch_Area]
  refine ⟨rfl, ?_, splitFirst_eq _ _, ?_, ?_, ?_, ?_, ?_⟩
  · unfold splitFirst
    exact List.head?_eq_head _
  · intro h
    rw [splitFirst_eq, takeWhile_eq_self_of_not_mem '.' _ h]
  · intro v h
    rw [attrString_of_str _ _ v h]
    rfl
  · intro h
    rw [attrString_of_not_str _ _ h]
    rfl
  · intro v h
    rw [attrString_of_str _ _ v h]
    rfl
  · intro h
    rw [attrString_of_not_str _ _ h]
    rfl

/-! ## `scoreDomain` -/

theorem mappingLoop_binary (nt d : String) (order : List (String × List String)) :
    mappingLoop nt d order = 1 ∨ mappingLoop nt d order = 0 := by
  induction order with
  | nil => right; simp only [mappingLoop]; norm_num
  | cons e rest ih =>
    obtain ⟨t, kws⟩ := e
    simp only [mappingLoop, keywordLoop_eq]
    by_cases hh : kws.any (fun keyword => contains nt keyword) = true
    · by_cases hd : d = t
      · left; simp only [hh, hd, if_true]; norm_num
      · right; simp only [hh, hd, if_true, if_false]; norm_num
    · simp only [hh, Bool.false_eq_true, if_false]
      exact ih

theorem mappingLoop_none (nt d : String) (order : List (String × List String))
    (hnone : ∀ e ∈ order, entryHits nt e = false) : mappingLoop nt d order = 0 := by
  induction order with
  | nil => simp only [mappingLoop]; norm_num
  | cons e rest ih =>
    obtain ⟨t, kws⟩ := e
    have hh : kws.any (fun keyword => contains nt keyword) = false :=
      hnone (t, kws) (List.mem_cons_self _ _)
    simp only [mappingLoop, keywordLoop_eq, hh, Bool.false_eq_true, if_false]
    exact ih (fun e he => hnone e (List.mem_cons_of_mem _ he))

theorem scoreDomain_example (U : UnicodeTables) (order : List (String × List String))
    (hO : IsMapOrder order) (d ty lty c : String) (hl : toLower U ty = lty)
    (huniq : ∀ e ∈ domainMappings, entryHits lty e = true → e.1 = c)
    (hex : ∃ e ∈ domainMappings, entryHits lty e = true) :
    scoreDomain U order d ty = if d = c then 1 else 0 :=
  scoreDomain_unique U order d ty c hO (by rw [hl]; exact huniq) (by rw [hl]; exact hex)

/-- C11: `scoreDomain` returns only 1.0 or 0.0.  When the lower-cased phrase
contains keywords of exactly one category `c`, the result is 1.0 for the
domain `c` and 0.0 for every other domain; when it contains no keyword of any
category the result is 0.0 for every domain.  In particular
`scoreDomain("light","lights") = 1.0`, `scoreDomain("climate","thermostat") =
1.0`, `scoreDomain("light","switch") = 0.0`, `scoreDomain("unknown","light") =
0.0`.  All of this holds for every visiting order of the keyword map. -/
theorem C11_scoreDomain_binary_gate (U : UnicodeTables)
    (order : List (String × List String)) (hO : IsMapOrder order) :
    (∀ d ty, scoreDomain U order d ty = 1.0 ∨ scoreDomain U order d ty = 0.0) ∧
    (∀ ty c, (∃ e ∈ domainMappings, e.1 = c ∧ entryHits (toLower U ty) e = true) →
      (∀ e ∈ domainMappings, entryHits (toLower U ty) e = true → e.1 = c) →
      scoreDomain U order c ty = 1.0 ∧ ∀ d, d ≠ c → scoreDomain U order d ty = 0.0) ∧
    (∀ ty, (∀ e ∈ domainMappings, entryHits (toLower U ty) e = false) →
      ∀ d, scoreDomain U order d ty = 0.0) ∧
    scoreDomain U order "light" "lights" = 1.0 ∧
    scoreDomain U order "climate" "thermostat" = 1.0 ∧
    scoreDomain U order "light" "switch" = 0.0 ∧
    scoreDomain U order "unknown" "light" = 0.0 := by
  refine ⟨?_, ?_, ?_, ?_, ?_, ?_, ?_⟩
  · intro d ty
    rcases mappingLoop_binary (toLower U ty) d order with h | h
    · left; unfold scoreDomain; rw [h]; norm_num
    · right; unfold scoreDomain; rw [h]; norm_num
  · intro ty c hex huniq
    obtain ⟨e, he, _, hhit⟩ := hex
    have h := fun d => scoreDomain_unique U order d ty c hO huniq ⟨e, he, hhit⟩
    constructor
    · rw [h c]; norm_num
    · intro d hd
      rw [h d, if_neg hd]; norm_num
  · intro ty hnone d
    unfold scoreDomain
    rw [mappingLoop_none _ _ _ (fun e he => hnone e ((List.Perm.mem_iff hO).mp he))]
    norm_num
  · rw [scoreDomain_example U order hO "light" "lights" "lights" "light" rfl
      (by decide) (by decide)]
    norm_num
  · rw [scoreDomain_example U order hO "climate" "thermostat" "thermostat" "climate" rfl
      (by decide) (by decide)]
    norm_num
  · rw [scoreDomain_example U order hO "light" "switch" "switch" "switch" rfl
      (by decide) (by decide), if_neg (by decide)]
    norm_num
  · rw [scoreDomain_example U order hO "unknown" "light" "light" "light" rfl
      (by decide) (by decide), if_neg (by decide)]
    norm_num

/-- C11 at the ASCII tables and the declaration order of the map. -/
theorem C11_scoreDomain_binary_gate_witness :
    IsMapOrder domainMappings ∧
    scoreDomain asciiTables domainMappings "light" "lights" = 1.0 ∧
    scoreDomain asciiTables domainMappings "climate" "thermostat" = 1.0 ∧
    scoreDomain asciiTables domainMappings "light" "switch" = 0.0 ∧
    scoreDomain asciiTables domainMappings "unknown" "light" = 0.0 :=
  ⟨List.Perm.refl _,
    (C11_scoreDomain_binary_gate asciiTables domainMappings (List.Perm.refl _)).2.2.2⟩

theorem sensorFirstOrder_isMapOrder : IsMapOrder sensorFirstOrder :=
  List.rotate_perm domainMappings 5

/-- C12 fails on the code: the keyword map is ranged over, so the visiting
order is not fixed.  "temperature" has a keyword in climate and in sensor; in
declaration order `scoreDomain("climate","temperature") = 1.0` and
`scoreDomain("sensor","temperature") = 0.0`, but when the map is visited from
its sensor entry on, the two results are 0.0 and 1.0. -/
theorem C12_scoreDomain_depends_on_map_order (U : UnicodeTables) :
    IsMapOrder domainMappings ∧ IsMapOrder sensorFirstOrder ∧
    scoreDomain U domainMappings "climate" "temperature" = 1.0 ∧
    scoreDomain U domainMappings "sensor" "temperature" = 0.0 ∧
    scoreDomain U sensorFirstOrder "climate" "temperature" = 0.0 ∧
    scoreDomain U sensorFirstOrder "sensor" "temperature" = 1.0 :=
  ⟨List.Perm.refl _, sensorFirstOrder_isMapOrder, rfl, rfl, rfl, rfl⟩

/-! ## `findMatches` against `DebugFindMatches`, each ranging over the map on its own -/

theorem outdoorSensor_sensorFirst :
    scoreEntity asciiTables DefaultConfig sensorFirstOrder outdoorSensor "" "temperature"
        "outdoor" =
      { baseMatch outdoorSensor with Score := 0.7 } := by
  have hd : scoreDomain asciiTables sensorFirstOrder (splitFirst outdoorSensor.EntityID '.')
      "temperature" = 1 := by
    have h : scoreDomain asciiTables sensorFirstOrder (splitFirst outdoorSensor.EntityID '.')
        "temperature" = 1.0 := rfl
    rw [h]
    norm_num
  have hn : scoreName asciiTables (baseMatch outdoorSensor).FriendlyName "outdoor" = 1 := by
    have h : scoreName asciiTables (baseMatch outdoorSensor).FriendlyName "outdoor" = 1.0 :=
      rfl
    rw [h]
    norm_num
  have hw : (fields (baseMatch outdoorSensor).FriendlyName).length = 1 := by decide
  rw [scoreEntity_eq_of_pass _ _ _ _ _ _ _ (Or.inr (by rw [hd]; norm_num))]
  unfold availabilityFactor weightedSum specificityBonus
  rw [hd, hn, hw]
  have h1 : ("temperature" : String) ≠ "" := by decide
  have h2 : ("outdoor" : String) ≠ "" := by decide
  have h3 : ¬ (outdoorSensor.State = "unavailable") := by decide
  simp only [h1, h2, h3, ne_eq, not_true_eq_false, not_false_eq_true, if_true, if_false]
  norm_num

theorem outdoorSensor_declarationOrder :
    scoreEntity asciiTables DefaultConfig domainMappings outdoorSensor "" "temperature"
        "outdoor" = baseMatch outdoorSensor := by
  have hd : scoreDomain asciiTables domainMappings (splitFirst outdoorSensor.EntityID '.')
      "temperature" = 0 := by
    have h : scoreDomain asciiTables domainMappings (splitFirst outdoorSensor.EntityID '.')
        "temperature" = 0.0 := rfl
    rw [h]
    norm_num
  exact scoreEntity_gated _ _ _ _ _ _ _ (by decide) hd

/-- C6 fails on the code: `findMatches` and `DebugFindMatches` score every
entity anew, and each scoring ranges over the keyword map in an order of its
own.  For the snapshot with the one sensor `sensor.t1` ("Outdoor"), the query
(type "temperature", name "outdoor") and the default threshold 0.5:
`findMatches`, visiting the sensor entry first, returns the match with score
0.7; `DebugFindMatches`, visiting the map in declaration order, returns it with
score 0, so that none of its matches is above the threshold. -/
theorem C6_findMatches_not_the_filter_of_debug :
    IsMapOrder sensorFirstOrder ∧ IsMapOrder domainMappings ∧
    DefaultConfig.Preferences.FuzzyThreshold = 0.5 ∧
    findMatches asciiTables DefaultConfig (fun _ => sensorFirstOrder) [outdoorSensor]
        "" "temperature" "outdoor" =
      [{ EntityID := "sensor.t1", FriendlyName := "Outdoor", Domain := "sensor", Area := "",
         Score := 0.7 }] ∧
    DebugFindMatches asciiTables DefaultConfig (fun _ => domainMappings) [outdoorSensor]
        "" "temperature" "outdoor" =
      [{ EntityID := "sensor.t1", FriendlyName := "Outdoor", Domain := "sensor", Area := "",
         Score := 0 }] ∧
    (DebugFindMatches asciiTables DefaultConfig (fun _ => domainMappings) [outdoorSensor]
        "" "temperature" "outdoor").filter
      (fun m => decide (m.Score > DefaultConfig.Preferences.FuzzyThreshold)) = [] ∧
    findMatches asciiTables DefaultConfig (fun _ => sensorFirstOrder) [outdoorSensor]
        "" "temperature" "outdoor" ≠
      (DebugFindMatches asciiTables DefaultConfig (fun _ => domainMappings) [outdoorSensor]
        "" "temperature" "outdoor").filter
      (fun m => decide (m.Score > DefaultConfig.Preferences.FuzzyThreshold)) := by
  have hb : baseMatch outdoorSensor =
      { EntityID := "sensor.t1", FriendlyName := "Outdoor", Domain := "sensor", Area := "",
        Score := 0 } := rfl
  have hD : DebugFindMatches asciiTables DefaultConfig (fun _ => domainMappings) [outdoorSensor]
        "" "temperature" "outdoor" =
      [{ EntityID := "sensor.t1", FriendlyName := "Outdoor", Domain := "sensor", Area := "",
         Score := 0 }] := by
    rw [DebugFindMatches_eq]
    simp only [List.enum, List.enumFrom, List.map]
    rw [outdoorSensor_declarationOrder, hb]
  have hF : findMatches asciiTables DefaultConfig (fun _ => sensorFirstOrder) [outdoorSensor]
        "" "temperature" "outdoor" =
      [{ EntityID := "sensor.t1", FriendlyName := "Outdoor", Domain := "sensor", Area := "",
         Score := 0.7 }] := by
    rw [findMatches_eq_filter, DebugFindMatches_eq]
    simp only [List.enum, List.enumFrom, List.map]
    rw [outdoorSensor_sensorFirst, hb, DefaultConfig_threshold]
    norm_num [List.filter]
  have hE : (DebugFindMatches asciiTables DefaultConfig (fun _ => domainMappings)
        [outdoorSensor] "" "temperature" "outdoor").filter
      (fun m => decide (m.Score > DefaultConfig.Preferences.FuzzyThreshold)) = [] := by
    rw [hD, DefaultConfig_threshold]
    norm_num [List.filter]
  refine ⟨sensorFirstOrder_isMapOrder, List.Perm.refl _, DefaultConfig_threshold, hF, hD, hE, ?_⟩
  rw [hF, hE]
  exact List.cons_ne_nil _ _

/-! ## Levenshtein distance and `fuzzyMatch` -/

theorem min_le_third (a b c : Nat) : min a b c ≤ c := by
  unfold min
  split
  · next h => exact Nat.le_of_lt h.2
  · split
    · next h => exact Nat.le_of_lt h
    · exact Nat.le_refl c

theorem RowBounded_nil (i j0 : Nat) : RowBounded i j0 [] := by
  intro k h
  simp at h

theorem RowBounded_cons (i j0 c : Nat) (cs : List Nat) :
    RowBounded i j0 (c :: cs) ↔ c ≤ Nat.max i j0 ∧ RowBounded i (j0 + 1) cs := by
  constructor
  · intro h
    constructor
    · have := h 0 (by simp)
      simpa using this
    · intro k hk
      have := h (k + 1) (by simpa using hk)
      simp only [List.get_eq_getElem, List.getElem_cons_succ] at this
      simp only [List.get_eq_getElem]
      have e : j0 + 1 + k = j0 + (k + 1) := by omega
      rw [e]
      exact this
  · rintro ⟨h0, hrest⟩ k hk
    cases k with
    | zero => simpa using h0
    | succ k =>
      have := hrest k (by simpa using hk)
      simp only [List.get_eq_getElem] at this
      simp only [List.get_eq_getElem, List.getElem_cons_succ]
      have e : j0 + 1 + k = j0 + (k + 1) := by omega
      rw [← e]
      exact this

theorem levRow_bounded (x i : Nat) (ys : List Nat) :
    ∀ (prev : List Nat) (left j0 : Nat), RowBounded i j0 prev →
      RowBounded (i + 1) (j0 + 1) (levRow x ys prev left) := by
  induction ys with
  | nil => intro prev left j0 _; simp only [levRow]; exact RowBounded_nil _ _
  | cons y ys ih =>
    intro prev left j0 hprev
    match prev, hprev with
    | [], _ => simp only [levRow]; exact RowBounded_nil _ _
    | [_], _ => simp only [levRow]; exact RowBounded_nil _ _
    | diag :: up :: rest, hprev =>
      simp only [levRow]
      rw [RowBounded_cons] at hprev ⊢
      obtain ⟨hdiag, hrest⟩ := hprev
      refine ⟨?_, ih (up :: rest) _ (j0 + 1) hrest⟩
      have h1 := min_le_third (up + 1) (left + 1) (diag + if x ≠ y then 1 else 0)
      have h2 : (diag + if x ≠ y then 1 else 0) ≤ diag + 1 := by
        split <;> omega
      have h3 : diag ≤ Nat.max i j0 := hdiag
      have h4 : Nat.max i j0 + 1 ≤ Nat.max (i + 1) (j0 + 1) := by
        simp only [Nat.max_def]
        split <;> split <;> omega
      omega

theorem levRow_length (x : Nat) (ys : List Nat) :
    ∀ (prev : List Nat) (left : Nat), prev.length = ys.length + 1 →
      (levRow x ys prev left).length = ys.length := by
  induction ys with
  | nil => intro prev left _; simp [levRow]
  | cons y ys ih =>
    intro prev left hlen
    match prev, hlen with
    | [], hlen => simp at hlen
    | [_], hlen => simp at hlen
    | diag :: up :: rest, hlen =>
      simp only [levRow, List.length_cons]
      rw [ih (up :: rest) _ (by simpa using hlen)]

theorem levRows_bounded (s2 : List Nat) (xs : List Nat) :
    ∀ (prev : List Nat) (k : Nat), RowBounded k 0 prev → prev.length = s2.length + 1 →
      RowBounded (k + xs.length) 0 (levRows xs s2 prev (k + 1)) ∧
      (levRows xs s2 prev (k + 1)).length = s2.length + 1 := by
  induction xs with
  | nil => intro prev k hb hl; exact ⟨by simpa [levRows] using hb, by simpa [levRows] using hl⟩
  | cons x xs ih =>
    intro prev k hb hl
    simp only [levRows, List.length_cons]
    have hrow : RowBounded (k + 1) 0 ((k + 1) :: levRow x s2 prev (k + 1)) := by
      rw [RowBounded_cons]
      exact ⟨Nat.le_max_left _ _, levRow_bounded x k s2 prev (k + 1) 0 hb⟩
    have hlen : ((k + 1) :: levRow x s2 prev (k + 1)).length = s2.length + 1 := by
      simp only [List.length_cons, levRow_length x s2 prev (k + 1) hl]
    have := ih _ (k + 1) hrow hlen
    have e : k + 1 + xs.length = k + (xs.length + 1) := by omega
    rw [e] at this
    exact this

theorem RowBounded_range (n : Nat) : RowBounded 0 0 (List.range (n + 1)) := by
  intro k h
  simp only [List.get_eq_getElem, List.getElem_range]
  simp

theorem RowBounded_getLastD (i n : Nat) (row : List Nat) (hb : RowBounded i 0 row)
    (hl : row.length = n + 1) : row.getLastD 0 ≤ Nat.max i n := by
  have hne : row ≠ [] := by
    intro h; rw [h] at hl; simp at hl
  rw [List.getLastD_eq_getLast?, List.getLast?_eq_getLast _ hne, Option.getD_some,
    List.getLast_eq_getElem]
  have := hb (row.length - 1) (by omega)
  simp only [List.get_eq_getElem] at this
  have e : 0 + (row.length - 1) = n := by omega
  rw [e] at this
  exact this

theorem levenshteinDistance_le_max (s1 s2 : String) :
    levenshteinDistance s1 s2 ≤ Nat.max (len s1) (len s2) := by
  unfold levenshteinDistance
  split
  · exact Nat.le_max_right _ _
  · split
    · exact Nat.le_max_left _ _
    · have h := levRows_bounded (utf8Bytes s2) (utf8Bytes s1) (List.range (len s2 + 1)) 0
        (RowBounded_range _) (by simp [len])
      have hb := RowBounded_getLastD (0 + (utf8Bytes s1).length) (utf8Bytes s2).length _ h.1 h.2
      simpa [len] using hb

theorem levenshteinSimilarity_bounds (s1 s2 : String) :
    0 ≤ levenshteinSimilarity s1 s2 ∧ levenshteinSimilarity s1 s2 ≤ 1 := by
  unfold levenshteinSimilarity
  split
  · exact ⟨le_refl _, zero_le_one⟩
  · next hne =>
    have h1 : len s1 ≠ 0 := fun h => hne (Or.inl h)
    have h2 : len s2 ≠ 0 := fun h => hne (Or.inr h)
    have hd := levenshteinDistance_le_max s1 s2
    simp only []
    have hmax : (if len s2 > len s1 then len s2 else len s1) = Nat.max (len s1) (len s2) := by
      simp only [Nat.max_def]
      split <;> split <;> omega
    rw [hmax]
    have hpos : (0 : ℚ) < ((Nat.max (len s1) (len s2) : Nat) : ℚ) := by
      have : 0 < Nat.max (len s1) (len s2) :=
        Nat.lt_of_lt_of_le (Nat.pos_of_ne_zero h1) (Nat.le_max_left _ _)
      exact_mod_cast this
    have hle : ((levenshteinDistance s1 s2 : Nat) : ℚ) ≤
        ((Nat.max (len s1) (len s2) : Nat) : ℚ) := by exact_mod_cast hd
    have hq1 : ((levenshteinDistance s1 s2 : Nat) : ℚ) /
        ((Nat.max (len s1) (len s2) : Nat) : ℚ) ≤ 1 := (div_le_one hpos).mpr hle
    have hq0 : 0 ≤ ((levenshteinDistance s1 s2 : Nat) : ℚ) /
        ((Nat.max (len s1) (len s2) : Nat) : ℚ) :=
      div_nonneg (Nat.cast_nonneg _) (le_of_lt hpos)
    constructor <;> linarith

theorem wordPairInner_values (word1 : String) (words2 : List String) (r : ℚ)
    (h : wordPairInner word1 words2 = some r) : r = 0.8 ∨ r = 0.7 := by
  induction words2 with
  | nil => simp [wordPairInner] at h
  | cons w ws ih =>
    simp only [wordPairInner] at h
    split at h
    · left; exact (Option.some.inj h).symm
    · split at h
      · right; exact (Option.some.inj h).symm
      · exact ih h

theorem wordPairLoop_values (words1 words2 : List String) (r : ℚ)
    (h : wordPairLoop words1 words2 = some r) : r = 0.8 ∨ r = 0.7 := by
  induction words1 with
  | nil => simp [wordPairLoop] at h
  | cons w ws ih =>
    simp only [wordPairLoop] at h
    cases hin : wordPairInner w words2 with
    | some r2 =>
      rw [hin] at h
      simp only [Option.some.injEq] at h
      rw [← h]
      exact wordPairInner_values w words2 r2 hin
    | none =>
      rw [hin] at h
      exact ih h

theorem fuzzyMatch_bounds (U : UnicodeTables) (a b : String) :
    0 ≤ fuzzyMatch U a b ∧ fuzzyMatch U a b ≤ 1 := by
  unfold fuzzyMatch
  split
  · norm_num
  · simp only []
    split
    · norm_num
    · split
      · norm_num
      · split
        · norm_num
        · split
          · next r hr =>
            rcases wordPairLoop_values _ _ r hr with h | h <;> rw [h] <;> norm_num
          · exact levenshteinSimilarity_bounds _ _

/-- C13: for all strings `a`, `b`, `fuzzyMatch(a, b)` lies in `[0, 1]`; the
edit distance of the normalized strings is at most the length of the longer
one, so the Levenshtein fallback `1 - distance/max(len)` is between 0 and 1. -/
theorem C13_fuzzyMatch_in_unit_interval (U : UnicodeTables) (a b : String) :
    0 ≤ fuzzyMatch U a b ∧ fuzzyMatch U a b ≤ 1 ∧
    levenshteinDistance (normalizeString U a) (normalizeString U b) ≤
      Nat.max (len (normalizeString U a)) (len (normalizeString U b)) ∧
    0 ≤ levenshteinSimilarity (normalizeString U a) (normalizeString U b) ∧
    levenshteinSimilarity (normalizeString U a) (normalizeString U b) ≤ 1 :=
  ⟨(fuzzyMatch_bounds U a b).1, (fuzzyMatch_bounds U a b).2,
    levenshteinDistance_le_max _ _,
    (levenshteinSimilarity_bounds _ _).1, (levenshteinSimilarity_bounds _ _).2⟩

theorem fuzzyMatch_of_contains (U : UnicodeTables) (a b : String) (hab : a ≠ b)
    (hn : normalizeString U a ≠ normalizeString U b)
    (hc : contains (normalizeString U a) (normalizeString U b) = true ∨
      contains (normalizeString U b) (normalizeString U a) = true) :
    fuzzyMatch U a b = 0.9 := by
  unfold fuzzyMatch
  rw [if_neg hab]
  simp only []
  rw [if_neg hn]
  rcases hc with h | h
  · rw [if_pos h]
  · by_cases h1 : contains (normalizeString U a) (normalizeString U b) = true
    · rw [if_pos h1]
    · rw [if_neg h1, if_pos h]

set_option maxRecDepth 100000 in
theorem completelyDifferent_distance :
    levenshteinDistance "completely different" "nothing" = 16 := by decide

theorem completelyDifferent_fuzzyMatch (U : UnicodeTables) :
    fuzzyMatch U "completely different" "nothing" = 0.2 := by
  have h : fuzzyMatch U "completely different" "nothing" =
      levenshteinSimilarity "completely different" "nothing" := rfl
  have h1 : len "completely different" = 20 := by decide
  have h2 : len "nothing" = 7 := by decide
  rw [h]
  unfold levenshteinSimilarity
  rw [completelyDifferent_distance, h1, h2]
  norm_num

/-- C14: for strings `a ≠ b` whose normalized forms differ, if one normalized
form contains the other then `fuzzyMatch(a, b) = 0.9`, which is above 0.6; so
it is for ("living room","living"), ("living room","room"), ("kitchen
light","kitchen") and ("bedroom fan","bedroom"); and
`fuzzyMatch("completely different","nothing")` is 0.2, at most 0.6. -/
theorem C14_containment_scores_point_nine (U : UnicodeTables) (a b : String) (hab : a ≠ b)
    (hn : normalizeString U a ≠ normalizeString U b)
    (hc : contains (normalizeString U a) (normalizeString U b) = true ∨
      contains (normalizeString U b) (normalizeString U a) = true) :
    fuzzyMatch U a b = 0.9 ∧ fuzzyMatch U a b > 0.6 ∧
    fuzzyMatch U "living room" "living" = 0.9 ∧
    fuzzyMatch U "living room" "room" = 0.9 ∧
    fuzzyMatch U "kitchen light" "kitchen" = 0.9 ∧
    fuzzyMatch U "bedroom fan" "bedroom" = 0.9 ∧
    fuzzyMatch U "completely different" "nothing" ≤ 0.6 := by
  have h := fuzzyMatch_of_contains U a b hab hn hc
  refine ⟨h, ?_, rfl, rfl, rfl, rfl, ?_⟩
  · rw [h]; norm_num
  · rw [completelyDifferent_fuzzyMatch]; norm_num

/-- C14 at ("living room", "living") with the ASCII tables. -/
theorem C14_containment_scores_point_nine_witness :
    ("living room" : String) ≠ "living" ∧
    normalizeString asciiTables "living room" ≠ normalizeString asciiTables "living" ∧
    contains (normalizeString asciiTables "living room")
      (normalizeString asciiTables "living") = true ∧
    fuzzyMatch asciiTables "living room" "living" = 0.9 ∧
    fuzzyMatch asciiTables "living room" "living" > 0.6 :=
  ⟨by decide, by decide, by decide,
    (C14_containment_scores_point_nine asciiTables "living room" "living" (by decide)
      (by decide) (Or.inl (by decide))).1,
    (C14_containment_scores_point_nine asciiTables "living room" "living" (by decide)
      (by decide) (Or.inl (by decide))).2.1⟩

theorem containsChars_nil (s : List Char) : containsChars s [] = true := by
  cases s <;> simp [containsChars, startsWith]

theorem contains_empty (s : String) : contains s "" = true := by
  unfold contains
  exact containsChars_nil _

theorem fuzzyMatch_of_one_empty (U : UnicodeTables) (a b : String)
    (h : (normalizeString U a = "" ∧ normalizeString U b ≠ "") ∨
      (normalizeString U a ≠ "" ∧ normalizeString U b = "")) :
    fuzzyMatch U a b = 0.9 := by
  have hn : normalizeString U a ≠ normalizeString U b := by
    rcases h with ⟨h1, h2⟩ | ⟨h1, h2⟩
    · rw [h1]; exact fun e => h2 e.symm
    · rw [h2]; exact h1
  have hab : a ≠ b := fun e => hn (by rw [e])
  apply fuzzyMatch_of_contains U a b hab hn
  rcases h with ⟨h1, _⟩ | ⟨_, h2⟩
  · right; rw [h1]; exact contains_empty _
  · left; rw [h2]; exact contains_empty _

/-- C15 fails on the code: the guard of `levenshteinSimilarity` that returns
0.0 for an empty string is never reached from `fuzzyMatch`, because every
string contains the empty string and the containment check comes first.
`normalizeString("-")` is empty and `fuzzyMatch("kitchen", "-")` is 0.9, not
0.0; so it is whenever exactly one normalized form is empty. -/
theorem C15_one_empty_normal_form_scores_point_nine (U : UnicodeTables) :
    normalizeString U "-" = "" ∧ normalizeString U "kitchen" ≠ "" ∧
    fuzzyMatch U "kitchen" "-" = 0.9 ∧ fuzzyMatch U "-" "kitchen" = 0.9 ∧
    fuzzyMatch U "kitchen" "-" ≠ 0.0 ∧
    (∀ a b : String,
      ((normalizeString U a = "" ∧ normalizeString U b ≠ "") ∨
        (normalizeString U a ≠ "" ∧ normalizeString U b = "")) →
      fuzzyMatch U a b = 0.9) ∧
    (∀ s : String, levenshteinSimilarity s "" = 0.0 ∧ levenshteinSimilarity "" s = 0.0) := by
  have hk : normalizeString U "kitchen" = "kitchen" := rfl
  have hf : fuzzyMatch U "kitchen" "-" = 0.9 := rfl
  refine ⟨rfl, ?_, hf, rfl, ?_, fuzzyMatch_of_one_empty U, ?_⟩
  · rw [hk]; decide
  · rw [hf]; norm_num
  · intro s
    have h0 : len "" = 0 := by decide
    constructor
    · unfold levenshteinSimilarity
      rw [if_pos (Or.inr h0)]; norm_num
    · unfold levenshteinSimilarity
      rw [if_pos (Or.inl h0)]; norm_num

/-- C17: `fuzzyMatch` is not symmetric.  For `a = "xy ab"`, `b = "abc xy"` the
first word pair that is equal or in containment is ("xy","xy") in one
direction and ("abc","ab") in the other: `fuzzyMatch(a, b) = 0.8` and
`fuzzyMatch(b, a) = 0.7`. -/
theorem C17_fuzzyMatch_not_symmetric (U : UnicodeTables) :
    fuzzyMatch U "xy ab" "abc xy" = 0.8 ∧ fuzzyMatch U "abc xy" "xy ab" = 0.7 ∧
    fuzzyMatch U "xy ab" "abc xy" ≠ fuzzyMatch U "abc xy" "xy ab" ∧
    ∃ a b : String, fuzzyMatch U a b ≠ fuzzyMatch U b a := by
  have h1 : fuzzyMatch U "xy ab" "abc xy" = 0.8 := rfl
  have h2 : fuzzyMatch U "abc xy" "xy ab" = 0.7 := rfl
  have h3 : fuzzyMatch U "xy ab" "abc xy" ≠ fuzzyMatch U "abc xy" "xy ab" := by
    rw [h1, h2]; norm_num
  exact ⟨h1, h2, h3, "xy ab", "abc xy", h3⟩

/-! ## The word-overlap step of `fuzzyMatch` -/

theorem wordPairInner_eq (word1 : String) (words2 : List String) :
    wordPairInner word1 words2 =
      ((words2.map (fun word2 => (word1, word2))).find? pairHit).map
        (fun p => if p.1 = p.2 then (0.8 : ℚ) else 0.7) := by
  induction words2 with
  | nil => rfl
  | cons w ws ih =>
    simp only [wordPairInner, List.map_cons, List.find?_cons, pairHit]
    by_cases he : word1 = w
    · simp [he]
    · by_cases hc : (contains word1 w || contains w word1) = true
      · simp [he, hc]
      · have hc2 : (contains word1 w || contains w word1) = false := by simpa using hc
        simp only [he, hc, hc2, decide_False, Bool.or_false, if_false]
        rw [ih]
        rfl

theorem wordPairLoop_eq (words1 words2 : List String) :
    wordPairLoop words1 words2 =
      ((wordPairs words1 words2).find? pairHit).map
        (fun p => if p.1 = p.2 then (0.8 : ℚ) else 0.7) := by
  induction words1 with
  | nil => rfl
  | cons w ws ih =>
    simp only [wordPairLoop, wordPairs, List.flatMap_cons, List.find?_append]
    rw [wordPairInner_eq]
    cases hf : (words2.map (fun word2 => (w, word2))).find? pairHit with
    | some p => simp
    | none =>
      simp only [Option.map_none', Option.none_or]
      rw [ih]
      rfl

theorem mem_wordPairs (words1 words2 : List String) (p : String × String) :
    p ∈ wordPairs words1 words2 ↔ p.1 ∈ words1 ∧ p.2 ∈ words2 := by
  obtain ⟨a, b⟩ := p
  simp only [wordPairs, List.mem_flatMap, List.mem_map, Prod.mk.injEq]
  constructor
  · rintro ⟨w1, h1, w2, h2, rfl, rfl⟩
    exact ⟨h1, h2⟩
  · rintro ⟨h1, h2⟩
    exact ⟨a, h1, b, h2, rfl, rfl⟩

theorem fuzzyMatch_word_step (U : UnicodeTables) (a b : String) (hab : a ≠ b)
    (hn : normalizeString U a ≠ normalizeString U b)
    (hc1 : contains (normalizeString U a) (normalizeString U b) = false)
    (hc2 : contains (normalizeString U b) (normalizeString U a) = false) :
    fuzzyMatch U a b =
      match wordPairLoop (fields (normalizeString U a)) (fields (normalizeString U b)) with
      | some r => r
      | none => levenshteinSimilarity (normalizeString U a) (normalizeString U b) := by
  unfold fuzzyMatch
  rw [if_neg hab]
  simp only []
  rw [if_neg hn, hc1, hc2]
  simp

theorem wordPairs_find_some_of_hit (words1 words2 : List String) (q : String × String)
    (hq : q ∈ wordPairs words1 words2) (hhit : pairHit q = true) :
    ∃ p, (wordPairs words1 words2).find? pairHit = some p ∧
      p ∈ wordPairs words1 words2 ∧ pairHit p = true := by
  cases hf : (wordPairs words1 words2).find? pairHit with
  | none =>
    rw [List.find?_eq_none] at hf
    exact absurd hhit (hf q hq)
  | some p => exact ⟨p, rfl, List.mem_of_find?_eq_some hf, List.find?_some hf⟩

/-- C16, as the code has it: when `fuzzyMatch` reaches the word-overlap step,
the first word pair (outer loop over the words of `normalize(a)`, inner loop
over those of `normalize(b)`) that is equal or in containment decides: 0.8 if
it is an equal pair, 0.7 otherwise.  Hence the result is 0.8 when some word
pair is equal and no unequal pair is in containment, and 0.7 when no pair is
equal but some pair is in containment; and the word step gives 0.7 only when
some unequal pair is in containment. -/
theorem C16_first_related_word_pair_decides (U : UnicodeTables) (a b : String) (hab : a ≠ b)
    (hn : normalizeString U a ≠ normalizeString U b)
    (hc1 : contains (normalizeString U a) (normalizeString U b) = false)
    (hc2 : contains (normalizeString U b) (normalizeString U a) = false) :
    (∀ p, (wordPairs (fields (normalizeString U a)) (fields (normalizeString U b))).find?
        pairHit = some p →
      fuzzyMatch U a b = if p.1 = p.2 then 0.8 else 0.7) ∧
    ((∃ w, w ∈ fields (normalizeString U a) ∧ w ∈ fields (normalizeString U b)) →
      (∀ w1 ∈ fields (normalizeString U a), ∀ w2 ∈ fields (normalizeString U b), w1 ≠ w2 →
        contains w1 w2 = false ∧ contains w2 w1 = false) →
      fuzzyMatch U a b = 0.8) ∧
    ((∀ w1 ∈ fields (normalizeString U a), ∀ w2 ∈ fields (normalizeString U b), w1 ≠ w2) →
      (∃ w1 ∈ fields (normalizeString U a), ∃ w2 ∈ fields (normalizeString U b),
        contains w1 w2 = true ∨ contains w2 w1 = true) →
      fuzzyMatch U a b = 0.7) ∧
    (wordPairLoop (fields (normalizeString U a)) (fields (normalizeString U b)) = some 0.7 →
      ∃ w1 ∈ fields (normalizeString U a), ∃ w2 ∈ fields (normalizeString U b),
        w1 ≠ w2 ∧ (contains w1 w2 = true ∨ contains w2 w1 = true)) := by
  have hstep : ∀ p,
      (wordPairs (fields (normalizeString U a)) (fields (normalizeString U b))).find?
        pairHit = some p →
      fuzzyMatch U a b = if p.1 = p.2 then 0.8 else 0.7 := by
    intro p hp
    rw [fuzzyMatch_word_step U a b hab hn hc1 hc2, wordPairLoop_eq, hp]
    rfl
  refine ⟨hstep, ?_, ?_, ?_⟩
  · rintro ⟨w, hw1, hw2⟩ hno
    obtain ⟨p, hp, hmem, hhit⟩ := wordPairs_find_some_of_hit _ _ (w, w)
      ((mem_wordPairs _ _ _).mpr ⟨hw1, hw2⟩) (by simp [pairHit])
    rw [hstep p hp]
    have heq : p.1 = p.2 := by
      by_contra hne
      have hm := (mem_wordPairs _ _ _).mp hmem
      have := hno p.1 hm.1 p.2 hm.2 hne
      simp [pairHit, hne, this.1, this.2] at hhit
    rw [if_pos heq]
  · rintro hall ⟨w1, hw1, w2, hw2, hc⟩
    obtain ⟨p, hp, hmem, _⟩ := wordPairs_find_some_of_hit _ _ (w1, w2)
      ((mem_wordPairs _ _ _).mpr ⟨hw1, hw2⟩) (by
        rcases hc with h | h <;> simp [pairHit, h])
    rw [hstep p hp]
    have hm := (mem_wordPairs _ _ _).mp hmem
    rw [if_neg (hall p.1 hm.1 p.2 hm.2)]
  · intro h
    rw [wordPairLoop_eq] at h
    cases hf : (wordPairs (fields (normalizeString U a))
        (fields (normalizeString U b))).find? pairHit with
    | none => rw [hf] at h; simp at h
    | some p =>
      rw [hf] at h
      simp only [Option.map_some', Option.some.injEq] at h
      have hne : p.1 ≠ p.2 := by
        intro heq
        rw [if_pos heq] at h
        norm_num at h
      have hm := (mem_wordPairs _ _ _).mp (List.mem_of_find?_eq_some hf)
      have hhit := List.find?_some hf
      refine ⟨p.1, hm.1, p.2, hm.2, hne, ?_⟩
      simpa [pairHit, hne] using hhit

/-- C16 at `a = "abc xy"`, `b = "xy ab"`: the first related pair is
("abc","ab"), a containment, so the result is 0.7. -/
theorem C16_first_related_word_pair_decides_witness :
    ("abc xy" : String) ≠ "xy ab" ∧
    normalizeString asciiTables "abc xy" ≠ normalizeString asciiTables "xy ab" ∧
    contains (normalizeString asciiTables "abc xy") (normalizeString asciiTables "xy ab")
      = false ∧
    contains (normalizeString asciiTables "xy ab") (normalizeString asciiTables "abc xy")
      = false ∧
    (wordPairs (fields (normalizeString asciiTables "abc xy"))
      (fields (normalizeString asciiTables "xy ab"))).find? pairHit = some ("abc", "ab") ∧
    fuzzyMatch asciiTables "abc xy" "xy ab" =
      if (("abc", "ab") : String × String).1 = (("abc", "ab") : String × String).2
      then 0.8 else 0.7 :=
  ⟨by decide, by decide, by decide, by decide, by decide,
    (C16_first_related_word_pair_decides asciiTables "abc xy" "xy ab" (by decide) (by decide)
      (by decide) (by decide)).1 ("abc", "ab") (by decide)⟩

/-- C16 as stated fails: `"abc xy"` and `"xy ab"` reach the word-overlap step
and share the word "xy", yet `fuzzyMatch` returns 0.7, because the pair
("abc","ab") is visited first. -/
theorem C16_counterexample :
    ("abc xy" : String) ≠ "xy ab" ∧
    normalizeString asciiTables "abc xy" ≠ normalizeString asciiTables "xy ab" ∧
    contains (normalizeString asciiTables "abc xy") (normalizeString asciiTables "xy ab")
      = false ∧
    contains (normalizeString asciiTables "xy ab") (normalizeString asciiTables "abc xy")
      = false ∧
    "xy" ∈ fields (normalizeString asciiTables "abc xy") ∧
    "xy" ∈ fields (normalizeString asciiTables "xy ab") ∧
    fuzzyMatch asciiTables "abc xy" "xy ab" = 0.7 ∧
    fuzzyMatch asciiTables "abc xy" "xy ab" ≠ 0.8 := by
  have h : fuzzyMatch asciiTables "abc xy" "xy ab" = 0.7 := rfl
  refine ⟨by decide, by decide, by decide, by decide, by decide, by decide, h, ?_⟩
  rw [h]; norm_num

/-! ## `scoreArea` -/

theorem toNat_ofNat_of_lt (n : Nat) (h : n < 55296) : (Char.ofNat n).toNat = n := by
  have hv : n.isValidChar := Or.inl h
  unfold Char.ofNat
  rw [dif_pos hv]
  rfl

theorem asciiTables_lowerIdempotent : LowerIdempotent asciiTables := by
  intro c
  unfold toLowerRune
  simp only []
  by_cases h128 : c.toNat < 128
  · rw [if_pos h128]
    by_cases hup : (decide (65 ≤ c.toNat) && decide (c.toNat ≤ 90)) = true
    · rw [if_pos hup]
      have hb : 65 ≤ c.toNat ∧ c.toNat ≤ 90 := by simpa using hup
      have hn : (Char.ofNat (c.toNat + 32)).toNat = c.toNat + 32 :=
        toNat_ofNat_of_lt _ (by omega)
      rw [hn, if_pos (by omega)]
      have hlow : (decide (65 ≤ c.toNat + 32) && decide (c.toNat + 32 ≤ 90)) = false := by
        simp only [Bool.and_eq_false_imp, decide_eq_true_eq, decide_eq_false_iff_not]
        intro _; omega
      rw [hlow]
      rfl
    · rw [if_neg hup, if_pos h128, if_neg hup]
  · rw [if_neg h128]
    show (if (asciiTables.toLower c).toNat < 128 then _ else _) = _
    have hid : asciiTables.toLower c = c := rfl
    rw [hid, if_neg h128]
    rfl

theorem toLower_idempotent (U : UnicodeTables) (hU : LowerIdempotent U) (s : String) :
    toLower U (toLower U s) = toLower U s := by
  unfold toLower
  simp only [List.map_map]
  congr 1
  apply List.map_congr_left
  intro c _
  exact hU c

theorem scoreArea_eq_of_resolveAlias (U : UnicodeTables) (cfg : Config) (m : EntityMatch)
    (p q : String) (h : resolveAlias U cfg p = resolveAlias U cfg q) :
    scoreArea U cfg m p = scoreArea U cfg m q := by
  unfold scoreArea
  rw [h]

/-- C18: alias substitution in `scoreArea`.  When the lower-cased phrase `p`
is a key of the alias table and the lower-cased target is not itself a key,
`scoreArea(match, p) = scoreArea(match, T[lowercase(p)])`; and for every
phrase `scoreArea(match, p) = scoreArea(match, lowercase(p))`, lower-casing
being idempotent.  The alias table is only read: `scoreArea` is a function of
it and returns the score alone. -/
theorem C18_alias_substitution (U : UnicodeTables) (hU : LowerIdempotent U) (cfg : Config)
    (m : EntityMatch) :
    (∀ p target : String, cfg.Aliases.lookup (toLower U p) = some target →
      cfg.Aliases.lookup (toLower U target) = none →
      scoreArea U cfg m p = scoreArea U cfg m target) ∧
    (∀ p : String, scoreArea U cfg m p = scoreArea U cfg m (toLower U p)) := by
  constructor
  · intro p target hkey hnot
    apply scoreArea_eq_of_resolveAlias
    unfold resolveAlias
    rw [hkey, hnot]
  · intro p
    apply scoreArea_eq_of_resolveAlias
    unfold resolveAlias
    rw [toLower_idempotent U hU p]

/-- C18 at the ASCII tables and the alias table {"lr": "Living Room"}, for
the phrase "LR". -/
theorem C18_alias_substitution_witness :
    LowerIdempotent asciiTables ∧
    aliasConfig.Aliases.lookup (toLower asciiTables "LR") = some "Living Room" ∧
    aliasConfig.Aliases.lookup (toLower asciiTables "Living Room") = none ∧
    scoreArea asciiTables aliasConfig kitchenetteMatch "LR" =
      scoreArea asciiTables aliasConfig kitchenetteMatch "Living Room" ∧
    scoreArea asciiTables aliasConfig kitchenetteMatch "LR" =
      scoreArea asciiTables aliasConfig kitchenetteMatch (toLower asciiTables "LR") :=
  ⟨asciiTables_lowerIdempotent, by decide, by decide,
    (C18_alias_substitution asciiTables asciiTables_lowerIdempotent aliasConfig
      kitchenetteMatch).1 "LR" "Living Room" (by decide) (by decide),
    (C18_alias_substitution asciiTables asciiTables_lowerIdempotent aliasConfig
      kitchenetteMatch).2 "LR"⟩

theorem areaWordLoop_eq (na : String) (words : List String) :
    areaWordLoop na words = (words.find? (wordRelated na)).map (wordScore na) := by
  induction words with
  | nil => rfl
  | cons w ws ih =>
    simp only [areaWordLoop, List.find?_cons, wordRelated]
    by_cases he : w = na
    · simp [he, wordScore]
    · by_cases hc : contains w na = true
      · simp [he, hc, wordScore]
      · by_cases hc2 : contains na w = true
        · simp [he, hc, hc2, wordScore]
        · have h1 : contains w na = false := by simpa using hc
          have h2 : contains na w = false := by simpa using hc2
          simp only [he, h1, h2, decide_False, Bool.or_false, if_false, Bool.false_eq_true]
          exact ih

theorem wordScore_values (na w : String) :
    wordScore na w = 1.0 ∨ wordScore na w = 0.95 ∨ wordScore na w = 0.90 := by
  unfold wordScore
  split
  · left; rfl
  · split
    · right; left; rfl
    · right; right; rfl

theorem scoreAreaFriendly_range (U : UnicodeTables) (m : EntityMatch) (na : String) :
    scoreAreaFriendly U m na = 0 ∨
      (0.6 < scoreAreaFriendly U m na ∧ scoreAreaFriendly U m na ≤ 1) := by
  unfold scoreAreaFriendly
  simp only []
  rw [areaWordLoop_eq]
  cases (fields (toLower U m.FriendlyName)).find? (wordRelated na) with
  | some w =>
    right
    simp only [Option.map_some']
    rcases wordScore_values na w with h | h | h <;> rw [h] <;> norm_num
  | none =>
    simp only [Option.map_none']
    split
    · right; norm_num
    · split
      · right; norm_num
      · split
        · next h => right; exact ⟨h, (fuzzyMatch_bounds U _ _).2⟩
        · left; norm_num

theorem scoreArea_skip_tag (U : UnicodeTables) (cfg : Config) (m : EntityMatch)
    (area : String)
    (harea : m.Area = "" ∨
      fuzzyMatch U (toLower U m.Area) (resolveAlias U cfg area) ≤ 0.8) :
    scoreArea U cfg m area = scoreAreaFriendly U m (resolveAlias U cfg area) := by
  unfold scoreArea
  simp only []
  rcases harea with h | h
  · simp [h]
  · have hn : ¬ (fuzzyMatch U (toLower U m.Area) (resolveAlias U cfg area) > 0.8) :=
      not_lt.mpr h
    by_cases ha : m.Area = ""
    · simp [ha]
    · simp [ha, hn]

/-- C19: for every match, alias table and area phrase, `scoreArea` returns
either 0.0 or a value in `(0.6, 1]`. -/
theorem C19_scoreArea_range (U : UnicodeTables) (cfg : Config) (m : EntityMatch)
    (area : String) :
    scoreArea U cfg m area = 0.0 ∨
      (0.6 < scoreArea U cfg m area ∧ scoreArea U cfg m area ≤ 1) := by
  by_cases h : m.Area ≠ "" ∧
      fuzzyMatch U (toLower U m.Area) (resolveAlias U cfg area) > 0.8
  · right
    have hs : scoreArea U cfg m area =
        fuzzyMatch U (toLower U m.Area) (resolveAlias U cfg area) := by
      unfold scoreArea
      simp [h.1, h.2]
    rw [hs]
    exact ⟨by linarith [h.2], (fuzzyMatch_bounds U _ _).2⟩
  · have harea : m.Area = "" ∨
        fuzzyMatch U (toLower U m.Area) (resolveAlias U cfg area) ≤ 0.8 := by
      by_cases ha : m.Area = ""
      · exact Or.inl ha
      · exact Or.inr (not_lt.mp (fun hgt => h ⟨ha, hgt⟩))
    rw [scoreArea_skip_tag U cfg m area harea]
    rcases scoreAreaFriendly_range U m (resolveAlias U cfg area) with h0 | h1
    · left; rw [h0]; norm_num
    · right; exact h1

theorem scoreAreaFriendly_of_find (U : UnicodeTables) (m : EntityMatch) (na w : String)
    (hw : (fields (toLower U m.FriendlyName)).find? (wordRelated na) = some w) :
    scoreAreaFriendly U m na = wordScore na w := by
  unfold scoreAreaFriendly
  simp only []
  rw [areaWordLoop_eq, hw]
  rfl

/-- How the word loop of `scoreArea` runs: when the area tag is empty or its
similarity does not exceed 0.8, the loop stops at the first word of the
lower-cased friendly name that equals the (alias-resolved, lower-cased)
phrase, contains it or is contained in it, and returns 1.0 if that word equals
the phrase, 0.95 if it contains it, 0.90 otherwise.  So `scoreArea` is 1.0
when some word equals the phrase and no other word contains it or is contained
in it. -/
theorem scoreArea_word_loop_first_hit (U : UnicodeTables) (cfg : Config) (m : EntityMatch)
    (area : String)
    (harea : m.Area = "" ∨
      fuzzyMatch U (toLower U m.Area) (resolveAlias U cfg area) ≤ 0.8) :
    (∀ w, (fields (toLower U m.FriendlyName)).find? (wordRelated (resolveAlias U cfg area))
        = some w →
      scoreArea U cfg m area =
        if w = resolveAlias U cfg area then 1.0
        else if contains w (resolveAlias U cfg area) then 0.95
        else 0.90) ∧
    (resolveAlias U cfg area ∈ fields (toLower U m.FriendlyName) →
      (∀ w ∈ fields (toLower U m.FriendlyName), w ≠ resolveAlias U cfg area →
        contains w (resolveAlias U cfg area) = false ∧
        contains (resolveAlias U cfg area) w = false) →
      scoreArea U cfg m area = 1.0) ∧
    (areaWordLoop (resolveAlias U cfg area) (fields (toLower U m.FriendlyName)) = some 0.95 →
      ∃ w ∈ fields (toLower U m.FriendlyName), w ≠ resolveAlias U cfg area ∧
        contains w (resolveAlias U cfg area) = true) ∧
    (areaWordLoop (resolveAlias U cfg area) (fields (toLower U m.FriendlyName)) = some 0.90 →
      ∃ w ∈ fields (toLower U m.FriendlyName), w ≠ resolveAlias U cfg area ∧
        contains w (resolveAlias U cfg area) = false ∧
        contains (resolveAlias U cfg area) w = true) := by
  have hfirst : ∀ w,
      (fields (toLower U m.FriendlyName)).find? (wordRelated (resolveAlias U cfg area))
        = some w →
      scoreArea U cfg m area = wordScore (resolveAlias U cfg area) w := by
    intro w hw
    rw [scoreArea_skip_tag U cfg m area harea]
    exact scoreAreaFriendly_of_find U m _ w hw
  refine ⟨fun w hw => hfirst w hw, ?_, ?_, ?_⟩
  · intro hmem hno
    cases hf : (fields (toLower U m.FriendlyName)).find?
        (wordRelated (resolveAlias U cfg area)) with
    | none =>
      rw [List.find?_eq_none] at hf
      have := hf _ hmem
      simp [wordRelated] at this
    | some w =>
      rw [hfirst w hf]
      have hrel := List.find?_some hf
      have hwm := List.mem_of_find?_eq_some hf
      have heq : w = resolveAlias U cfg area := by
        by_contra hne
        have := hno w hwm hne
        simp [wordRelated, hne, this.1, this.2] at hrel
      unfold wordScore
      rw [if_pos heq]
  · intro h
    rw [areaWordLoop_eq] at h
    cases hf : (fields (toLower U m.FriendlyName)).find?
        (wordRelated (resolveAlias U cfg area)) with
    | none => rw [hf] at h; simp at h
    | some w =>
      rw [hf] at h
      simp only [Option.map_some', Option.some.injEq] at h
      refine ⟨w, List.mem_of_find?_eq_some hf, ?_, ?_⟩
      · intro heq
        unfold wordScore at h
        rw [if_pos heq] at h
        norm_num at h
      · by_contra hc
        unfold wordScore at h
        by_cases heq : w = resolveAlias U cfg area
        · rw [if_pos heq] at h
          norm_num at h
        · rw [if_neg heq, if_neg hc] at h
          norm_num at h
  · intro h
    rw [areaWordLoop_eq] at h
    cases hf : (fields (toLower U m.FriendlyName)).find?
        (wordRelated (resolveAlias U cfg area)) with
    | none => rw [hf] at h; simp at h
    | some w =>
      rw [hf] at h
      simp only [Option.map_some', Option.some.injEq] at h
      have hrel := List.find?_some hf
      have hne : w ≠ resolveAlias U cfg area := by
        intro heq
        unfold wordScore at h
        rw [if_pos heq] at h
        norm_num at h
      have hnc : contains w (resolveAlias U cfg area) = false := by
        by_contra hc
        have hc2 : contains w (resolveAlias U cfg area) = true := by simpa using hc
        unfold wordScore at h
        rw [if_neg hne, if_pos hc2] at h
        norm_num at h
      refine ⟨w, List.mem_of_find?_eq_some hf, hne, hnc, ?_⟩
      simpa [wordRelated, hne, hnc] using hrel

/-- C20 fails on the code: the word loop of `scoreArea` tests "equals",
"contains" and "is contained" at each word and returns at the first word that
passes any of them, so a word equal to the phrase is missed when an earlier
word contains the phrase.  The match "Kitchenette Kitchen" has no area tag and
the word "kitchen" of its lower-cased friendly name equals the phrase
"kitchen"; the first related word is "kitchenette", and `scoreArea` returns
0.95, not 1.0. -/
theorem C20_exact_word_missed_after_containing_word :
    kitchenetteMatch.Area = "" ∧
    resolveAlias asciiTables DefaultConfig "kitchen" = "kitchen" ∧
    fields (toLower asciiTables kitchenetteMatch.FriendlyName) = ["kitchenette", "kitchen"] ∧
    "kitchen" ∈ fields (toLower asciiTables kitchenetteMatch.FriendlyName) ∧
    (fields (toLower asciiTables kitchenetteMatch.FriendlyName)).find?
      (wordRelated (resolveAlias asciiTables DefaultConfig "kitchen")) = some "kitchenette" ∧
    scoreArea asciiTables DefaultConfig kitchenetteMatch "kitchen" = 0.95 ∧
    scoreArea asciiTables DefaultConfig kitchenetteMatch "kitchen" ≠ 1.0 := by
  have h : scoreArea asciiTables DefaultConfig kitchenetteMatch "kitchen" = 0.95 := rfl
  refine ⟨rfl, by decide, by decide, by decide, by decide, h, ?_⟩
  rw [h]; norm_num

/-! ## `scoreArea`: the area tag; `scoreName` -/

theorem scoreAreaFriendly_congr (U : UnicodeTables) (m m2 : EntityMatch) (na : String)
    (h : m2.FriendlyName = m.FriendlyName) :
    scoreAreaFriendly U m2 na = scoreAreaFriendly U m na := by
  unfold scoreAreaFriendly
  rw [h]

theorem scoreArea_of_tag (U : UnicodeTables) (cfg : Config) (m : EntityMatch) (area : String)
    (hA : m.Area ≠ "")
    (hgt : fuzzyMatch U (toLower U m.Area) (resolveAlias U cfg area) > 0.8) :
    scoreArea U cfg m area = fuzzyMatch U (toLower U m.Area) (resolveAlias U cfg area) := by
  unfold scoreArea
  simp [hA, hgt]

/-- C21: for a match with a non-empty area tag, if the similarity of the
lower-cased tag and the alias-resolved lower-cased phrase exceeds 0.8 then
`scoreArea` returns exactly that similarity, whatever the friendly name; if it
does not, `scoreArea` returns what it returns for the same match with an empty
area tag. -/
theorem C21_area_tag_checked_first (U : UnicodeTables) (cfg : Config) (m : EntityMatch)
    (area : String) (hA : m.Area ≠ "") :
    (fuzzyMatch U (toLower U m.Area) (resolveAlias U cfg area) > 0.8 →
      scoreArea U cfg m area = fuzzyMatch U (toLower U m.Area) (resolveAlias U cfg area) ∧
      ∀ friendlyName : String,
        scoreArea U cfg { m with FriendlyName := friendlyName } area =
          fuzzyMatch U (toLower U m.Area) (resolveAlias U cfg area)) ∧
    (¬ (fuzzyMatch U (toLower U m.Area) (resolveAlias U cfg area) > 0.8) →
      scoreArea U cfg m area = scoreArea U cfg { m with Area := "" } area) := by
  constructor
  · intro hgt
    exact ⟨scoreArea_of_tag U cfg m area hA hgt,
      fun friendlyName => scoreArea_of_tag U cfg { m with FriendlyName := friendlyName } area
        hA hgt⟩
  · intro hle
    rw [scoreArea_skip_tag U cfg m area (Or.inr (not_lt.mp hle)),
      scoreArea_skip_tag U cfg { m with Area := "" } area (Or.inl rfl)]
    exact (scoreAreaFriendly_congr U m { m with Area := "" } _ rfl).symm

theorem livingRoomMatch_tag_similarity :
    fuzzyMatch asciiTables (toLower asciiTables livingRoomMatch.Area)
      (resolveAlias asciiTables DefaultConfig "living") > 0.8 := by
  have h : fuzzyMatch asciiTables (toLower asciiTables livingRoomMatch.Area)
      (resolveAlias asciiTables DefaultConfig "living") = 0.9 := rfl
  rw [h]
  norm_num

/-- C21 at the match with area tag "living_room" and the phrase "living". -/
theorem C21_area_tag_checked_first_witness :
    livingRoomMatch.Area ≠ "" ∧
    fuzzyMatch asciiTables (toLower asciiTables livingRoomMatch.Area)
      (resolveAlias asciiTables DefaultConfig "living") > 0.8 ∧
    scoreArea asciiTables DefaultConfig livingRoomMatch "living" =
      fuzzyMatch asciiTables (toLower asciiTables livingRoomMatch.Area)
        (resolveAlias asciiTables DefaultConfig "living") :=
  ⟨by decide, livingRoomMatch_tag_similarity,
    ((C21_area_tag_checked_first asciiTables DefaultConfig livingRoomMatch "living"
      (by decide)).1 livingRoomMatch_tag_similarity).1⟩

/-- C22: `scoreName(f, n)` is 1.0 when the lower-cased strings are equal,
otherwise 0.9 when the lower-cased `f` contains the lower-cased `n`, otherwise
exactly `fuzzyMatch(lowercase(f), lowercase(n))`, with no floor at 0.6:
`scoreName("completely different", "nothing") = 0.2`. -/
theorem C22_scoreName_cases (U : UnicodeTables) (f n : String) :
    (toLower U f = toLower U n → scoreName U f n = 1.0) ∧
    (toLower U f ≠ toLower U n → contains (toLower U f) (toLower U n) = true →
      scoreName U f n = 0.9) ∧
    (toLower U f ≠ toLower U n → contains (toLower U f) (toLower U n) = false →
      scoreName U f n = fuzzyMatch U (toLower U f) (toLower U n)) ∧
    scoreName U "completely different" "nothing" = 0.2 ∧
    ∃ f2 n2 : String, 0 < scoreName U f2 n2 ∧ scoreName U f2 n2 < 0.6 := by
  have hex : scoreName U "completely different" "nothing" = 0.2 := by
    have hl1 : toLower U "completely different" = "completely different" := rfl
    have hl2 : toLower U "nothing" = "nothing" := rfl
    unfold scoreName
    simp only []
    rw [hl1, hl2, if_neg (by decide), if_neg (by decide)]
    exact completelyDifferent_fuzzyMatch U
  refine ⟨?_, ?_, ?_, hex, "completely different", "nothing", ?_⟩
  · intro h
    unfold scoreName
    simp [h]
  · intro hne hc
    unfold scoreName
    simp [hne, hc]
  · intro hne hc
    unfold scoreName
    simp [hne, hc]
  · rw [hex]
    norm_num

/-- C25: for all strings `a`, `b`, `levenshteinDistance(a, b) <= len(a) +
len(b)` (it is even at most the larger of the two lengths). -/
theorem C25_levenshteinDistance_le_sum (a b : String) :
    levenshteinDistance a b ≤ len a + len b := by
  have h := levenshteinDistance_le_max a b
  have h2 : Nat.max (len a) (len b) ≤ len a + len b := by
    simp only [Nat.max_def]
    split <;> omega
  exact Nat.le_trans h h2

/-- C26 fails on the code: `DefaultConfig` sets `Preferences.FuzzyThreshold`
to 0.5, not to the 0.6 that `TestDefaultConfig` asserts; the other four values
are as stated (timeout 10 s, `SkipTLSVerify` false, verbosity 1, `UseKeyring`
true). -/
theorem C26_DefaultConfig_threshold_is_half :
    DefaultConfig.Preferences.FuzzyThreshold = 0.5 ∧
    DefaultConfig.Preferences.FuzzyThreshold ≠ 0.6 ∧
    DefaultConfig.HomeAssistant.Timeout = 10 * second ∧
    DefaultConfig.HomeAssistant.SkipTLSVerify = false ∧
    DefaultConfig.Output.Verbosity = 1 ∧
    DefaultConfig.Security.UseKeyring = true := by
  refine ⟨rfl, ?_, rfl, rfl, rfl, rfl⟩
  rw [DefaultConfig_threshold]
  norm_num

/-! ## `ParseAction`, `ParseEntityType` -/

/-- C27: `ParseAction(s)` is "turn_on" when the lower-cased `s` is one of
on, turn_on, enable, open; "turn_off" when it is one of off, turn_off,
disable, close; "toggle" when it is toggle or switch; otherwise `s` itself,
unchanged.  Consequently `ParseAction(ParseAction(s)) = ParseAction(s)`. -/
theorem C27_ParseAction_cases_idempotent (U : UnicodeTables) (s : String) :
    (toLower U s ∈ ["on", "turn_on", "enable", "open"] → ParseAction U s = "turn_on") ∧
    (toLower U s ∈ ["off", "turn_off", "disable", "close"] → ParseAction U s = "turn_off") ∧
    (toLower U s ∈ ["toggle", "switch"] → ParseAction U s = "toggle") ∧
    (toLower U s ∉ ["on", "turn_on", "enable", "open"] →
      toLower U s ∉ ["off", "turn_off", "disable", "close"] →
      toLower U s ∉ ["toggle", "switch"] → ParseAction U s = s) ∧
    ParseAction U (ParseAction U s) = ParseAction U s := by
  have hon : ParseAction U "turn_on" = "turn_on" := rfl
  have hoff : ParseAction U "turn_off" = "turn_off" := rfl
  have htog : ParseAction U "toggle" = "toggle" := rfl
  refine ⟨?_, ?_, ?_, ?_, ?_⟩
  · intro h
    unfold ParseAction
    simp only []
    rw [if_pos h]
  · intro h
    have hn : toLower U s ∉ ["on", "turn_on", "enable", "open"] := by
      simp only [List.mem_cons, List.mem_singleton, List.not_mem_nil, or_false] at h
      rcases h with h | h | h | h <;> rw [h] <;> decide
    unfold ParseAction
    simp only []
    rw [if_neg hn, if_pos h]
  · intro h
    have hn : toLower U s ∉ ["on", "turn_on", "enable", "open"] := by
      simp only [List.mem_cons, List.mem_singleton, List.not_mem_nil, or_false] at h
      rcases h with h | h <;> rw [h] <;> decide
    have hn2 : toLower U s ∉ ["off", "turn_off", "disable", "close"] := by
      simp only [List.mem_cons, List.mem_singleton, List.not_mem_nil, or_false] at h
      rcases h with h | h <;> rw [h] <;> decide
    unfold ParseAction
    simp only []
    rw [if_neg hn, if_neg hn2, if_pos h]
  · intro h1 h2 h3
    unfold ParseAction
    simp only []
    rw [if_neg h1, if_neg h2, if_neg h3]
  · by_cases h1 : toLower U s ∈ ["on", "turn_on", "enable", "open"]
    · have e : ParseAction U s = "turn_on" := by
        unfold ParseAction; simp only []; rw [if_pos h1]
      rw [e, hon]
    · by_cases h2 : toLower U s ∈ ["off", "turn_off", "disable", "close"]
      · have e : ParseAction U s = "turn_off" := by
          unfold ParseAction; simp only []; rw [if_neg h1, if_pos h2]
        rw [e, hoff]
      · by_cases h3 : toLower U s ∈ ["toggle", "switch"]
        · have e : ParseAction U s = "toggle" := by
            unfold ParseAction; simp only []; rw [if_neg h1, if_neg h2, if_pos h3]
          rw [e, htog]
        · have e : ParseAction U s = s := by
            unfold ParseAction; simp only []; rw [if_neg h1, if_neg h2, if_neg h3]
          rw [e, e]

theorem scoreDomain_agree_aux (U : UnicodeTables) (order : List (String × List String))
    (hO : IsMapOrder order) (s l c : String) (hl : toLower U s = l)
    (huniq : ∀ e ∈ domainMappings, entryHits l e = true → e.1 = c)
    (hex : ∃ e ∈ domainMappings, entryHits l e = true) :
    scoreDomain U order c s = 1.0 ∧ ∀ d, d ≠ c → scoreDomain U order d s = 0.0 := by
  have h := fun d => scoreDomain_example U order hO d s l c hl huniq hex
  constructor
  · rw [h c, if_pos rfl]; norm_num
  · intro d hd
    rw [h d, if_neg hd]; norm_num

/-- C30: `ParseEntityType` and `scoreDomain` agree, whatever the order in
which `scoreDomain` visits its categories: if `ParseEntityType(s) = t` and `t`
is not `EntityTypeUnknown`, then `scoreDomain(t.Domain(), s) = 1.0` and
`scoreDomain(d, s) = 0.0` for every other domain `d`. -/
theorem C30_ParseEntityType_agrees_with_scoreDomain (U : UnicodeTables)
    (order : List (String × List String)) (hO : IsMapOrder order) (s : String)
    (t : EntityType) (hP : ParseEntityType U s = t) (hU : t ≠ EntityType.EntityTypeUnknown) :
    scoreDomain U order t.Domain s = 1.0 ∧
    ∀ d, d ≠ t.Domain → scoreDomain U order d s = 0.0 := by
  unfold ParseEntityType at hP
  simp only [] at hP
  split_ifs at hP with h1 h2 h3 h4 h5 h6
  · subst hP
    simp only [List.mem_cons, List.mem_singleton, List.not_mem_nil, or_false] at h1
    rcases h1 with h | h | h | h | h | h <;>
      exact scoreDomain_agree_aux U order hO s _ "light" h (by decide) (by decide)
  · subst hP
    simp only [List.mem_cons, List.mem_singleton, List.not_mem_nil, or_false] at h2
    rcases h2 with h | h | h | h | h | h <;>
      exact scoreDomain_agree_aux U order hO s _ "switch" h (by decide) (by decide)
  · subst hP
    simp only [List.mem_cons, List.mem_singleton, List.not_mem_nil, or_false] at h3
    rcases h3 with h | h <;>
      exact scoreDomain_agree_aux U order hO s _ "fan" h (by decide) (by decide)
  · subst hP
    simp only [List.mem_cons, List.mem_singleton, List.not_mem_nil, or_false] at h4
    rcases h4 with h | h | h | h | h <;>
      exact scoreDomain_agree_aux U order hO s _ "climate" h (by decide) (by decide)
  · subst hP
    simp only [List.mem_cons, List.mem_singleton, List.not_mem_nil, or_false] at h5
    rcases h5 with h | h | h | h | h | h | h | h | h | h | h <;>
      exact scoreDomain_agree_aux U order hO s _ "cover" h (by decide) (by decide)
  · subst hP
    simp only [List.mem_cons, List.mem_singleton, List.not_mem_nil, or_false] at h6
    rcases h6 with h | h <;>
      exact scoreDomain_agree_aux U order hO s _ "sensor" h (by decide) (by decide)
  · exact absurd hP.symm hU

/-- C30 at the phrase "Lamps" with the visiting order that starts at the
sensor entry. -/
theorem C30_ParseEntityType_agrees_with_scoreDomain_witness :
    IsMapOrder sensorFirstOrder ∧
    ParseEntityType asciiTables "Lamps" = EntityType.EntityTypeLight ∧
    EntityType.EntityTypeLight ≠ EntityType.EntityTypeUnknown ∧
    scoreDomain asciiTables sensorFirstOrder EntityType.EntityTypeLight.Domain "Lamps" = 1.0 ∧
    ∀ d, d ≠ EntityType.EntityTypeLight.Domain →
      scoreDomain asciiTables sensorFirstOrder d "Lamps" = 0.0 :=
  ⟨sensorFirstOrder_isMapOrder, by decide, by decide,
    C30_ParseEntityType_agrees_with_scoreDomain asciiTables sensorFirstOrder
      sensorFirstOrder_isMapOrder "Lamps" EntityType.EntityTypeLight (by decide) (by decide)⟩

/-! ## `normalizeString` -/

theorem trimSpace_data (s : String) :
    (trimSpace s).data = (s.data.dropWhile isSpace).rdropWhile isSpace := rfl

theorem normalizeString_data (U : UnicodeTables) (s : String) :
    (normalizeString U s).data =
      ((normalizeRunes U s.data).dropWhile isSpace).rdropWhile isSpace := rfl

theorem trim_head_not_space (l : List Char) (c : Char)
    (h : ((l.dropWhile isSpace).rdropWhile isSpace).head? = some c) : isSpace c = false := by
  have hpre : (l.dropWhile isSpace).rdropWhile isSpace <+: l.dropWhile isSpace :=
    List.rdropWhile_prefix isSpace (l.dropWhile isSpace)
  obtain ⟨t, ht⟩ := hpre
  cases hr : (l.dropWhile isSpace).rdropWhile isSpace with
  | nil => rw [hr] at h; simp at h
  | cons x xs =>
    rw [hr] at h ht
    simp only [List.head?_cons, Option.some.injEq] at h
    subst h
    have hne : l.dropWhile isSpace ≠ [] := by rw [← ht]; simp
    have hnot := List.head_dropWhile_not isSpace l hne
    have hhead : (l.dropWhile isSpace).head hne = x := by
      simp only [← ht, List.cons_append, List.head_cons]
    rw [hhead] at hnot
    simpa using hnot

theorem trim_last_not_space (l : List Char) (c : Char)
    (h : ((l.dropWhile isSpace).rdropWhile isSpace).getLast? = some c) : isSpace c = false := by
  have hne : (l.dropWhile isSpace).rdropWhile isSpace ≠ [] := by
    intro e; rw [e] at h; simp at h
  have hnot := List.rdropWhile_last_not isSpace (l.dropWhile isSpace) hne
  rw [List.getLast?_eq_getLast _ hne] at h
  simp only [Option.some.injEq] at h
  rw [h] at hnot
  simpa using hnot

theorem trim_idempotent (l : List Char) :
    ((((l.dropWhile isSpace).rdropWhile isSpace).dropWhile isSpace).rdropWhile isSpace) =
      (l.dropWhile isSpace).rdropWhile isSpace := by
  have h1 : ((l.dropWhile isSpace).rdropWhile isSpace).dropWhile isSpace =
      (l.dropWhile isSpace).rdropWhile isSpace := by
    cases hr : (l.dropWhile isSpace).rdropWhile isSpace with
    | nil => rfl
    | cons x xs =>
      have hx : isSpace x = false := trim_head_not_space l x (by rw [hr]; rfl)
      simp [List.dropWhile, hx]
  rw [h1, List.rdropWhile_idempotent]

theorem trim_subset (l : List Char) (c : Char)
    (h : c ∈ (l.dropWhile isSpace).rdropWhile isSpace) : c ∈ l :=
  (List.dropWhile_suffix isSpace).subset
    ((List.rdropWhile_prefix isSpace (l.dropWhile isSpace)).subset h)

theorem normalizeRunes_mem (U : UnicodeTables) (l : List Char) (c : Char)
    (h : c ∈ normalizeRunes U l) :
    c = ' ' ∨ ∃ r ∈ l, (isLetter U r || isDigit U r) = true ∧ c = toLowerRune U r := by
  induction l with
  | nil => simp [normalizeRunes] at h
  | cons x xs ih =>
    simp only [normalizeRunes] at h
    split at h
    · next hx =>
      rcases List.mem_cons.mp h with e | hin
      · exact Or.inr ⟨x, List.mem_cons_self _ _, hx, e⟩
      · rcases ih hin with e | ⟨r, hr, hrl, e⟩
        · exact Or.inl e
        · exact Or.inr ⟨r, List.mem_cons_of_mem _ hr, hrl, e⟩
    · split at h
      · rcases List.mem_cons.mp h with e | hin
        · exact Or.inl e
        · rcases ih hin with e | ⟨r, hr, hrl, e⟩
          · exact Or.inl e
          · exact Or.inr ⟨r, List.mem_cons_of_mem _ hr, hrl, e⟩
      · rcases ih h with e | ⟨r, hr, hrl, e⟩
        · exact Or.inl e
        · exact Or.inr ⟨r, List.mem_cons_of_mem _ hr, hrl, e⟩

theorem normalizeRunes_eq_filterMap (U : UnicodeTables) (l : List Char) :
    normalizeRunes U l = l.filterMap (normalizeRune U) := by
  induction l with
  | nil => rfl
  | cons x xs ih =>
    by_cases h1 : (isLetter U x || isDigit U x) = true
    · have hx : normalizeRune U x = some (toLowerRune U x) := by
        unfold normalizeRune
        rw [if_pos h1]
      rw [List.filterMap_cons_some hx, ← ih]
      simp only [normalizeRunes, h1, if_true]
    · by_cases h2 : isSpace x = true
      · have hx : normalizeRune U x = some ' ' := by
          unfold normalizeRune
          rw [if_neg h1, if_pos h2]
        rw [List.filterMap_cons_some hx, ← ih]
        simp only [normalizeRunes, h1, h2, if_true, if_false, Bool.false_eq_true]
      · have hx : normalizeRune U x = none := by
          unfold normalizeRune
          rw [if_neg h1, if_neg h2]
        rw [List.filterMap_cons_none hx, ← ih]
        simp only [normalizeRunes, h1, h2, if_false, Bool.false_eq_true]

theorem trim_keeps_inner (a b : Char) (mid : List Char) (ha : isSpace a = false)
    (hb : isSpace b = false) :
    ((a :: (mid ++ [b])).dropWhile isSpace).rdropWhile isSpace = a :: (mid ++ [b]) := by
  have h1 : (a :: (mid ++ [b])).dropWhile isSpace = a :: (mid ++ [b]) := by
    simp [List.dropWhile, ha]
  rw [h1, ← List.cons_append]
  exact List.rdropWhile_concat_neg isSpace (a :: mid) b (by simp [hb])

theorem filterMap_whitespace (U : UnicodeTables) (ws : List Char)
    (h : ∀ r ∈ ws, (isLetter U r || isDigit U r) = false ∧ isSpace r = true) :
    ws.filterMap (normalizeRune U) = List.replicate ws.length ' ' := by
  induction ws with
  | nil => rfl
  | cons x xs ih =>
    have hx := h x (List.mem_cons_self _ _)
    have hn : normalizeRune U x = some ' ' := by
      unfold normalizeRune
      rw [hx.1, hx.2]
      rfl
    rw [List.filterMap_cons_some hn, ih (fun r hr => h r (List.mem_cons_of_mem _ hr))]
    rfl

theorem filterMap_dropped (U : UnicodeTables) (ps : List Char)
    (h : ∀ r ∈ ps, (isLetter U r || isDigit U r) = false ∧ isSpace r = false) :
    ps.filterMap (normalizeRune U) = [] := by
  induction ps with
  | nil => rfl
  | cons x xs ih =>
    have hx := h x (List.mem_cons_self _ _)
    have hn : normalizeRune U x = none := by
      unfold normalizeRune
      rw [hx.1, hx.2]
      rfl
    rw [List.filterMap_cons_none hn, ih (fun r hr => h r (List.mem_cons_of_mem _ hr))]

/-- C24, as the code has it: `normalizeString(s)` is the sequence of what the
loop writes rune by rune -- the lower-case form of a letter or digit, one space
U+0020 for any other whitespace rune, nothing for any other rune -- with the
leading and trailing whitespace removed.  So every rune of the output is a
space or the lower-case form of a letter or digit of `s`, and the output has no
leading and no trailing whitespace.  Nothing is collapsed: between a first and
a last letter or digit (whose lower-case forms are not whitespace) the output
is the rune-by-rune image of what stands between them in `s`; in particular,
`n` whitespace runes, with or without dropped runes among them, give `n`
adjacent spaces. -/
theorem C24_normalizeString_output (U : UnicodeTables) (s : String) :
    (normalizeString U s).data =
      ((s.data.filterMap (normalizeRune U)).dropWhile isSpace).rdropWhile isSpace ∧
    (∀ c ∈ (normalizeString U s).data,
      c = ' ' ∨ ∃ r ∈ s.data, (isLetter U r || isDigit U r) = true ∧ c = toLowerRune U r) ∧
    (∀ c, (normalizeString U s).data.head? = some c → isSpace c = false) ∧
    (∀ c, (normalizeString U s).data.getLast? = some c → isSpace c = false) ∧
    trimSpace (normalizeString U s) = normalizeString U s ∧
    (∀ (x y : Char) (mid : List Char),
      (isLetter U x || isDigit U x) = true → (isLetter U y || isDigit U y) = true →
      isSpace (toLowerRune U x) = false → isSpace (toLowerRune U y) = false →
      s.data = x :: (mid ++ [y]) →
      (normalizeString U s).data =
        toLowerRune U x :: (mid.filterMap (normalizeRune U) ++ [toLowerRune U y])) ∧
    (∀ (x y : Char) (ws1 ps ws2 : List Char),
      (isLetter U x || isDigit U x) = true → (isLetter U y || isDigit U y) = true →
      isSpace (toLowerRune U x) = false → isSpace (toLowerRune U y) = false →
      (∀ r ∈ ws1 ++ ws2, (isLetter U r || isDigit U r) = false ∧ isSpace r = true) →
      (∀ r ∈ ps, (isLetter U r || isDigit U r) = false ∧ isSpace r = false) →
      s.data = x :: (ws1 ++ ps ++ ws2 ++ [y]) →
      (normalizeString U s).data =
        toLowerRune U x ::
          (List.replicate (ws1.length + ws2.length) ' ' ++ [toLowerRune U y])) := by
  have hinner : ∀ (x y : Char) (mid : List Char),
      (isLetter U x || isDigit U x) = true → (isLetter U y || isDigit U y) = true →
      isSpace (toLowerRune U x) = false → isSpace (toLowerRune U y) = false →
      s.data = x :: (mid ++ [y]) →
      (normalizeString U s).data =
        toLowerRune U x :: (mid.filterMap (normalizeRune U) ++ [toLowerRune U y]) := by
    intro x y mid hx hy hsx hsy hs
    have hnx : normalizeRune U x = some (toLowerRune U x) := by
      unfold normalizeRune
      rw [if_pos hx]
    have hny : normalizeRune U y = some (toLowerRune U y) := by
      unfold normalizeRune
      rw [if_pos hy]
    rw [normalizeString_data, normalizeRunes_eq_filterMap, hs, List.filterMap_cons_some hnx,
      List.filterMap_append, List.filterMap_cons_some hny, List.filterMap_nil]
    exact trim_keeps_inner _ _ _ hsx hsy
  refine ⟨?_, ?_, ?_, ?_, ?_, hinner, ?_⟩
  · rw [normalizeString_data, normalizeRunes_eq_filterMap]
  · intro c hc
    rw [normalizeString_data] at hc
    exact normalizeRunes_mem U s.data c (trim_subset _ c hc)
  · intro c hc
    rw [normalizeString_data] at hc
    exact trim_head_not_space _ c hc
  · intro c hc
    rw [normalizeString_data] at hc
    exact trim_last_not_space _ c hc
  · have h : (trimSpace (normalizeString U s)).data = (normalizeString U s).data := by
      rw [trimSpace_data, normalizeString_data]
      exact trim_idempotent _
    exact String.ext h
  · intro x y ws1 ps ws2 hx hy hsx hsy hws hps hs
    have h1 : ws1.filterMap (normalizeRune U) = List.replicate ws1.length ' ' :=
      filterMap_whitespace U ws1 (fun r hr => hws r (List.mem_append_left _ hr))
    have h2 : ws2.filterMap (normalizeRune U) = List.replicate ws2.length ' ' :=
      filterMap_whitespace U ws2 (fun r hr => hws r (List.mem_append_right _ hr))
    have h3 : ps.filterMap (normalizeRune U) = [] := filterMap_dropped U ps hps
    rw [hinner x y (ws1 ++ ps ++ ws2) hx hy hsx hsy (by rw [hs]),
      List.filterMap_append, List.filterMap_append, h1, h2, h3, List.append_nil,
      List.replicate_add]

/-- C24 at "A - b": the two spaces around the dropped hyphen are both kept. -/
theorem C24_normalizeString_output_witness :
    (normalizeString asciiTables "A - b").data = ['a', ' ', ' ', 'b'] ∧
    (normalizeString asciiTables "A - b").data =
      toLowerRune asciiTables 'A' ::
        (List.replicate (1 + 1) ' ' ++ [toLowerRune asciiTables 'b']) :=
  ⟨by decide,
    (C24_normalizeString_output asciiTables "A - b").2.2.2.2.2.2 'A' 'b' [' '] ['-'] [' ']
      (by decide) (by decide) (by decide) (by decide) (by decide) (by decide) rfl⟩

/-- C24 as stated fails: `normalizeString("a  b")` and
`normalizeString("a - b")` are both "a  b", with two adjacent spaces. -/
theorem C24_counterexample :
    normalizeString asciiTables "a  b" = "a  b" ∧
    normalizeString asciiTables "a - b" = "a  b" ∧
    contains (normalizeString asciiTables "a  b") "  " = true ∧
    contains (normalizeString asciiTables "a - b") "  " = true := by
  decide

theorem normalizeRunes_fixed (U : UnicodeTables) (hK : LowerKeepsLetterDigit U)
    (hI : LowerIdempotent U) (t : List Char)
    (h : ∀ c ∈ t, c = ' ' ∨ ∃ r, (isLetter U r || isDigit U r) = true ∧ c = toLowerRune U r) :
    normalizeRunes U t = t := by
  induction t with
  | nil => rfl
  | cons x xs ih =>
    have ihx := ih (fun c hc => h c (List.mem_cons_of_mem _ hc))
    rcases h x (List.mem_cons_self _ _) with e | ⟨r, hr, e⟩
    · subst e
      have h1 : (isLetter U ' ' || isDigit U ' ') = false := rfl
      have h2 : isSpace ' ' = true := rfl
      simp only [normalizeRunes, h1, h2, Bool.false_eq_true, if_false, if_true, ihx]
    · have h1 : (isLetter U x || isDigit U x) = true := by rw [e]; exact hK r hr
      have h2 : toLowerRune U x = x := by rw [e]; exact hI r
      simp only [normalizeRunes, h1, if_true, h2, ihx]

theorem asciiTables_lowerKeepsLetterDigit : LowerKeepsLetterDigit asciiTables := by
  intro c hc
  unfold toLowerRune
  simp only []
  by_cases h128 : c.toNat < 128
  · rw [if_pos h128]
    by_cases hup : (decide (65 ≤ c.toNat) && decide (c.toNat ≤ 90)) = true
    · rw [if_pos hup]
      have hb : 65 ≤ c.toNat ∧ c.toNat ≤ 90 := by simpa using hup
      have hn : (Char.ofNat (c.toNat + 32)).toNat = c.toNat + 32 :=
        toNat_ofNat_of_lt _ (by omega)
      unfold isLetter
      simp only [hn]
      rw [if_pos (by omega)]
      have : (decide (97 ≤ c.toNat + 32) && decide (c.toNat + 32 ≤ 122)) = true := by
        simp only [Bool.and_eq_true, decide_eq_true_eq]
        omega
      rw [this, Bool.or_true, Bool.true_or]
    · rw [if_neg hup]
      exact hc
  · rw [if_neg h128]
    exact hc

/-- C23: `normalizeString` is idempotent, given that lower-casing maps
letters and digits to letters and digits and is itself idempotent (both hold
for Go's `unicode` tables and are proved for ASCII). -/
theorem C23_normalizeString_idempotent (U : UnicodeTables) (hK : LowerKeepsLetterDigit U)
    (hI : LowerIdempotent U) (s : String) :
    normalizeString U (normalizeString U s) = normalizeString U s := by
  apply String.ext
  have hfix : normalizeRunes U (normalizeString U s).data = (normalizeString U s).data := by
    apply normalizeRunes_fixed U hK hI
    intro c hc
    rw [normalizeString_data] at hc
    rcases normalizeRunes_mem U s.data c (trim_subset _ c hc) with e | ⟨r, _, hr, e⟩
    · exact Or.inl e
    · exact Or.inr ⟨r, hr, e⟩
  rw [normalizeString_data U (normalizeString U s), hfix, normalizeString_data]
  exact trim_idempotent _

/-- C23 at the ASCII tables and the string "  Hello,  World! ". -/
theorem C23_normalizeString_idempotent_witness :
    LowerKeepsLetterDigit asciiTables ∧ LowerIdempotent asciiTables ∧
    normalizeString asciiTables (normalizeString asciiTables "  Hello,  World! ") =
      normalizeString asciiTables "  Hello,  World! " :=
  ⟨asciiTables_lowerKeepsLetterDigit, asciiTables_lowerIdempotent,
    C23_normalizeString_idempotent asciiTables asciiTables_lowerKeepsLetterDigit
      asciiTables_lowerIdempotent "  Hello,  World! "⟩

/-! ## `levenshteinDistance` against the recursive edit distance -/

theorem min_eq_least (a b c : Nat) : min a b c = Nat.min a (Nat.min b c) := by
  unfold min
  simp only [Nat.min_def]
  split <;> split <;> split <;> (try split) <;> omega

theorem editSnoc_nil_right (ra : List Nat) : editSnoc ra [] = ra.length := by
  cases ra with
  | nil => rfl
  | cons x ra => rfl

theorem editSnoc_cons_cons (x y : Nat) (ra rb : List Nat) :
    editSnoc (x :: ra) (y :: rb) =
      Nat.min (editSnoc ra (y :: rb) + 1)
        (Nat.min (editSnoc (x :: ra) rb + 1) (editSnoc ra rb + if x = y then 0 else 1)) := rfl

theorem specRow_eq_cons (ra rb ys : List Nat) :
    ∃ rest, specRow ra rb ys = editSnoc ra rb :: rest := by
  cases ys with
  | nil => exact ⟨[], rfl⟩
  | cons y ys => exact ⟨specRow ra (y :: rb) ys, rfl⟩

theorem levRow_spec (x : Nat) (ra : List Nat) (ys : List Nat) :
    ∀ rb : List Nat,
      specRow (x :: ra) rb ys =
        editSnoc (x :: ra) rb :: levRow x ys (specRow ra rb ys) (editSnoc (x :: ra) rb) := by
  induction ys with
  | nil => intro rb; simp [specRow, levRow]
  | cons y ys ih =>
    intro rb
    obtain ⟨rest, hrest⟩ := specRow_eq_cons ra (y :: rb) ys
    have hcell : min (editSnoc ra (y :: rb) + 1) (editSnoc (x :: ra) rb + 1)
        (editSnoc ra rb + if x ≠ y then 1 else 0) = editSnoc (x :: ra) (y :: rb) := by
      rw [min_eq_least, editSnoc_cons_cons]
      by_cases hxy : x = y <;> simp [hxy]
    have ih2 := ih (y :: rb)
    rw [hrest] at ih2
    have hl : specRow ra rb (y :: ys) =
        editSnoc ra rb :: editSnoc ra (y :: rb) :: rest := by
      simp only [specRow, hrest]
    have hL : specRow (x :: ra) rb (y :: ys) =
        editSnoc (x :: ra) rb :: specRow (x :: ra) (y :: rb) ys := rfl
    rw [hL, hl]
    simp only [levRow, hcell]
    rw [ih2]

theorem levRows_spec (s2 : List Nat) (xs : List Nat) :
    ∀ ra : List Nat,
      levRows xs s2 (specRow ra [] s2) (ra.length + 1) = specRow (xs.reverse ++ ra) [] s2 := by
  induction xs with
  | nil => intro ra; rfl
  | cons x xs ih =>
    intro ra
    simp only [levRows]
    have hrow : (ra.length + 1) :: levRow x s2 (specRow ra [] s2) (ra.length + 1) =
        specRow (x :: ra) [] s2 := by
      rw [levRow_spec x ra s2 [], editSnoc_nil_right]
      rfl
    rw [hrow]
    have := ih (x :: ra)
    simp only [List.length_cons] at this
    rw [this]
    simp

theorem specRow_nil (ys : List Nat) :
    ∀ rb : List Nat, specRow [] rb ys = List.range' rb.length (ys.length + 1) := by
  induction ys with
  | nil => intro rb; simp [specRow, editSnoc, List.range']
  | cons y ys ih =>
    intro rb
    simp only [specRow, editSnoc, List.length_cons]
    rw [ih (y :: rb)]
    simp [List.range']

theorem specRow_getLastD (ra : List Nat) (ys : List Nat) :
    ∀ rb : List Nat, (specRow ra rb ys).getLastD 0 = editSnoc ra (ys.reverse ++ rb) := by
  induction ys with
  | nil => intro rb; simp [specRow]
  | cons y ys ih =>
    intro rb
    have := ih (y :: rb)
    obtain ⟨rest, hrest⟩ := specRow_eq_cons ra (y :: rb) ys
    simp only [specRow]
    rw [hrest] at this ⊢
    simp only [List.reverse_cons, List.append_assoc, List.singleton_append]
    rw [← this]
    simp [List.getLastD]

theorem levRows_eq_classic (a b : List Nat) :
    (levRows a b (List.range (b.length + 1)) 1).getLastD 0 = classicDistance a b := by
  have h0 : List.range (b.length + 1) = specRow [] [] b := by
    rw [specRow_nil, List.range_eq_range']
    rfl
  have h := levRows_spec b a []
  simp only [List.length_nil, Nat.zero_add, List.append_nil] at h
  rw [h0, h, specRow_getLastD]
  simp [classicDistance]

theorem classicDistance_nil_left (b : List Nat) : classicDistance [] b = b.length := by
  simp [classicDistance, editSnoc]

theorem classicDistance_nil_right (a : List Nat) : classicDistance a [] = a.length := by
  simp [classicDistance, editSnoc_nil_right]

theorem classicDistance_snoc (a b : List Nat) (x y : Nat) :
    classicDistance (a ++ [x]) (b ++ [y]) =
      Nat.min (classicDistance a (b ++ [y]) + 1)
        (Nat.min (classicDistance (a ++ [x]) b + 1)
          (classicDistance a b + if x = y then 0 else 1)) := by
  simp only [classicDistance, List.reverse_append, List.reverse_cons, List.reverse_nil,
    List.nil_append, List.singleton_append]
  exact editSnoc_cons_cons x y a.reverse b.reverse

theorem levenshteinDistance_eq_classic (s1 s2 : String) :
    levenshteinDistance s1 s2 = classicDistance (utf8Bytes s1) (utf8Bytes s2) := by
  unfold levenshteinDistance
  split
  · next h =>
    have h1 : utf8Bytes s1 = [] := List.length_eq_zero.mp h
    rw [h1, classicDistance_nil_left]
    rfl
  · split
    · next h =>
      have h2 : utf8Bytes s2 = [] := List.length_eq_zero.mp h
      rw [h2, classicDistance_nil_right]
      rfl
    · exact levRows_eq_classic (utf8Bytes s1) (utf8Bytes s2)

/-- C28: the matrix computation of `levenshteinDistance` returns the classic
unit-cost edit distance defined by recursion on the last bytes
(`d("", b) = len b`, `d(a, "") = len a`, `d(a·x, b·y) = min(d(a, b·y) + 1,
d(a·x, b) + 1, d(a, b) + (0 if x = y else 1))`), for all byte sequences and in
particular for the bytes of any two strings; and the three-argument helper
`min` returns the least of its arguments for every triple. -/
theorem C28_levenshteinDistance_is_edit_distance :
    (∀ a b : List Nat,
      (levRows a b (List.range (b.length + 1)) 1).getLastD 0 = classicDistance a b) ∧
    (∀ s1 s2 : String,
      levenshteinDistance s1 s2 = classicDistance (utf8Bytes s1) (utf8Bytes s2)) ∧
    (∀ b : List Nat, classicDistance [] b = b.length) ∧
    (∀ a : List Nat, classicDistance a [] = a.length) ∧
    (∀ (a b : List Nat) (x y : Nat),
      classicDistance (a ++ [x]) (b ++ [y]) =
        Nat.min (classicDistance a (b ++ [y]) + 1)
          (Nat.min (classicDistance (a ++ [x]) b + 1)
            (classicDistance a b + if x = y then 0 else 1))) ∧
    (∀ a b c : Nat, min a b c = Nat.min a (Nat.min b c)) ∧
    (∀ a b c : Nat, min a b c ≤ a ∧ min a b c ≤ b ∧ min a b c ≤ c ∧
      (min a b c = a ∨ min a b c = b ∨ min a b c = c)) ∧
    levenshteinDistance "kitten" "sitting" = 3 := by
  refine ⟨levRows_eq_classic, levenshteinDistance_eq_classic, classicDistance_nil_left,
    classicDistance_nil_right, classicDistance_snoc, min_eq_least, ?_, by decide⟩
  intro a b c
  rw [min_eq_least]
  simp only [Nat.min_def]
  split <;> split <;> omega

/-! ## Substrings and words -/

theorem startsWith_iff (l p : List Char) : startsWith l p = true ↔ ∃ t, l = p ++ t := by
  induction p generalizing l with
  | nil => simp [startsWith]
  | cons d ds ih =>
    cases l with
    | nil => simp [startsWith]
    | cons c cs =>
      simp only [startsWith, Bool.and_eq_true, beq_iff_eq, ih, List.cons_append,
        List.cons.injEq]
      constructor
      · rintro ⟨rfl, t, rfl⟩
        exact ⟨t, rfl, rfl⟩
      · rintro ⟨t, rfl, rfl⟩
        exact ⟨rfl, t, rfl⟩

theorem containsChars_iff (l sub : List Char) :
    containsChars l sub = true ↔ ∃ pre post, l = pre ++ sub ++ post := by
  induction l with
  | nil =>
    simp only [containsChars, List.isEmpty_iff]
    constructor
    · rintro rfl
      exact ⟨[], [], rfl⟩
    · rintro ⟨pre, post, h⟩
      have := congrArg List.length h
      simp only [List.length_nil, List.length_append] at this
      exact List.length_eq_zero.mp (by omega)
  | cons c cs ih =>
    simp only [containsChars, Bool.or_eq_true, startsWith_iff, ih]
    constructor
    · rintro (⟨t, ht⟩ | ⟨pre, post, h⟩)
      · exact ⟨[], t, by simpa using ht⟩
      · exact ⟨c :: pre, post, by simp [h]⟩
    · rintro ⟨pre, post, h⟩
      cases pre with
      | nil => left; exact ⟨post, by simpa using h⟩
      | cons p ps =>
        right
        simp only [List.cons_append, List.cons.injEq] at h
        exact ⟨ps, post, h.2⟩

theorem fieldsLoop_word (w : List Char) (hw : ∀ c ∈ w, isSpace c = false) :
    ∀ (cur l : List Char), fieldsLoop cur (w ++ l) = fieldsLoop (w.reverse ++ cur) l := by
  induction w with
  | nil => intro cur l; rfl
  | cons c cs ih =>
    intro cur l
    have hc : isSpace c = false := hw c (List.mem_cons_self _ _)
    have hstep : fieldsLoop cur (c :: (cs ++ l)) = fieldsLoop (c :: cur) (cs ++ l) := by
      simp only [fieldsLoop, hc, Bool.false_eq_true, if_false]
    rw [List.cons_append, hstep, ih (fun d hd => hw d (List.mem_cons_of_mem _ hd)) (c :: cur) l]
    simp

theorem fieldsLoop_word_front (w post : List Char) (hne : w ≠ [])
    (hw : ∀ c ∈ w, isSpace c = false)
    (hpost : post = [] ∨ ∃ sp rest, post = sp :: rest ∧ isSpace sp = true) :
    (⟨w⟩ : String) ∈ fieldsLoop [] (w ++ post) := by
  rw [fieldsLoop_word w hw [] post]
  have hr : w.reverse ++ [] ≠ [] := by simpa using hne
  have hre : (w.reverse ++ []).isEmpty = false := by
    cases h : w.reverse ++ [] with
    | nil => exact absurd h hr
    | cons _ _ => rfl
  rcases hpost with rfl | ⟨sp, rest, rfl, hsp⟩
  · simp only [fieldsLoop, hre, Bool.false_eq_true, if_false]
    simp
  · simp only [fieldsLoop, hsp, if_true, hre, Bool.false_eq_true, if_false]
    simp

theorem fieldsLoop_skip (x : String) (sp : Char) (hsp : isSpace sp = true) (l : List Char)
    (hx : x ∈ fieldsLoop [] l) :
    ∀ (pre cur : List Char), x ∈ fieldsLoop cur (pre ++ sp :: l) := by
  intro pre
  induction pre with
  | nil =>
    intro cur
    simp only [List.nil_append, fieldsLoop, hsp, if_true]
    split
    · exact hx
    · exact List.mem_cons_of_mem _ hx
  | cons p ps ih =>
    intro cur
    simp only [List.cons_append, fieldsLoop]
    split
    · split
      · exact ih []
      · exact List.mem_cons_of_mem _ (ih [])
    · exact ih (p :: cur)

theorem fields_mem_of_split (pre w post : List Char) (hne : w ≠ [])
    (hw : ∀ c ∈ w, isSpace c = false)
    (hpre : pre = [] ∨ ∃ pre2 sp, pre = pre2 ++ [sp] ∧ isSpace sp = true)
    (hpost : post = [] ∨ ∃ sp rest, post = sp :: rest ∧ isSpace sp = true) :
    (⟨w⟩ : String) ∈ fields ⟨pre ++ w ++ post⟩ := by
  unfold fields
  have hfront := fieldsLoop_word_front w post hne hw hpost
  rcases hpre with rfl | ⟨pre2, sp, rfl, hsp⟩
  · simpa using hfront
  · have := fieldsLoop_skip ⟨w⟩ sp hsp (w ++ post) hfront pre2 []
    simpa [List.append_assoc] using this

theorem exists_word_suffix (l : List Char) :
    ∃ pb u, l = pb ++ u ∧ (∀ c ∈ u, isSpace c = false) ∧
      (pb = [] ∨ ∃ pb2 sp, pb = pb2 ++ [sp] ∧ isSpace sp = true) := by
  induction l using List.reverseRecOn with
  | nil => exact ⟨[], [], rfl, by simp, Or.inl rfl⟩
  | append_singleton l2 c ih =>
    by_cases hc : isSpace c = true
    · exact ⟨l2 ++ [c], [], by simp, by simp, Or.inr ⟨l2, c, rfl, hc⟩⟩
    · obtain ⟨pb, u, hl, hu, hpb⟩ := ih
      refine ⟨pb, u ++ [c], by rw [hl, List.append_assoc], ?_, hpb⟩
      intro d hd
      rcases List.mem_append.mp hd with h | h
      · exact hu d h
      · rw [List.mem_singleton.mp h]
        simpa using hc

theorem exists_word_front (l : List Char) :
    ∃ v pr, l = v ++ pr ∧ (∀ c ∈ v, isSpace c = false) ∧
      (pr = [] ∨ ∃ sp rest, pr = sp :: rest ∧ isSpace sp = true) := by
  induction l with
  | nil => exact ⟨[], [], rfl, by simp, Or.inl rfl⟩
  | cons c cs ih =>
    by_cases hc : isSpace c = true
    · exact ⟨[], c :: cs, rfl, by simp, Or.inr ⟨c, cs, rfl, hc⟩⟩
    · obtain ⟨v, pr, hl, hv, hpr⟩ := ih
      refine ⟨c :: v, pr, by rw [hl]; rfl, ?_, hpr⟩
      intro d hd
      rcases List.mem_cons.mp hd with h | h
      · rw [h]; simpa using hc
      · exact hv d h

theorem related_of_contains_left (na w : List Char) (h : containsChars w na = true) :
    wordRelated ⟨na⟩ ⟨w⟩ = true := by
  have hc : contains ⟨w⟩ ⟨na⟩ = true := h
  simp [wordRelated, hc]

theorem related_of_contains_right (na w : List Char) (h : containsChars na w = true) :
    wordRelated ⟨na⟩ ⟨w⟩ = true := by
  have hc : contains ⟨na⟩ ⟨w⟩ = true := h
  simp [wordRelated, hc]

theorem related_word_of_space_after (na : List Char) (hne : na ≠ [])
    (hlast : ∀ c, na.getLast? = some c → isSpace c = false)
    (pre post : List Char) (sp : Char) (hsp : isSpace sp = true) :
    ∃ w : String, w ∈ fields ⟨pre ++ na ++ sp :: post⟩ ∧ wordRelated ⟨na⟩ w = true := by
  obtain ⟨nb, t, hna, ht, hnb⟩ := exists_word_suffix na
  have htne : t ≠ [] := by
    intro e
    rw [e, List.append_nil] at hna
    rcases hnb with rfl | ⟨nb2, s, rfl, hs⟩
    · exact hne hna
    · have := hlast s (by rw [hna]; simp)
      rw [hs] at this
      exact Bool.noConfusion this
  have hpost : sp :: post = [] ∨ ∃ s rest, sp :: post = s :: rest ∧ isSpace s = true :=
    Or.inr ⟨sp, post, rfl, hsp⟩
  rcases hnb with rfl | ⟨nb2, s, rfl, hs⟩
  · rw [List.nil_append] at hna
    obtain ⟨pb, u, hpre, hu, hpb⟩ := exists_word_suffix pre
    refine ⟨⟨u ++ na⟩, ?_, related_of_contains_left na (u ++ na)
      ((containsChars_iff _ _).mpr ⟨u, [], by simp⟩)⟩
    have hw : ∀ c ∈ u ++ na, isSpace c = false := by
      intro c hc
      rcases List.mem_append.mp hc with h | h
      · exact hu c h
      · rw [hna] at h; exact ht c h
    have := fields_mem_of_split pb (u ++ na) (sp :: post) (by simp [hne]) hw hpb hpost
    rw [hpre]
    simpa [List.append_assoc] using this
  · refine ⟨⟨t⟩, ?_, related_of_contains_right na t
      ((containsChars_iff _ _).mpr ⟨nb2 ++ [s], [], by rw [hna]; simp⟩)⟩
    have := fields_mem_of_split (pre ++ nb2 ++ [s]) t (sp :: post) htne ht
      (Or.inr ⟨pre ++ nb2, s, rfl, hs⟩) hpost
    rw [hna]
    simpa [List.append_assoc] using this

theorem related_word_of_space_before (na : List Char) (hne : na ≠ [])
    (hhead : ∀ c, na.head? = some c → isSpace c = false)
    (pre post : List Char) (sp : Char) (hsp : isSpace sp = true) :
    ∃ w : String, w ∈ fields ⟨pre ++ sp :: na ++ post⟩ ∧ wordRelated ⟨na⟩ w = true := by
  obtain ⟨h, nr, hna, hh, hnr⟩ := exists_word_front na
  have hhne : h ≠ [] := by
    intro e
    rw [e, List.nil_append] at hna
    rcases hnr with rfl | ⟨s, rest, rfl, hs⟩
    · exact hne hna
    · have := hhead s (by rw [hna]; rfl)
      rw [hs] at this
      exact Bool.noConfusion this
  have hpre : pre ++ [sp] = [] ∨ ∃ p2 s, pre ++ [sp] = p2 ++ [s] ∧ isSpace s = true :=
    Or.inr ⟨pre, sp, rfl, hsp⟩
  rcases hnr with rfl | ⟨s, rest, rfl, hs⟩
  · rw [List.append_nil] at hna
    obtain ⟨v, pr, hpost, hv, hpr⟩ := exists_word_front post
    refine ⟨⟨na ++ v⟩, ?_, related_of_contains_left na (na ++ v)
      ((containsChars_iff _ _).mpr ⟨[], v, by simp⟩)⟩
    have hw : ∀ c ∈ na ++ v, isSpace c = false := by
      intro c hc
      rcases List.mem_append.mp hc with h1 | h1
      · rw [hna] at h1; exact hh c h1
      · exact hv c h1
    have := fields_mem_of_split (pre ++ [sp]) (na ++ v) pr (by simp [hne]) hw hpre hpr
    rw [hpost]
    simpa [List.append_assoc] using this
  · refine ⟨⟨h⟩, ?_, related_of_contains_right na h
      ((containsChars_iff _ _).mpr ⟨[], s :: rest, by rw [hna]; simp⟩)⟩
    have := fields_mem_of_split (pre ++ [sp]) h (s :: rest ++ post) hhne hh hpre
      (Or.inr ⟨s, rest ++ post, rfl, hs⟩)
    rw [hna]
    simpa [List.append_assoc] using this

theorem data_append_space (s : String) : (s ++ " ").data = s.data ++ [' '] := rfl

theorem data_space_append (s : String) : (" " ++ s).data = ' ' :: s.data := rfl

theorem no_related_word_of_none (na : String) (words : List String)
    (h : areaWordLoop na words = none) : ∀ w ∈ words, wordRelated na w = false := by
  rw [areaWordLoop_eq] at h
  have hf : words.find? (wordRelated na) = none := by
    cases hfind : words.find? (wordRelated na) with
    | none => rfl
    | some w => rw [hfind] at h; simp at h
  intro w hw
  have := (List.find?_eq_none.mp hf) w hw
  simpa using this

theorem boundary_checks_false (F na : String) (hne : na ≠ "")
    (hhead : ∀ c, na.data.head? = some c → isSpace c = false)
    (hlast : ∀ c, na.data.getLast? = some c → isSpace c = false)
    (hnone : areaWordLoop na (fields F) = none) :
    contains F (" " ++ na ++ " ") = false ∧ contains F (na ++ " ") = false ∧
    contains F (" " ++ na) = false := by
  have hrel := no_related_word_of_none na (fields F) hnone
  have hdne : na.data ≠ [] := by
    intro e
    exact hne (String.ext e)
  have hsp : isSpace ' ' = true := rfl
  have hafter : ∀ pre post : List Char, F.data ≠ pre ++ na.data ++ ' ' :: post := by
    intro pre post hF
    obtain ⟨w, hw, hr⟩ := related_word_of_space_after na.data hdne hlast pre post ' ' hsp
    have hFs : F = ⟨pre ++ na.data ++ ' ' :: post⟩ := String.ext hF
    rw [← hFs] at hw
    have hr2 : wordRelated na w = true := hr
    rw [hrel w hw] at hr2
    exact Bool.noConfusion hr2
  have hbefore : ∀ pre post : List Char, F.data ≠ pre ++ ' ' :: na.data ++ post := by
    intro pre post hF
    obtain ⟨w, hw, hr⟩ := related_word_of_space_before na.data hdne hhead pre post ' ' hsp
    have hFs : F = ⟨pre ++ ' ' :: na.data ++ post⟩ := String.ext hF
    rw [← hFs] at hw
    have hr2 : wordRelated na w = true := hr
    rw [hrel w hw] at hr2
    exact Bool.noConfusion hr2
  refine ⟨?_, ?_, ?_⟩
  · cases hc : contains F (" " ++ na ++ " ") with
    | false => rfl
    | true =>
      obtain ⟨pre, post, hF⟩ := (containsChars_iff _ _).mp hc
      rw [data_append_space, data_space_append] at hF
      exact absurd (by rw [hF]; simp) (hafter (pre ++ [' ']) post)
  · cases hc : contains F (na ++ " ") with
    | false => rfl
    | true =>
      obtain ⟨pre, post, hF⟩ := (containsChars_iff _ _).mp hc
      rw [data_append_space] at hF
      exact absurd (by rw [hF]; simp) (hafter pre post)
  · cases hc : contains F (" " ++ na) with
    | false => rfl
    | true =>
      obtain ⟨pre, post, hF⟩ := (containsChars_iff _ _).mp hc
      rw [data_space_append] at hF
      exact absurd hF (hbefore pre post)

theorem scoreAreaFriendly_eq_noBoundary (U : UnicodeTables) (m : EntityMatch) (na : String)
    (hne : na ≠ "")
    (hhead : ∀ c, na.data.head? = some c → isSpace c = false)
    (hlast : ∀ c, na.data.getLast? = some c → isSpace c = false) :
    scoreAreaFriendly U m na = scoreAreaFriendlyNoBoundary U m na := by
  unfold scoreAreaFriendly scoreAreaFriendlyNoBoundary
  simp only []
  cases hloop : areaWordLoop na (fields (toLower U m.FriendlyName)) with
  | some r => rfl
  | none =>
    obtain ⟨h1, h2, h3⟩ := boundary_checks_false (toLower U m.FriendlyName) na hne hhead hlast
      hloop
    simp only [h1, h2, h3, Bool.false_eq_true, if_false, Bool.or_self]

/-- C29: for an alias-resolved lower-cased area phrase that is non-empty and
has no leading or trailing whitespace, `scoreArea` returns the same value as
its variant without the two explicit-boundary checks (0.98 and 0.95): whenever
the lower-cased friendly name contains the phrase next to a space, the word
loop before them has already returned 1.0, 0.95 or 0.90. -/
theorem C29_boundary_checks_never_decide (U : UnicodeTables) (cfg : Config)
    (m : EntityMatch) (area : String)
    (hne : resolveAlias U cfg area ≠ "")
    (hhead : ∀ c, (resolveAlias U cfg area).data.head? = some c → isSpace c = false)
    (hlast : ∀ c, (resolveAlias U cfg area).data.getLast? = some c → isSpace c = false) :
    scoreArea U cfg m area = scoreAreaNoBoundary U cfg m area ∧
    ((contains (toLower U m.FriendlyName) (" " ++ resolveAlias U cfg area ++ " ") = true ∨
        contains (toLower U m.FriendlyName) (resolveAlias U cfg area ++ " ") = true ∨
        contains (toLower U m.FriendlyName) (" " ++ resolveAlias U cfg area) = true) →
      ∃ r, areaWordLoop (resolveAlias U cfg area) (fields (toLower U m.FriendlyName)) = some r ∧
        (r = 1.0 ∨ r = 0.95 ∨ r = 0.90)) := by
  constructor
  · unfold scoreArea scoreAreaNoBoundary
    simp only []
    rw [scoreAreaFriendly_eq_noBoundary U m _ hne hhead hlast]
  · intro hc
    cases hloop : areaWordLoop (resolveAlias U cfg area) (fields (toLower U m.FriendlyName)) with
    | none =>
      obtain ⟨h1, h2, h3⟩ := boundary_checks_false (toLower U m.FriendlyName) _ hne hhead
        hlast hloop
      rw [h1, h2, h3] at hc
      simp at hc
    | some r =>
      refine ⟨r, rfl, ?_⟩
      rw [areaWordLoop_eq] at hloop
      cases hf : (fields (toLower U m.FriendlyName)).find?
          (wordRelated (resolveAlias U cfg area)) with
      | none => rw [hf] at hloop; simp at hloop
      | some w =>
        rw [hf] at hloop
        simp only [Option.map_some', Option.some.injEq] at hloop
        rw [← hloop]
        exact wordScore_values _ w

/-- C29 at the match "Kitchenette Kitchen", no aliases and the phrase
"kitchen". -/
theorem C29_boundary_checks_never_decide_witness :
    resolveAlias asciiTables DefaultConfig "kitchen" ≠ "" ∧
    (∀ c, (resolveAlias asciiTables DefaultConfig "kitchen").data.head? = some c →
      isSpace c = false) ∧
    (∀ c, (resolveAlias asciiTables DefaultConfig "kitchen").data.getLast? = some c →
      isSpace c = false) ∧
    scoreArea asciiTables DefaultConfig kitchenetteMatch "kitchen" =
      scoreAreaNoBoundary asciiTables DefaultConfig kitchenetteMatch "kitchen" :=
  ⟨by decide, by intro c h; cases h; decide, by intro c h; cases h; decide,
    (C29_boundary_checks_never_decide asciiTables DefaultConfig kitchenetteMatch "kitchen"
      (by decide) (by intro c h; cases h; decide) (by intro c h; cases h; decide)).1⟩

end entity
